import Mathlib

set_option maxHeartbeats 1000000

/-!
Verification development for the resource cache/tree synchronization engine of
`src/src/models/ResourceManager.ts` (a calendar resource manager).

Shallow embedding conventions:
* JS objects forming a cyclic graph (resources with `parent` back-references and
  `children` arrays) are represented by an arena: `nodes : List ResourceNode`,
  where a "resource object" is an arena index (`Nat`) and object identity is
  index equality.  Field mutation is `List.set` at the index.
* The JS object `resourcesById` is an insertion-ordered association list
  (JS string-keyed objects enumerate keys in insertion order; `delete` removes
  the key; keys are unique, which the insertion guard in `addResourceToIndex`
  maintains).
* Moments (date-range endpoints) are modelled as `Option Nat`
  (`none` = absent/undefined); `isSame` on two present moments is `Nat` equality.
* Side effects observable by the embedder (lifecycle `trigger`s, the public
  `publiclyTrigger('resourcesSet')`, callback invocations,
  `pushLoading`/`popLoading`, and source success/error hooks) are recorded in an
  append-only `trace`.
* Asynchronous source resolution (function sources and remote descriptors) is
  split at the suspension point: starting a fetch returns a `Pending` token
  capturing the closure state, and a separate completion function models the
  later callback from the source.  The completion closure of `fetchResources`
  captures the `callbacks` array by reference; since `whenFetchingResolved`
  pushes onto that same array and the closure reads it only under the
  `currentFetchId === this.fetchId` guard (under which the array is still the
  one stored in the field), the embedding reads the field at completion time.
* `JSON.parse` (an opaque external parser) is represented by its outcome: the
  raw response text is carried as `Option (Except Unit (List ResourceInput))`,
  `Except.error` meaning the text does not parse (in JS, `JSON.parse` throws).
  A JS exception escaping the module is the `Option Unit` component of
  `requestEnd`'s result.
* Pass-through presentation fields of raw inputs (`title`, `eventClassName`,
  `businessHours`, the HTTP url/method/params of remote descriptors) are not
  observed by any property proved here and are omitted from the embedding.
* Recursions that follow arena links (`addResourceToIndex`,
  `removeResourceFromIndex`, `removeResourceFromTree`) are not structural; they
  are embedded with an explicit fuel parameter whose public wrapper supplies a
  bound that is proved adequate on the (finite, acyclic) states the lemmas are
  about.  Fuel exhaustion returns the no-progress answer.
-/

/-- A raw resource input record: the fields the engine inspects.
`id = none` models an absent or `null` id. -/
inductive ResourceInput : Type where
  | mk (id : Option String) (parentId : Option String) (children : List ResourceInput)
deriving Repr

def ResourceInput.id : ResourceInput → Option String
  | .mk i _ _ => i

def ResourceInput.parentId : ResourceInput → Option String
  | .mk _ p _ => p

def ResourceInput.children : ResourceInput → List ResourceInput
  | .mk _ _ cs => cs

/-- A built resource object, as an arena slot.  `rid` is `resource.id` (already
stringified), `children`/`parent` are arena indices. -/
structure ResourceNode where
  rid : String
  parentId : Option String
  children : List Nat
  parent : Option Nat
deriving Repr, DecidableEq, Inhabited

/-- The response object a remote request hands to `theRequest.end`'s callback.
`body` is the JSON-parsed body if the transport layer parsed one; `text` is the
raw text, represented by its `JSON.parse` outcome. -/
structure RemoteResponse where
  body : Option (List ResourceInput)
  text : Option (Except Unit (List ResourceInput))
deriving Repr

/-- The shapes of `calendar.opt('resources')` the engine sniffs
(string / array / function / non-null object / anything else).
Function sources are opaque: their eventual inputs arrive via
`functionSourceComplete`.  For object sources, `success` is the optional
transforming success hook (returning `some` models the hook returning an
array), `error` is the optional error hook (an opaque handler id). -/
inductive Source : Type where
  | str (url : String)
  | list (inputs : List ResourceInput)
  | func
  | object (method : Option String) (url : String)
      (success : Option (List ResourceInput → RemoteResponse → Option (List ResourceInput)))
      (error : Option Nat)
  | other

/-- Entries of the pending-callback queue.  User callbacks are opaque ids; the
closures queued by `addResource`/`removeResource` are defunctionalized. -/
inductive Callback : Type where
  | user (cb : Nat)
  | pendingAdd (input : ResourceInput) (cb : Option Nat)
  | pendingRemove (id : String)
deriving Repr

/-- Observable events, in emission order. -/
inductive Ev : Type where
  | set (tops : Option (List Nat))
  | reset (tops : Option (List Nat))
  | add (r : Nat) (tops : Option (List Nat))
  | remove (r : Nat) (tops : Option (List Nat))
  | resourcesSet (tops : Option (List Nat))
  | userCb (cb : Nat) (tops : Option (List Nat))
  | addCb (cb : Nat) (r : Nat)
  | pushLoading
  | popLoading
  | sourceSuccess
  | sourceError (hook : Nat) (error : Bool) (res : RemoteResponse)
deriving Repr

/-- The manager state.  Field names follow the source.  `resourceGuid` is the
process-wide static counter (a single manager instance is modelled, so it lives
in the state); `trace` records observable events. -/
structure ResourceManager where
  nodes : List ResourceNode
  resourcesById : List (String × Nat)
  topLevelResources : Option (List Nat)
  fetchId : Nat
  isFetchingInitiated : Bool
  isFetchingResolved : Bool
  fetchingResourcesCallbacks : List Callback
  currentStart : Option Nat
  currentEnd : Option Nat
  resourceGuid : Nat
  trace : List Ev

/-- The suspension token of an asynchronous source resolution: the state the
completion closure captured. -/
structure Pending : Type where
  fetchId : Nat
  source : Source

/-- Association-list lookup, JS `obj[key]` (keys unique by construction). -/
def idxLookup : List (String × Nat) → String → Option Nat
  | [], _ => none
  | p :: ps, k => if p.1 = k then some p.2 else idxLookup ps k

/-- JS `delete obj[key]`. -/
def eraseKey : List (String × Nat) → String → List (String × Nat)
  | [], _ => []
  | p :: ps, k => if p.1 = k then eraseKey ps k else p :: eraseKey ps k

/-- Decimal digit characters of `n`, most significant first (verification
helper used to reason about `Nat.repr`, which generated ids embed). -/
def natChars (n : Nat) : List Char :=
  if h : n < 10 then [Nat.digitChar n]
  else natChars (n / 10) ++ [Nat.digitChar (n % 10)]
  decreasing_by exact Nat.div_lt_self (by omega) (by omega)

/-- The numeric value of a decimal digit character. -/
def digitVal (c : Char) : Nat := c.toNat - 48

/-- Parse a decimal character list back to a number (left inverse of
`natChars`). -/
def ofDecChars (l : List Char) : Nat :=
  l.foldl (fun a c => a * 10 + digitVal c) 0

/-- The user-callback invocations recorded in a trace: which callback fired,
and the `topLevelResources` it received. -/
def userCbEvents (tr : List Ev) : List (Nat × Option (List Nat)) :=
  tr.filterMap (fun e =>
    match e with
    | .userCb cb tops => some (cb, tops)
    | _ => none)

namespace ResourceManager

/-- Read an arena slot.  Out-of-range reads never occur on the states the
theorems are about; the default is a junk node. -/
def getNode (st : ResourceManager) (i : Nat) : ResourceNode :=
  st.nodes.getD i default

/-- Write an arena slot (JS field mutation on the object `i`). -/
def setNode (st : ResourceManager) (i : Nat) (n : ResourceNode) : ResourceManager :=
  { st with nodes := st.nodes.set i n }

/-- `this.trigger(...)` / callback invocation / loading counters: append the
event to the trace. -/
def emitEv (st : ResourceManager) (e : Ev) : ResourceManager :=
  { st with trace := st.trace ++ [e] }

/-- `calendar.pushLoading()`. -/
def pushLoading (st : ResourceManager) : ResourceManager := st.emitEv .pushLoading

/-- `calendar.popLoading()`. -/
def popLoading (st : ResourceManager) : ResourceManager := st.emitEv .popLoading

/-- The allocation step of `buildResource`: append the fresh node (children and
parent still empty) and update the guid counter.  `buildResource` inlines this;
the lemmas name it to state facts uniformly over both id cases. -/
def allocState (st : ResourceManager) (rid0 : String) (pid0 : Option String)
    (g : Nat) : ResourceManager :=
  { st with
    nodes := st.nodes ++ [{ rid := rid0, parentId := pid0, children := [], parent := none }],
    resourceGuid := g }

mutual

/-- `buildResource(resourceInput)`: allocates the object, assigns
`resource.id` (stringified raw id, or `'_fc' + resourceGuid++` when the raw id
is `null`/absent), then recursively builds `children`, setting each child's
`parent` back-reference.  Returns the new object's arena index.
(`eventClassName` normalization and `businessHourGenerator` construction are
pass-through effects not observed by any claim and are omitted.) -/
def buildResource (st : ResourceManager) : ResourceInput → ResourceManager × Nat
  | .mk rawId rawParentId rawChildren =>
    let i := st.nodes.length
    let rid := match rawId with
      | some s => s
      | none => "_fc" ++ toString st.resourceGuid
    let st1 : ResourceManager :=
      { st with
        nodes := st.nodes ++ [{ rid := rid, parentId := rawParentId, children := [], parent := none }],
        resourceGuid := match rawId with
          | some _ => st.resourceGuid
          | none => st.resourceGuid + 1 }
    let p := buildChildren st1 i rawChildren
    ((p.1.setNode i { p.1.getNode i with children := p.2 }), i)

/-- The `map` over `resourceInput.children` inside `buildResource`:
build the child, then set `child.parent = resource`. -/
def buildChildren (st : ResourceManager) (parentIdx : Nat) :
    List ResourceInput → ResourceManager × List Nat
  | [] => (st, [])
  | c :: rest =>
    let p := buildResource st c
    let st2 := p.1.setNode p.2 { p.1.getNode p.2 with parent := some parentIdx }
    let q := buildChildren st2 parentIdx rest
    (q.1, p.2 :: q.2)

end

/-- `resourceInputs.map(input => this.buildResource(input))` in `setResources`. -/
def buildResourceList (st : ResourceManager) : List ResourceInput → ResourceManager × List Nat
  | [] => (st, [])
  | x :: xs =>
    let p := buildResource st x
    let q := buildResourceList p.1 xs
    (q.1, p.2 :: q.2)

/-- Fueled core of `addResourceToIndex(resource)`: reject when the id is
already present, otherwise store the entry and recursively insert every child
(by arena link).  Fuel bounds the recursion depth. -/
def addResourceToIndexCore : Nat → ResourceManager → Nat → ResourceManager × Bool
  | 0, st, _ => (st, false)
  | fuel + 1, st, r =>
    if (idxLookup st.resourcesById (st.getNode r).rid).isSome then
      (st, false)
    else
      let st1 : ResourceManager :=
        { st with resourcesById := st.resourcesById ++ [((st.getNode r).rid, r)] }
      let st2 := (st1.getNode r).children.foldl
        (fun s c => (addResourceToIndexCore fuel s c).1) st1
      (st2, true)

/-- `addResourceToIndex(resource)`.  Along any recursion chain each level
inserts a fresh key for a distinct node, so depth never exceeds the arena
size; the wrapper supplies that bound as fuel. -/
def addResourceToIndex (st : ResourceManager) (r : Nat) : ResourceManager × Bool :=
  addResourceToIndexCore (st.nodes.length + 1) st r

/-- `addResourceToTree(resource)`: no-op returning true when the `parent`
back-reference is already set; otherwise resolve
`String(resource.parentId != null ? resource.parentId : '')` — nonempty means
look the parent up in the index (not found: return false; found: set the
back-reference and push onto the parent's children), empty means push onto the
top-level list.  (When `topLevelResources` is `null`, the JS `push` would
throw; callers only reach this with a non-null cache, and the embedding maps
over the `Option`.) -/
def addResourceToTree (st : ResourceManager) (r : Nat) : ResourceManager × Bool :=
  if (st.getNode r).parent.isSome then
    (st, true)
  else
    let parentId := match (st.getNode r).parentId with
      | some s => s
      | none => ""
    if parentId ≠ "" then
      match idxLookup st.resourcesById parentId with
      | some parent =>
        let st1 := st.setNode r { st.getNode r with parent := some parent }
        (st1.setNode parent
          { st1.getNode parent with children := (st1.getNode parent).children ++ [r] }, true)
      | none => (st, false)
    else
      ({ st with topLevelResources := st.topLevelResources.map (fun t => t ++ [r]) }, true)

/-- Fueled core of `removeResourceFromIndex(resourceId)`: if present, delete
the key, then recursively remove each recorded child by its id; return the
removed object (the source returns `false` when not found — a JS falsy value
modelled, like `null`, by `none`). -/
def removeResourceFromIndexCore : Nat → ResourceManager → String → ResourceManager × Option Nat
  | 0, st, _ => (st, none)
  | fuel + 1, st, resourceId =>
    match idxLookup st.resourcesById resourceId with
    | some r =>
      let st1 : ResourceManager := { st with resourcesById := eraseKey st.resourcesById resourceId }
      let st2 := (st1.getNode r).children.foldl
        (fun s c => (removeResourceFromIndexCore fuel s (s.getNode c).rid).1) st1
      (st2, some r)
    | none => (st, none)

/-- `removeResourceFromIndex(resourceId)`.  Each recursion level first deletes
a key that was present, so depth never exceeds the index size; the wrapper
supplies that bound as fuel. -/
def removeResourceFromIndex (st : ResourceManager) (resourceId : String) :
    ResourceManager × Option Nat :=
  removeResourceFromIndexCore (st.resourcesById.length + 1) st resourceId

/-- The sibling list the search of `removeResourceFromTree` is currently
scanning: `none` is the default `this.topLevelResources`, `some p` is
`nodes[p].children` (the array is aliased, so splices are written back to its
owner). -/
def ownerList (st : ResourceManager) : Option Nat → List Nat
  | none => st.topLevelResources.getD []
  | some p => (st.getNode p).children

/-- Write a spliced sibling list back to its owner. -/
def writeOwner (st : ResourceManager) (o : Option Nat) (l : List Nat) : ResourceManager :=
  match o with
  | none => { st with topLevelResources := st.topLevelResources.map (fun _ => l) }
  | some p => st.setNode p { st.getNode p with children := l }

/-- Fueled core of `removeResourceFromTree(resource, siblings)`: scan the
sibling list from position `i`; on identity match clear `resource.parent` and
splice the element out; otherwise first search the sibling's children
depth-first, then continue the scan.  Fuel bounds the call chain. -/
def removeResourceFromTreeCore :
    Nat → ResourceManager → Nat → Option Nat → Nat → ResourceManager × Bool
  | 0, st, _, _, _ => (st, false)
  | fuel + 1, st, r, o, i =>
    let siblings := st.ownerList o
    if i < siblings.length then
      let s := siblings.getD i 0
      if s = r then
        let st1 := st.setNode r { st.getNode r with parent := none }
        (st1.writeOwner o (siblings.eraseIdx i), true)
      else
        match removeResourceFromTreeCore fuel st r (some s) 0 with
        | (st1, true) => (st1, true)
        | (st1, false) => removeResourceFromTreeCore fuel st1 r o (i + 1)
    else (st, false)

/-- A call-chain bound for the tree search: the scan of one list of length `k`
takes `k + 1` calls and each descent one more, so chains are bounded by the
total size of the structure. -/
def treeFuel (st : ResourceManager) : Nat :=
  (st.topLevelResources.getD []).length +
    st.nodes.foldl (fun a n => a + n.children.length + 1) 0 + 2

/-- `removeResourceFromTree(resource)` with the default `siblings`
(`this.topLevelResources`). -/
def removeResourceFromTree (st : ResourceManager) (r : Nat) : ResourceManager × Bool :=
  removeResourceFromTreeCore st.treeFuel st r none 0

/-- `initializeCache()` in the source (name shortened). -/
def initCache (st : ResourceManager) : ResourceManager :=
  { st with topLevelResources := some [], resourcesById := [] }

/-- `getFlatResources()`: the values of `resourcesById` in key order. -/
def getFlatResources (st : ResourceManager) : List Nat :=
  st.resourcesById.map (·.2)

/-- `getResourceById(id)`. -/
def getResourceById (st : ResourceManager) (id : String) : Option Nat :=
  idxLookup st.resourcesById id

/-- One step of `setResources`' indexing loop: insert into the index and
collect the resource when insertion succeeded (`validResources.push`). -/
def indexStep (acc : ResourceManager × List Nat) (r : Nat) : ResourceManager × List Nat :=
  let p := addResourceToIndex acc.1 r
  if p.2 then (p.1, acc.2 ++ [r]) else (p.1, acc.2)

/-- One step of `setResources`' attach loop. -/
def attachStep (s : ResourceManager) (r : Nat) : ResourceManager :=
  (s.addResourceToTree r).1

/-- `setResources(resourceInputs)`: remember whether the cache was non-null,
wholesale reset it, build every input, index the built resources (collecting
the non-duplicates), attach the valid ones to the tree, then emit `reset`
(when the cache was non-null) or `set`, and the public `resourcesSet`. -/
def setResources (st : ResourceManager) (resourceInputs : List ResourceInput) : ResourceManager :=
  let wasSet := st.topLevelResources.isSome
  let st0 := st.initCache
  let br := st0.buildResourceList resourceInputs
  let iv := br.2.foldl indexStep (br.1, ([] : List Nat))
  let st3 := iv.2.foldl attachStep iv.1
  let st4 := st3.emitEv
    (if wasSet then .reset st3.topLevelResources else .set st3.topLevelResources)
  st4.emitEv (.resourcesSet st4.topLevelResources)

/-- `clear()`. -/
def clear (st : ResourceManager) : ResourceManager :=
  { st with isFetchingInitiated := false, topLevelResources := none }

/-- The closure body of `addResource` (runs once the fetch is resolved):
build, insert into the index; if not a duplicate, attach to the tree, emit
`add`, and invoke the caller's callback with the resource. -/
def addResourceBody (st : ResourceManager) (resourceInput : ResourceInput)
    (callback : Option Nat) : ResourceManager :=
  let b := st.buildResource resourceInput
  let p := addResourceToIndex b.1 b.2
  if p.2 then
    let st3 := (p.1.addResourceToTree b.2).1
    let st4 := st3.emitEv (.add b.2 st3.topLevelResources)
    match callback with
    | some c => st4.emitEv (.addCb c b.2)
    | none => st4
  else p.1

/-- The closure body of `removeResource` (runs once the fetch is resolved):
remove from the index; when found, detach from the tree and emit `remove`. -/
def removeResourceBody (st : ResourceManager) (id : String) : ResourceManager :=
  let p := st.removeResourceFromIndex id
  match p.2 with
  | some r =>
    let st2 := (p.1.removeResourceFromTree r).1
    st2.emitEv (.remove r st2.topLevelResources)
  | none => p.1

/-- Invoke one queued callback: a user callback receives the current
`topLevelResources` (the array is passed by reference, so each invocation
observes its content at invocation time); the defunctionalized closures run
their bodies (their argument is ignored in the source). -/
def runCallback (st : ResourceManager) : Callback → ResourceManager
  | .user cb => st.emitEv (.userCb cb st.topLevelResources)
  | .pendingAdd input cb => st.addResourceBody input cb
  | .pendingRemove id => st.removeResourceBody id

/-- `applyAll(callbacks, null, [this.topLevelResources])`. -/
def applyAllCallbacks (st : ResourceManager) (cbs : List Callback) : ResourceManager :=
  cbs.foldl runCallback st

/-- `whenFetchingResolved(callback)`. -/
def whenFetchingResolved (st : ResourceManager) (callback : Callback) : ResourceManager :=
  if st.isFetchingResolved then st.runCallback callback
  else { st with fetchingResourcesCallbacks := st.fetchingResourcesCallbacks ++ [callback] }

/-- The completion closure created by `fetchResources`: if the captured
generation is still current, rebuild from the raw inputs, mark resolved, null
the queue, and invoke the captured callback batch; otherwise do nothing. -/
def fetchCompletion (st : ResourceManager) (currentFetchId : Nat)
    (resourceInputs : List ResourceInput) : ResourceManager :=
  if currentFetchId = st.fetchId then
    let callbacks := st.fetchingResourcesCallbacks
    let st1 := st.setResources resourceInputs
    let st2 : ResourceManager :=
      { st1 with isFetchingResolved := true, fetchingResourcesCallbacks := [] }
    st2.applyAllCallbacks callbacks
  else st

/-- `fetchResourceInputs(callback, start, end)`, with the completion closure
defunctionalized as `fetchCompletion · currentFetchId`.  A string source is
first normalized to `{ url: source }`.  An array is delivered synchronously; a
function or remote descriptor increments the loading counter and suspends
(the eventual response arrives via `functionSourceComplete` / `requestEnd`);
any other shape yields `[]`.  (Request construction — url, method, date-range
and timezone params — is not observed by any claim and is omitted.) -/
def fetchResourceInputs (st : ResourceManager) (currentFetchId : Nat) (source : Source)
    (start end_ : Option Nat) : ResourceManager × Option Pending :=
  match source with
  | .list inputs => (st.fetchCompletion currentFetchId inputs, none)
  | .func => (st.pushLoading, some ⟨currentFetchId, .func⟩)
  | .str url => (st.pushLoading, some ⟨currentFetchId, .object none url none none⟩)
  | .object m u sc er => (st.pushLoading, some ⟨currentFetchId, .object m u sc er⟩)
  | .other => (st.fetchCompletion currentFetchId [], none)

/-- `fetchResources(start, end, callback)`: bump the generation counter, mark
fetching initiated and unresolved, start a fresh callback batch, and resolve
the source.  (Note: `currentStart`/`currentEnd` are *not* assigned.) -/
def fetchResources (st : ResourceManager) (source : Source) (start end_ : Option Nat)
    (callback : Callback) : ResourceManager × Option Pending :=
  let currentFetchId := st.fetchId + 1
  let st1 : ResourceManager :=
    { st with
      fetchId := currentFetchId,
      isFetchingInitiated := true,
      isFetchingResolved := false,
      fetchingResourcesCallbacks := [callback] }
  st1.fetchResourceInputs currentFetchId source start end_

/-- `getResources(start, end, callback)`: refetch on the first call or when the
range differs from the recorded one, else resolve against the existing fetch.
(`isSame` on two present moments is equality; with only one side present the
JS guard short-circuits to false.) -/
def getResources (st : ResourceManager) (source : Source) (start end_ : Option Nat)
    (callback : Callback) : ResourceManager × Option Pending :=
  let isSameRange :=
    (start.isNone && st.currentStart.isNone) ||
    (start.isSome && st.currentStart.isSome &&
      (match start, st.currentStart with | some a, some b => a == b | _, _ => false) &&
      (match end_, st.currentEnd with | some a, some b => a == b | _, _ => false))
  if !st.isFetchingInitiated || !isSameRange then
    st.fetchResources source start end_ callback
  else
    (st.whenFetchingResolved callback, none)

/-- `addResource(resourceInput, callback?)`: a no-op unless fetching was
initiated; otherwise run the body once the fetch resolves. -/
def addResource (st : ResourceManager) (resourceInput : ResourceInput)
    (callback : Option Nat) : ResourceManager :=
  if st.isFetchingInitiated then
    st.whenFetchingResolved (.pendingAdd resourceInput callback)
  else st

/-- `removeResource(idOrResource)`: resolve the argument to an id (an object
contributes its `id` field), then, if fetching was initiated, run the body
once the fetch resolves. -/
def removeResource (st : ResourceManager) (idOrResource : Sum String Nat) : ResourceManager :=
  let id := match idOrResource with
    | .inr r => (st.getNode r).rid
    | .inl s => s
  if st.isFetchingInitiated then
    st.whenFetchingResolved (.pendingRemove id)
  else st

/-- A function source invoking its completion callback with raw inputs:
`calendar.popLoading()` then the captured completion closure. -/
def functionSourceComplete (st : ResourceManager) (p : Pending)
    (resourceInputs : List ResourceInput) : ResourceManager :=
  (st.popLoading).fetchCompletion p.fetchId resourceInputs

/-- The `theRequest.end((error, res) => ...)` handler of a remote source:
pop the loading counter; without a transport error take the parsed body, else
parse the raw text (`JSON.parse` throws on unparsable text — the `some ()`
outcome, escaping as a JS exception with the state mutated so far).  With
inputs in hand, run the success hook (an array result replaces the inputs) and
complete; otherwise invoke the error hook with the error and raw response and
complete with `[]`. -/
def requestEnd (st : ResourceManager) (p : Pending) (error : Bool) (res : RemoteResponse) :
    ResourceManager × Option Unit :=
  let st := st.popLoading
  let parsed : Except Unit (Option (List ResourceInput)) :=
    if !error then
      match res.body with
      | some b => .ok (some b)
      | none =>
        match res.text with
        | some (.ok v) => .ok (some v)
        | some (.error e) => .error e
        | none => .ok none
    else .ok none
  match parsed with
  | .error e => (st, some e)
  | .ok (some resourceInputs) =>
    match p.source with
    | .object _ _ (some sc) _ =>
      let st := st.emitEv .sourceSuccess
      let resourceInputs := match sc resourceInputs res with
        | some arr => arr
        | none => resourceInputs
      (st.fetchCompletion p.fetchId resourceInputs, none)
    | _ => (st.fetchCompletion p.fetchId resourceInputs, none)
  | .ok none =>
    let st := match p.source with
      | .object _ _ _ (some h) => st.emitEv (.sourceError h error res)
      | _ => st
    (st.fetchCompletion p.fetchId [], none)

/-- `constructor(calendar)`: initialize the cache (so `topLevelResources`
starts as the — truthy — empty array, not null). -/
def construct : ResourceManager :=
  initCache
    { nodes := []
      resourcesById := []
      topLevelResources := some []
      fetchId := 0
      isFetchingInitiated := false
      isFetchingResolved := false
      fetchingResourcesCallbacks := []
      currentStart := none
      currentEnd := none
      resourceGuid := 1
      trace := [] }

/-- Reachability from the top-level list by following `children` links. -/
inductive Reachable (st : ResourceManager) : Nat → Prop where
  | top {i : Nat} : i ∈ st.topLevelResources.getD [] → Reachable st i
  | child {j i : Nat} : Reachable st j → i ∈ (st.getNode j).children → Reachable st i

/-- The fetch-coordinator fields (and the trace) two states agree on; the pure
structure operations (build/index/tree) touch none of them. -/
def coreEq (a b : ResourceManager) : Prop :=
  a.fetchId = b.fetchId ∧
  a.isFetchingInitiated = b.isFetchingInitiated ∧
  a.isFetchingResolved = b.isFetchingResolved ∧
  a.fetchingResourcesCallbacks = b.fetchingResourcesCallbacks ∧
  a.currentStart = b.currentStart ∧
  a.currentEnd = b.currentEnd ∧
  a.trace = b.trace

/-- Everything except `resourcesById` agrees: what the index operations
preserve. -/
def structEq (a b : ResourceManager) : Prop :=
  a.nodes = b.nodes ∧
  a.topLevelResources = b.topLevelResources ∧
  a.resourceGuid = b.resourceGuid ∧
  coreEq a b

/-- What the tree operations preserve: the index, the id counter, the arena
size, and the coordinator state. -/
def treeOpEq (a b : ResourceManager) : Prop :=
  a.resourcesById = b.resourcesById ∧
  a.resourceGuid = b.resourceGuid ∧
  a.nodes.length = b.nodes.length ∧
  coreEq a b

/-- All top-level entries and all children links stay inside the arena. -/
def arenaClosed (st : ResourceManager) : Prop :=
  (∀ i ∈ st.topLevelResources.getD [], i < st.nodes.length) ∧
  ∀ j, j < st.nodes.length → ∀ c ∈ (st.getNode j).children, c < st.nodes.length

instance arenaClosedDecidable (st : ResourceManager) : Decidable (arenaClosed st) :=
  decidable_of_iff
    ((∀ i ∈ st.topLevelResources.getD [], i < st.nodes.length) ∧
      ∀ j, j < st.nodes.length → ∀ c ∈ (st.getNode j).children, c < st.nodes.length)
    Iff.rfl

end ResourceManager

/-- An abstract rose tree of arena indices: the decoration witnessing that a
cluster of arena nodes forms a tree through `children` links. -/
inductive RTree : Type where
  | node (i : Nat) (cs : List RTree)

def RTree.root : RTree → Nat
  | .node i _ => i

/-- The roots of a list of trees. -/
def rootsL (ts : List RTree) : List Nat := ts.map RTree.root

mutual

/-- All indices of a tree, in preorder. -/
def RTree.flat : RTree → List Nat
  | .node i cs => i :: flatL cs

/-- All indices of a forest, in preorder. -/
def flatL : List RTree → List Nat
  | [] => []
  | t :: ts => t.flat ++ flatL ts

end

mutual

/-- `t` decorates the arena of `st`: each tree node is a live slot whose
`children` field lists exactly the roots of its subtrees and whose `parent`
back-reference points at the tree parent (`po` for the root). -/
def goodT (st : ResourceManager) : RTree → Option Nat → Prop
  | .node i cs, po =>
    i < st.nodes.length ∧
    (st.getNode i).parent = po ∧
    (st.getNode i).children = rootsL cs ∧
    goodL st cs i

/-- Each tree of `ts` decorates `st` with parent `pi`. -/
def goodL (st : ResourceManager) : List RTree → Nat → Prop
  | [], _ => True
  | t :: ts, pi => goodT st t (some pi) ∧ goodL st ts pi

end

/-- The state after `addResourceToIndex` has inserted a whole decorated
subtree: the index is extended by the subtree's `(id, node)` entries in
preorder. -/
def indexedState (st : ResourceManager) (t : RTree) : ResourceManager :=
  { st with resourcesById :=
      st.resourcesById ++ t.flat.map (fun j => ((st.getNode j).rid, j)) }

/-- Delete a list of keys in order (the erasures `removeResourceFromIndex`
performs, in preorder). -/
def eraseKeys (m : List (String × Nat)) (ks : List String) : List (String × Nat) :=
  ks.foldl eraseKey m

/-- One public mutation of the resource store, as quantified over by the
lockstep claim: a full `setResources` reload, an incremental `addResource`
(without caller callback), or a `removeResource` by id. -/
inductive Op : Type where
  | setRes (inputs : List ResourceInput)
  | addRes (input : ResourceInput)
  | removeRes (id : String)

/-- Apply one operation through the public entry points. -/
def applyOp (st : ResourceManager) : Op → ResourceManager
  | .setRes inputs => st.setResources inputs
  | .addRes input => st.addResource input none
  | .removeRes id => st.removeResource (.inl id)

/-- Apply a sequence of operations left to right. -/
def applyOps (st : ResourceManager) : List Op → ResourceManager
  | [] => st
  | op :: ops => applyOps (applyOp st op) ops

/-- The ids assigned to the nodes a build appended beyond arena size `old`, in
allocation (preorder) order. -/
def builtRids (stNew : ResourceManager) (old : Nat) : List String :=
  (List.range' old (stNew.nodes.length - old)).map
    (fun j => (stNew.getNode j).rid)

/-- Well-formedness of one operation at the state it runs in: the inputs of a
reload build to pairwise-distinct ids and express hierarchy by nesting alone
(each top-level input's `parentId` absent or empty); an incremental add builds
to pairwise-distinct ids that are fresh for the current index, with a
`parentId` that is absent, empty, or resolvable in the current index; a remove
is unconditionally well-formed. -/
def opValid (st : ResourceManager) : Op → Bool
  | .setRes inputs =>
    let br := (st.initCache).buildResourceList inputs
    decide (builtRids br.1 st.nodes.length).Nodup &&
    br.2.all (fun r =>
      match (br.1.getNode r).parentId with
      | none => true
      | some s => s == "")
  | .addRes input =>
    let b := st.buildResource input
    decide (builtRids b.1 st.nodes.length).Nodup &&
    (builtRids b.1 st.nodes.length).all
      (fun k => (idxLookup st.resourcesById k).isNone) &&
    (match (b.1.getNode b.2).parentId with
     | none => true
     | some s => s == "" || (idxLookup st.resourcesById s).isSome)
  | .removeRes _ => true

/-- Well-formedness of a sequence of operations, each checked at the state it
runs in. -/
def opsValid (st : ResourceManager) : List Op → Bool
  | [] => true
  | op :: ops => opValid st op && opsValid (applyOp st op) ops

/-- The index/tree representation invariant behind the lockstep claim: a fetch
is initiated and resolved, and some forest of decorated arena trees has
exactly the top-level roots, pairwise-distinct nodes, and node set matching
the index in both directions (every entry is a forest node under its recorded
id, and every forest node is found under its id). -/
def WF (st : ResourceManager) : Prop :=
  st.isFetchingInitiated = true ∧
  st.isFetchingResolved = true ∧
  ∃ F : List RTree,
    st.topLevelResources = some (rootsL F) ∧
    (∀ t ∈ F, goodT st t none) ∧
    (flatL F).Nodup ∧
    (∀ e ∈ st.resourcesById, e.2 ∈ flatL F ∧ (st.getNode e.2).rid = e.1) ∧
    (∀ j ∈ flatL F, idxLookup st.resourcesById ((st.getNode j).rid) = some j)

open ResourceManager

/-! ### Frame lemmas: the structure operations do not touch the coordinator state -/

theorem coreEq_refl (a : ResourceManager) : coreEq a a :=
  ⟨rfl, rfl, rfl, rfl, rfl, rfl, rfl⟩

theorem coreEq_trans {a b c : ResourceManager} (h1 : coreEq a b) (h2 : coreEq b c) :
    coreEq a c := by
  obtain ⟨x1, x2, x3, x4, x5, x6, x7⟩ := h1
  obtain ⟨y1, y2, y3, y4, y5, y6, y7⟩ := h2
  exact ⟨x1.trans y1, x2.trans y2, x3.trans y3, x4.trans y4, x5.trans y5, x6.trans y6, x7.trans y7⟩

theorem coreEq_setNode (st : ResourceManager) (i : Nat) (n : ResourceNode) :
    coreEq (st.setNode i n) st :=
  ⟨rfl, rfl, rfl, rfl, rfl, rfl, rfl⟩

theorem resourcesById_setNode (st : ResourceManager) (i : Nat) (n : ResourceNode) :
    (st.setNode i n).resourcesById = st.resourcesById := rfl

theorem getNode_setNode_ne (st : ResourceManager) {i j : Nat} (n : ResourceNode) (h : i ≠ j) :
    (st.setNode i n).getNode j = st.getNode j := by
  simp [getNode, setNode, List.getD, List.getElem?_set_ne h]

theorem getNode_setNode_self (st : ResourceManager) {i : Nat} (n : ResourceNode)
    (h : i < st.nodes.length) : (st.setNode i n).getNode i = n := by
  simp [getNode, setNode, List.getD, List.getElem?_set_self, h]

theorem nodes_length_setNode (st : ResourceManager) (i : Nat) (n : ResourceNode) :
    (st.setNode i n).nodes.length = st.nodes.length := by
  simp [setNode]

theorem topLevel_setNode (st : ResourceManager) (i : Nat) (n : ResourceNode) :
    (st.setNode i n).topLevelResources = st.topLevelResources := rfl


theorem getD_append_lt (l l2 : List ResourceNode) {j : Nat} (h : j < l.length) :
    (l ++ l2).getD j default = l.getD j default := by
  simp [List.getD, List.getElem?_append_left h]

theorem getD_concat_self (l : List ResourceNode) (x : ResourceNode) :
    (l ++ [x]).getD l.length default = x := by
  simp [List.getD, List.getElem?_concat_length]

/-! ### Light specification of `buildResource` -/

mutual

theorem buildResource_core (st : ResourceManager) (input : ResourceInput) :
    coreEq (st.buildResource input).1 st := by
  cases input with
  | mk a b cs =>
    simp only [buildResource]
    exact coreEq_trans (coreEq_setNode _ _ _)
      (coreEq_trans (buildChildren_core _ _ cs) ⟨rfl, rfl, rfl, rfl, rfl, rfl, rfl⟩)

theorem buildChildren_core (st : ResourceManager) (parentIdx : Nat) (l : List ResourceInput) :
    coreEq (st.buildChildren parentIdx l).1 st := by
  cases l with
  | nil => exact coreEq_refl st
  | cons c rest =>
    simp only [buildChildren]
    exact coreEq_trans (buildChildren_core _ parentIdx rest)
      (coreEq_trans (coreEq_setNode _ _ _) (buildResource_core st c))

end

mutual

theorem buildResource_resById (st : ResourceManager) (input : ResourceInput) :
    (st.buildResource input).1.resourcesById = st.resourcesById := by
  cases input with
  | mk a b cs =>
    simp only [buildResource]
    exact (buildChildren_resById _ _ cs).trans rfl

theorem buildChildren_resById (st : ResourceManager) (parentIdx : Nat) (l : List ResourceInput) :
    (st.buildChildren parentIdx l).1.resourcesById = st.resourcesById := by
  cases l with
  | nil => rfl
  | cons c rest =>
    simp only [buildChildren]
    exact ((buildChildren_resById _ parentIdx rest).trans rfl).trans (buildResource_resById st c)

end

mutual

theorem buildResource_len (st : ResourceManager) (input : ResourceInput) :
    st.nodes.length < (st.buildResource input).1.nodes.length := by
  cases input with
  | mk a b cs =>
    simp only [buildResource, setNode]
    have h := buildChildren_len
      { st with
        nodes := st.nodes ++
          [{ rid := match a with
              | some s => s
              | none => "_fc" ++ toString st.resourceGuid,
             parentId := b, children := [], parent := none }],
        resourceGuid := match a with
          | some _ => st.resourceGuid
          | none => st.resourceGuid + 1 }
      st.nodes.length cs
    simp only [List.length_append, List.length_cons, List.length_nil] at h
    simpa using Nat.lt_of_lt_of_le (Nat.lt_succ_self _) h

theorem buildChildren_len (st : ResourceManager) (parentIdx : Nat) (l : List ResourceInput) :
    st.nodes.length ≤ (st.buildChildren parentIdx l).1.nodes.length := by
  cases l with
  | nil => exact Nat.le_refl _
  | cons c rest =>
    simp only [buildChildren]
    refine Nat.le_trans (Nat.le_of_lt (buildResource_len st c)) ?_
    refine Nat.le_trans ?_ (buildChildren_len _ parentIdx rest)
    simp [setNode]

end

theorem buildResource_idx (st : ResourceManager) (input : ResourceInput) :
    (st.buildResource input).2 = st.nodes.length := by
  cases input with
  | mk a b cs => simp only [buildResource]

mutual

theorem buildResource_stable (st : ResourceManager) (input : ResourceInput) :
    ∀ j, j < st.nodes.length → (st.buildResource input).1.getNode j = st.getNode j := by
  cases input with
  | mk a b cs =>
    intro j hj
    simp only [buildResource]
    rw [getNode_setNode_ne _ _ (Nat.ne_of_gt hj)]
    rw [buildChildren_stable _ _ cs j (by simp; omega)]
    simp only [getNode]
    exact getD_append_lt _ _ hj

theorem buildChildren_stable (st : ResourceManager) (parentIdx : Nat) (l : List ResourceInput) :
    ∀ j, j < st.nodes.length → (st.buildChildren parentIdx l).1.getNode j = st.getNode j := by
  cases l with
  | nil => intro j hj; rfl
  | cons c rest =>
    intro j hj
    simp only [buildChildren]
    have h1 : j < st.nodes.length := hj
    have hlt := buildResource_len st c
    have hidx := buildResource_idx st c
    rw [buildChildren_stable _ parentIdx rest j (by simp [setNode]; omega)]
    rw [getNode_setNode_ne _ _ (by omega)]
    exact buildResource_stable st c j hj

end

mutual

theorem buildResource_guid (st : ResourceManager) (input : ResourceInput) :
    st.resourceGuid ≤ (st.buildResource input).1.resourceGuid := by
  cases input with
  | mk a b cs =>
    simp only [buildResource, setNode]
    refine Nat.le_trans ?_ (buildChildren_guid _ st.nodes.length cs)
    cases a <;> simp

theorem buildChildren_guid (st : ResourceManager) (parentIdx : Nat) (l : List ResourceInput) :
    st.resourceGuid ≤ (st.buildChildren parentIdx l).1.resourceGuid := by
  cases l with
  | nil => exact Nat.le_refl _
  | cons c rest =>
    simp only [buildChildren]
    refine Nat.le_trans (buildResource_guid st c) ?_
    refine Nat.le_trans ?_ (buildChildren_guid _ parentIdx rest)
    simp [setNode]

end

theorem buildResource_guid_strict (st : ResourceManager) (input : ResourceInput)
    (h : input.id = none) : st.resourceGuid + 1 ≤ (st.buildResource input).1.resourceGuid := by
  cases input with
  | mk a b cs =>
    cases a with
    | some s => simp [ResourceInput.id] at h
    | none =>
      simp only [buildResource, setNode]
      refine Nat.le_trans ?_ (buildChildren_guid _ st.nodes.length cs)
      simp

/-- The combined allocate/build-children/write-back step of `buildResource`,
viewed at the root slot: only `children` is overwritten. -/
theorem buildAlloc_root (st1 : ResourceManager) (i : Nat) (cs : List ResourceInput)
    (hi : i < st1.nodes.length) :
    (((st1.buildChildren i cs).1.setNode i
        { (st1.buildChildren i cs).1.getNode i with children := (st1.buildChildren i cs).2 }).getNode i) =
      { st1.getNode i with children := (st1.buildChildren i cs).2 } := by
  have hlen := buildChildren_len st1 i cs
  have hst := buildChildren_stable st1 i cs i hi
  rw [getNode_setNode_self _ _ (by omega), hst]

/-- The root node written by `buildResource`: its `rid` (raw id stringified, or
the generated `'_fc' + guid`), its cleared `parent`, and its pass-through
`parentId`. -/
theorem buildResource_root (st : ResourceManager) (input : ResourceInput) :
    ((st.buildResource input).1.getNode (st.buildResource input).2).rid =
      (match input.id with
        | some s => s
        | none => "_fc" ++ toString st.resourceGuid) ∧
    ((st.buildResource input).1.getNode (st.buildResource input).2).parent = none ∧
    ((st.buildResource input).1.getNode (st.buildResource input).2).parentId =
      input.parentId := by
  cases input with
  | mk a b cs =>
    cases a with
    | some s =>
      simp only [buildResource, ResourceInput.id, ResourceInput.parentId]
      rw [buildAlloc_root _ _ _ (by simp)]
      simp [getNode, getD_concat_self]
    | none =>
      simp only [buildResource, ResourceInput.id, ResourceInput.parentId]
      rw [buildAlloc_root _ _ _ (by simp)]
      simp [getNode, getD_concat_self]

/-! ### Preservation lemmas for the index and tree operations -/

theorem structEq_refl (a : ResourceManager) : structEq a a :=
  ⟨rfl, rfl, rfl, coreEq_refl a⟩

theorem structEq_trans {a b c : ResourceManager} (h1 : structEq a b) (h2 : structEq b c) :
    structEq a c :=
  ⟨h1.1.trans h2.1, h1.2.1.trans h2.2.1, h1.2.2.1.trans h2.2.2.1,
    coreEq_trans h1.2.2.2 h2.2.2.2⟩

theorem treeOpEq_refl (a : ResourceManager) : treeOpEq a a :=
  ⟨rfl, rfl, rfl, coreEq_refl a⟩

theorem treeOpEq_trans {a b c : ResourceManager} (h1 : treeOpEq a b) (h2 : treeOpEq b c) :
    treeOpEq a c :=
  ⟨h1.1.trans h2.1, h1.2.1.trans h2.2.1, h1.2.2.1.trans h2.2.2.1,
    coreEq_trans h1.2.2.2 h2.2.2.2⟩

theorem addResourceToIndexCore_structEq :
    ∀ (f : Nat) (st : ResourceManager) (r : Nat),
      structEq (addResourceToIndexCore f st r).1 st := by
  intro f
  induction f with
  | zero => intro st r; exact structEq_refl st
  | succ f ih =>
    intro st r
    simp only [addResourceToIndexCore]
    split
    · exact structEq_refl st
    · have hfold : ∀ (l : List Nat) (s : ResourceManager),
          structEq (l.foldl (fun s c => (addResourceToIndexCore f s c).1) s) s := by
        intro l
        induction l with
        | nil => intro s; exact structEq_refl s
        | cons c cs ihl =>
          intro s
          rw [List.foldl_cons]
          exact structEq_trans (ihl _) (ih _ c)
      exact structEq_trans (hfold _ _) ⟨rfl, rfl, rfl, rfl, rfl, rfl, rfl, rfl, rfl, rfl⟩

theorem addResourceToIndex_structEq (st : ResourceManager) (r : Nat) :
    structEq (addResourceToIndex st r).1 st :=
  addResourceToIndexCore_structEq _ st r

theorem removeResourceFromIndexCore_structEq :
    ∀ (f : Nat) (st : ResourceManager) (k : String),
      structEq (removeResourceFromIndexCore f st k).1 st := by
  intro f
  induction f with
  | zero => intro st k; exact structEq_refl st
  | succ f ih =>
    intro st k
    simp only [removeResourceFromIndexCore]
    split
    · have hfold : ∀ (l : List Nat) (s : ResourceManager),
          structEq (l.foldl
            (fun s c => (removeResourceFromIndexCore f s (s.getNode c).rid).1) s) s := by
        intro l
        induction l with
        | nil => intro s; exact structEq_refl s
        | cons c cs ihl =>
          intro s
          rw [List.foldl_cons]
          exact structEq_trans (ihl _) (ih _ _)
      exact structEq_trans (hfold _ _) ⟨rfl, rfl, rfl, rfl, rfl, rfl, rfl, rfl, rfl, rfl⟩
    · exact structEq_refl st

theorem removeResourceFromIndex_structEq (st : ResourceManager) (k : String) :
    structEq (st.removeResourceFromIndex k).1 st :=
  removeResourceFromIndexCore_structEq _ st k

theorem addResourceToTree_treeOpEq (st : ResourceManager) (r : Nat) :
    treeOpEq (st.addResourceToTree r).1 st := by
  simp only [addResourceToTree]
  split
  · exact treeOpEq_refl st
  · split
    · split
      · exact ⟨rfl, rfl, by simp [setNode], coreEq_refl st |>.imp id id⟩
      · exact treeOpEq_refl st
    · exact ⟨rfl, rfl, rfl, rfl, rfl, rfl, rfl, rfl, rfl, rfl⟩

theorem writeOwner_treeOpEq (st : ResourceManager) (o : Option Nat) (l : List Nat) :
    treeOpEq (st.writeOwner o l) st := by
  cases o with
  | none => exact ⟨rfl, rfl, rfl, rfl, rfl, rfl, rfl, rfl, rfl, rfl⟩
  | some p => exact ⟨rfl, rfl, by simp [writeOwner, setNode], coreEq_refl st⟩

theorem removeResourceFromTreeCore_treeOpEq :
    ∀ (f : Nat) (st : ResourceManager) (r : Nat) (o : Option Nat) (i : Nat),
      treeOpEq (removeResourceFromTreeCore f st r o i).1 st := by
  intro f
  induction f with
  | zero => intro st r o i; exact treeOpEq_refl st
  | succ f ih =>
    intro st r o i
    simp only [removeResourceFromTreeCore]
    split
    · split
      · exact treeOpEq_trans (writeOwner_treeOpEq _ _ _) ⟨rfl, rfl, by simp [setNode], coreEq_refl st⟩
      · split
        · next heq =>
          have := ih st r (some ((st.ownerList o).getD i 0)) 0
          rw [heq] at this
          exact this
        · next heq =>
          refine treeOpEq_trans (ih _ r o (i + 1)) ?_
          have := ih st r (some ((st.ownerList o).getD i 0)) 0
          rw [heq] at this
          exact this
    · exact treeOpEq_refl st

theorem removeResourceFromTree_treeOpEq (st : ResourceManager) (r : Nat) :
    treeOpEq (st.removeResourceFromTree r).1 st :=
  removeResourceFromTreeCore_treeOpEq _ st r none 0

/-! ### Injectivity of `Nat.repr` (generated ids are distinct for distinct counters) -/

theorem toDigitsCore_eq_natChars :
    ∀ (f n : Nat) (l : List Char), n < f →
      Nat.toDigitsCore 10 f n l = natChars n ++ l := by
  intro f
  induction f with
  | zero => intro n l h; omega
  | succ f ih =>
    intro n l h
    simp only [Nat.toDigitsCore]
    by_cases h10 : n / 10 = 0
    · have hn : n < 10 := by omega
      rw [if_pos h10, natChars, dif_pos hn, Nat.mod_eq_of_lt hn]
      simp
    · have hn : ¬ n < 10 := by omega
      rw [if_neg h10, ih (n / 10) _ (by omega)]
      conv_rhs => rw [natChars]
      rw [dif_neg hn]
      simp

theorem natRepr_eq_natChars (n : Nat) : Nat.repr n = (natChars n).asString := by
  rw [Nat.repr, Nat.toDigits, toDigitsCore_eq_natChars (n + 1) n [] (Nat.lt_succ_self n)]
  simp

theorem digitVal_digitChar : ∀ d, d < 10 → digitVal (Nat.digitChar d) = d := by decide

theorem ofDecChars_natChars (n : Nat) : ofDecChars (natChars n) = n := by
  induction n using Nat.strong_induction_on with
  | _ n ih =>
    by_cases h : n < 10
    · rw [natChars, dif_pos h]
      simp [ofDecChars, digitVal_digitChar n h]
    · rw [natChars, dif_neg h]
      have hdiv := ih (n / 10) (Nat.div_lt_self (by omega) (by omega))
      simp only [ofDecChars, List.foldl_append, List.foldl_cons, List.foldl_nil] at hdiv ⊢
      rw [hdiv, digitVal_digitChar _ (Nat.mod_lt n (by omega))]
      omega

theorem natRepr_injective {m n : Nat} (h : Nat.repr m = Nat.repr n) : m = n := by
  rw [natRepr_eq_natChars, natRepr_eq_natChars] at h
  have hd : natChars m = natChars n := by
    have := congrArg String.data h
    simpa [List.asString] using this
  have := congrArg ofDecChars hd
  rwa [ofDecChars_natChars, ofDecChars_natChars] at this

theorem string_append_left_cancel {p a b : String} (h : p ++ a = p ++ b) : a = b := by
  have hd := congrArg String.data h
  simp only [String.data_append] at hd
  exact String.ext (List.append_cancel_left hd)

theorem genId_injective {m n : Nat} (h : ("_fc" ++ toString m : String) = "_fc" ++ toString n) :
    m = n := by
  have := string_append_left_cancel h
  exact natRepr_injective this

/-! ### Accessors for the frame predicates, fold-level frame lemmas -/

theorem coreEq_trace {a b : ResourceManager} (h : coreEq a b) : a.trace = b.trace :=
  h.2.2.2.2.2.2

theorem coreEq_fetchId {a b : ResourceManager} (h : coreEq a b) : a.fetchId = b.fetchId := h.1

theorem coreEq_initiated {a b : ResourceManager} (h : coreEq a b) :
    a.isFetchingInitiated = b.isFetchingInitiated := h.2.1

theorem coreEq_resolved {a b : ResourceManager} (h : coreEq a b) :
    a.isFetchingResolved = b.isFetchingResolved := h.2.2.1

theorem coreEq_callbacks {a b : ResourceManager} (h : coreEq a b) :
    a.fetchingResourcesCallbacks = b.fetchingResourcesCallbacks := h.2.2.2.1

theorem structEq_trace {a b : ResourceManager} (h : structEq a b) : a.trace = b.trace :=
  coreEq_trace h.2.2.2

theorem structEq_nodes {a b : ResourceManager} (h : structEq a b) : a.nodes = b.nodes := h.1

theorem structEq_topLevel {a b : ResourceManager} (h : structEq a b) :
    a.topLevelResources = b.topLevelResources := h.2.1

theorem structEq_guid {a b : ResourceManager} (h : structEq a b) :
    a.resourceGuid = b.resourceGuid := h.2.2.1

theorem treeOpEq_trace {a b : ResourceManager} (h : treeOpEq a b) : a.trace = b.trace :=
  coreEq_trace h.2.2.2

theorem treeOpEq_resById {a b : ResourceManager} (h : treeOpEq a b) :
    a.resourcesById = b.resourcesById := h.1

theorem treeOpEq_guid {a b : ResourceManager} (h : treeOpEq a b) :
    a.resourceGuid = b.resourceGuid := h.2.1

theorem treeOpEq_len {a b : ResourceManager} (h : treeOpEq a b) :
    a.nodes.length = b.nodes.length := h.2.2.1

theorem indexStep_fst (acc : ResourceManager × List Nat) (r : Nat) :
    (indexStep acc r).1 = (addResourceToIndex acc.1 r).1 := by
  simp only [indexStep]
  split <;> rfl

theorem indexFold_structEq (l : List Nat) :
    ∀ acc : ResourceManager × List Nat, structEq (l.foldl indexStep acc).1 acc.1 := by
  induction l with
  | nil => intro acc; exact structEq_refl acc.1
  | cons c cs ih =>
    intro acc
    rw [List.foldl_cons]
    refine structEq_trans (ih _) ?_
    rw [indexStep_fst]
    exact addResourceToIndex_structEq acc.1 c

theorem attachFold_treeOpEq (l : List Nat) :
    ∀ s : ResourceManager, treeOpEq (l.foldl attachStep s) s := by
  induction l with
  | nil => intro s; exact treeOpEq_refl s
  | cons c cs ih =>
    intro s
    rw [List.foldl_cons]
    exact treeOpEq_trans (ih _) (addResourceToTree_treeOpEq s c)

theorem buildResourceList_core (st : ResourceManager) (l : List ResourceInput) :
    coreEq (st.buildResourceList l).1 st := by
  induction l generalizing st with
  | nil => exact coreEq_refl st
  | cons x xs ih =>
    simp only [buildResourceList]
    exact coreEq_trans (ih _) (buildResource_core st x)

theorem buildResourceList_resById (st : ResourceManager) (l : List ResourceInput) :
    (st.buildResourceList l).1.resourcesById = st.resourcesById := by
  induction l generalizing st with
  | nil => rfl
  | cons x xs ih =>
    simp only [buildResourceList]
    exact (ih _).trans (buildResource_resById st x)

theorem buildResourceList_guid (st : ResourceManager) (l : List ResourceInput) :
    st.resourceGuid ≤ (st.buildResourceList l).1.resourceGuid := by
  induction l generalizing st with
  | nil => exact Nat.le_refl _
  | cons x xs ih =>
    simp only [buildResourceList]
    exact Nat.le_trans (buildResource_guid st x) (ih _)

theorem buildResourceList_len (st : ResourceManager) (l : List ResourceInput) :
    st.nodes.length ≤ (st.buildResourceList l).1.nodes.length := by
  induction l generalizing st with
  | nil => exact Nat.le_refl _
  | cons x xs ih =>
    simp only [buildResourceList]
    exact Nat.le_trans (Nat.le_of_lt (buildResource_len st x)) (ih _)

theorem buildResourceList_stable (st : ResourceManager) (l : List ResourceInput) :
    ∀ j, j < st.nodes.length → (st.buildResourceList l).1.getNode j = st.getNode j := by
  induction l generalizing st with
  | nil => intro j hj; rfl
  | cons x xs ih =>
    intro j hj
    simp only [buildResourceList]
    rw [ih _ j (by have := buildResource_len st x; omega)]
    exact buildResource_stable st x j hj

/-! ### `setResources` characterization -/

theorem setResources_trace (st : ResourceManager) (inputs : List ResourceInput) :
    (st.setResources inputs).trace =
      st.trace ++
        [(if st.topLevelResources.isSome then
            Ev.reset (st.setResources inputs).topLevelResources
          else Ev.set (st.setResources inputs).topLevelResources),
         Ev.resourcesSet (st.setResources inputs).topLevelResources] := by
  simp only [setResources, emitEv]
  have h1 := buildResourceList_core st.initCache inputs
  have h2 := indexFold_structEq (st.initCache.buildResourceList inputs).2
    ((st.initCache.buildResourceList inputs).1, ([] : List Nat))
  have h3 := attachFold_treeOpEq
    ((st.initCache.buildResourceList inputs).2.foldl indexStep
      ((st.initCache.buildResourceList inputs).1, ([] : List Nat))).2
    ((st.initCache.buildResourceList inputs).2.foldl indexStep
      ((st.initCache.buildResourceList inputs).1, ([] : List Nat))).1
  have htr : (((st.initCache.buildResourceList inputs).2.foldl indexStep
      ((st.initCache.buildResourceList inputs).1, ([] : List Nat))).2.foldl attachStep
      ((st.initCache.buildResourceList inputs).2.foldl indexStep
        ((st.initCache.buildResourceList inputs).1, ([] : List Nat))).1).trace = st.trace :=
    (treeOpEq_trace h3).trans ((structEq_trace h2).trans (coreEq_trace h1))
  rw [htr]
  simp

theorem setResources_guid (st : ResourceManager) (inputs : List ResourceInput) :
    st.resourceGuid ≤ (st.setResources inputs).resourceGuid := by
  simp only [setResources, emitEv]
  have h1 := buildResourceList_guid st.initCache inputs
  have h2 := indexFold_structEq (st.initCache.buildResourceList inputs).2
    ((st.initCache.buildResourceList inputs).1, ([] : List Nat))
  have h3 := attachFold_treeOpEq
    ((st.initCache.buildResourceList inputs).2.foldl indexStep
      ((st.initCache.buildResourceList inputs).1, ([] : List Nat))).2
    ((st.initCache.buildResourceList inputs).2.foldl indexStep
      ((st.initCache.buildResourceList inputs).1, ([] : List Nat))).1
  have h1x : st.resourceGuid ≤ (st.initCache.buildResourceList inputs).1.resourceGuid := h1
  exact Nat.le_trans h1x (Nat.le_of_eq ((treeOpEq_guid h3).trans (structEq_guid h2)).symm)

theorem setResources_resolved (st : ResourceManager) (inputs : List ResourceInput) :
    (st.setResources inputs).isFetchingResolved = st.isFetchingResolved := by
  simp only [setResources, emitEv]
  have h1 := buildResourceList_core st.initCache inputs
  have h2 := indexFold_structEq (st.initCache.buildResourceList inputs).2
    ((st.initCache.buildResourceList inputs).1, ([] : List Nat))
  have h3 := attachFold_treeOpEq
    ((st.initCache.buildResourceList inputs).2.foldl indexStep
      ((st.initCache.buildResourceList inputs).1, ([] : List Nat))).2
    ((st.initCache.buildResourceList inputs).2.foldl indexStep
      ((st.initCache.buildResourceList inputs).1, ([] : List Nat))).1
  exact (coreEq_resolved h3.2.2.2).trans
    ((coreEq_resolved h2.2.2.2).trans (coreEq_resolved h1))

/-! ### Claim theorems (first batch) -/

/-- C3: the claim states that two `getResources` calls with calendar-equal
present ranges trigger exactly one underlying source resolution.  The code
never assigns `currentStart`/`currentEnd`, so the range-equality test fails for
every present range: evaluated at two calls with the identical range
`(5, 6)` on a fresh manager, the fetch counter reaches 2 — two source
resolutions — while `currentStart` is still unset after the first call even
though fetching was initiated.  (Code-bug evidence theorem.) -/
theorem c3_range_reuse_broken :
    ((construct.getResources (.list []) (some 5) (some 6) (.user 1)).1.getResources
        (.list []) (some 5) (some 6) (.user 2)).1.fetchId = 2 ∧
    (construct.getResources (.list []) (some 5) (some 6) (.user 1)).1.fetchId = 1 ∧
    (construct.getResources (.list []) (some 5) (some 6) (.user 1)).1.isFetchingInitiated
      = true ∧
    (construct.getResources (.list []) (some 5) (some 6) (.user 1)).1.currentStart = none :=
  ⟨rfl, rfl, rfl, rfl⟩

/-- C4 (counterexample): on the very first successful fetch completion after
construction — no `clear()` in between — the manager emits `reset`, not `set`:
the constructor's `initializeCache()` makes `topLevelResources` the truthy `[]`,
so `wasSet` is already true on the first `setResources`. -/
theorem c4_first_load_emits_reset :
    (construct.fetchResources (.list []) none none (.user 1)).1.trace =
      [Ev.reset (some []), Ev.resourcesSet (some []), Ev.userCb 1 (some [])] ∧
    Ev.set (some []) ∉ (construct.fetchResources (.list []) none none (.user 1)).1.trace := by
  refine ⟨rfl, ?_⟩
  intro h
  rw [show (construct.fetchResources (.list []) none none (.user 1)).1.trace =
      [Ev.reset (some []), Ev.resourcesSet (some []), Ev.userCb 1 (some [])] from rfl] at h
  simp at h

/-- C4 (amended): `setResources` emits `set` exactly when the cached
`topLevelResources` was null at the call (which happens after `clear()`, never
on a freshly constructed manager whose constructor initializes the cache to the
non-null `[]`), and emits `reset` otherwise — in particular on the first load
after construction; every successful load additionally raises the public
`resourcesSet` notification. -/
theorem c4_set_reset_lifecycle (st : ResourceManager) (inputs : List ResourceInput) :
    (st.setResources inputs).trace =
      st.trace ++
        [(if st.topLevelResources.isSome then
            Ev.reset (st.setResources inputs).topLevelResources
          else Ev.set (st.setResources inputs).topLevelResources),
         Ev.resourcesSet (st.setResources inputs).topLevelResources] ∧
    construct.topLevelResources = some [] ∧
    ∀ s : ResourceManager, s.clear.topLevelResources = none :=
  ⟨setResources_trace st inputs, rfl, fun _ => rfl⟩

/-- C8: `removeResource` on an id not present in the index, issued after a
fetch has been initiated and resolved, leaves the whole state unchanged —
index and tree untouched, no `remove` event emitted. -/
theorem c8_removeResource_missing_id_noop (st : ResourceManager) (id : String)
    (hInit : st.isFetchingInitiated = true) (hRes : st.isFetchingResolved = true)
    (hMissing : idxLookup st.resourcesById id = none) :
    st.removeResource (.inl id) = st := by
  simp only [removeResource, hInit, if_true, whenFetchingResolved, hRes, runCallback,
    removeResourceBody, removeResourceFromIndex, removeResourceFromIndexCore, hMissing]

/-- C8 witness: a manager with an (empty) resolved fetch; removing the absent
id `"z"` is a strict no-op. -/
theorem c8_witness :
    ((construct.fetchResources (.list []) none none (.user 1)).1.isFetchingInitiated = true ∧
     (construct.fetchResources (.list []) none none (.user 1)).1.isFetchingResolved = true ∧
     idxLookup (construct.fetchResources (.list []) none none
       (.user 1)).1.resourcesById "z" = none) ∧
    (construct.fetchResources (.list []) none none (.user 1)).1.removeResource (.inl "z") =
      (construct.fetchResources (.list []) none none (.user 1)).1 :=
  ⟨⟨rfl, rfl, rfl⟩, c8_removeResource_missing_id_noop _ "z" rfl rfl rfl⟩

/-- C9: a raw input without an id receives the generated id
`'_fc' + resourceGuid`; building strictly increases the process-wide counter;
the counter never decreases across `setResources` calls or `clear()`; hence
two builds without caller-supplied ids — the second from any state whose
counter is at least the first build's final counter, as after any sequence of
further loads — receive distinct ids. -/
theorem c9_auto_id_uniqueness (st st2 : ResourceManager) (in1 in2 : ResourceInput)
    (h1 : in1.id = none) (h2 : in2.id = none)
    (hmono : (st.buildResource in1).1.resourceGuid ≤ st2.resourceGuid) :
    ((st.buildResource in1).1.getNode (st.buildResource in1).2).rid
        = "_fc" ++ toString st.resourceGuid ∧
    st.resourceGuid + 1 ≤ (st.buildResource in1).1.resourceGuid ∧
    (∀ (s : ResourceManager) (l : List ResourceInput),
        s.resourceGuid ≤ (s.setResources l).resourceGuid) ∧
    (∀ s : ResourceManager, s.clear.resourceGuid = s.resourceGuid) ∧
    ((st2.buildResource in2).1.getNode (st2.buildResource in2).2).rid
        = "_fc" ++ toString st2.resourceGuid ∧
    ((st.buildResource in1).1.getNode (st.buildResource in1).2).rid ≠
      ((st2.buildResource in2).1.getNode (st2.buildResource in2).2).rid := by
  have hr1 := (buildResource_root st in1).1
  have hr2 := (buildResource_root st2 in2).1
  rw [h1] at hr1
  rw [h2] at hr2
  have hstrict := buildResource_guid_strict st in1 h1
  refine ⟨hr1, hstrict, fun s l => setResources_guid s l, fun _ => rfl, hr2, ?_⟩
  rw [hr1, hr2]
  intro heq
  have := genId_injective heq
  omega

/-- C9 witness: two id-less builds in sequence on a fresh manager. -/
theorem c9_witness :
    ((ResourceInput.mk none none []).id = none ∧
     (construct.buildResource (.mk none none [])).1.resourceGuid ≤
       (construct.buildResource (.mk none none [])).1.resourceGuid) ∧
    (((construct.buildResource (.mk none none [])).1.getNode
        (construct.buildResource (.mk none none [])).2).rid
      = "_fc" ++ toString construct.resourceGuid ∧
     construct.resourceGuid + 1 ≤ (construct.buildResource (.mk none none [])).1.resourceGuid ∧
     (∀ (s : ResourceManager) (l : List ResourceInput),
        s.resourceGuid ≤ (s.setResources l).resourceGuid) ∧
     (∀ s : ResourceManager, s.clear.resourceGuid = s.resourceGuid) ∧
     (((construct.buildResource (.mk none none [])).1.buildResource
          (.mk none none [])).1.getNode
        ((construct.buildResource (.mk none none [])).1.buildResource (.mk none none [])).2).rid
      = "_fc" ++ toString (construct.buildResource (.mk none none [])).1.resourceGuid ∧
     ((construct.buildResource (.mk none none [])).1.getNode
        (construct.buildResource (.mk none none [])).2).rid ≠
       (((construct.buildResource (.mk none none [])).1.buildResource
            (.mk none none [])).1.getNode
          ((construct.buildResource (.mk none none [])).1.buildResource
            (.mk none none [])).2).rid) :=
  ⟨⟨rfl, Nat.le_refl _⟩,
    c9_auto_id_uniqueness construct (construct.buildResource (.mk none none [])).1
      (.mk none none []) (.mk none none []) rfl rfl (Nat.le_refl _)⟩

/-- C7: the `addResourceToTree` contract.  With the parent back-reference
already set, attach is a strict no-op returning true.  Otherwise the
(stringified, null-to-empty) `parentId` decides: a nonempty id that does not
resolve in the index makes attach return false leaving the state unchanged; a
resolving one sets the back-reference and appends the resource to the parent's
children (index and top-level list untouched); an empty or null `parentId`
appends the resource to the top-level list. -/
theorem c7_attach_contract (st : ResourceManager) (r : Nat) (hr : r < st.nodes.length) :
    ((st.getNode r).parent.isSome → st.addResourceToTree r = (st, true)) ∧
    (∀ pid, (st.getNode r).parent = none → (st.getNode r).parentId = some pid → pid ≠ "" →
      (idxLookup st.resourcesById pid = none → st.addResourceToTree r = (st, false)) ∧
      (∀ p, idxLookup st.resourcesById pid = some p → p < st.nodes.length →
        (st.addResourceToTree r).2 = true ∧
        ((st.addResourceToTree r).1.getNode r).parent = some p ∧
        ((st.addResourceToTree r).1.getNode p).children = (st.getNode p).children ++ [r] ∧
        (st.addResourceToTree r).1.topLevelResources = st.topLevelResources ∧
        (st.addResourceToTree r).1.resourcesById = st.resourcesById)) ∧
    ((st.getNode r).parent = none →
      ((st.getNode r).parentId = none ∨ (st.getNode r).parentId = some "") →
      (st.addResourceToTree r).2 = true ∧
      (st.addResourceToTree r).1.topLevelResources
        = st.topLevelResources.map (fun t => t ++ [r]) ∧
      (st.addResourceToTree r).1.nodes = st.nodes) := by
  refine ⟨?_, ?_, ?_⟩
  · intro hp
    simp only [addResourceToTree, hp, if_true]
  · intro pid hp hpid hne
    have hm : (match (st.getNode r).parentId with | some s => s | none => "") = pid := by
      rw [hpid]
    constructor
    · intro hmiss
      simp only [addResourceToTree]
      split
      · next hSome => rw [hp] at hSome; simp at hSome
      · rw [hm, if_pos hne, hmiss]
    · intro p hfind hplt
      simp only [addResourceToTree]
      split
      · next hSome => rw [hp] at hSome; simp at hSome
      · rw [hm, if_pos hne, hfind]
        by_cases hpr : p = r
        · subst hpr
          refine ⟨rfl, ?_, ?_, ?_, rfl⟩
          · rw [getNode_setNode_self _ _ (by simp [setNode]; omega),
              getNode_setNode_self _ _ (by omega)]
          · rw [getNode_setNode_self _ _ (by simp [setNode]; omega),
              getNode_setNode_self _ _ (by omega)]
          · rw [topLevel_setNode, topLevel_setNode]
        · refine ⟨rfl, ?_, ?_, ?_, rfl⟩
          · rw [getNode_setNode_ne _ _ hpr, getNode_setNode_self _ _ (by omega)]
          · rw [getNode_setNode_self _ _ (by simp [setNode]; omega),
              getNode_setNode_ne _ _ (fun he => hpr he.symm)]
          · rw [topLevel_setNode, topLevel_setNode]
  · intro hp hpid
    have hm : (match (st.getNode r).parentId with | some s => s | none => "") = "" := by
      rcases hpid with h | h <;> rw [h]
    simp only [addResourceToTree]
    split
    · next hSome => rw [hp] at hSome; simp at hSome
    · rw [hm, if_neg (by simp)]
      exact ⟨rfl, rfl, rfl⟩

/-- C7 witness: a resolved manager holding the single top-level resource `a`
(arena slot 0). -/
theorem c7_witness :
    0 < (construct.fetchResources (.list [.mk (some "a") none []]) none none
        (.user 1)).1.nodes.length ∧
    (((construct.fetchResources (.list [.mk (some "a") none []]) none none
        (.user 1)).1.getNode 0).parent.isSome →
      (construct.fetchResources (.list [.mk (some "a") none []]) none none
        (.user 1)).1.addResourceToTree 0 =
      ((construct.fetchResources (.list [.mk (some "a") none []]) none none (.user 1)).1,
        true)) :=
  ⟨by decide,
    (c7_attach_contract
      (construct.fetchResources (.list [.mk (some "a") none []]) none none (.user 1)).1 0
      (by decide)).1⟩

/-! ### Fetch-generation lemmas (C2) -/

theorem userCbEvents_append (a b : List Ev) :
    userCbEvents (a ++ b) = userCbEvents a ++ userCbEvents b := by
  simp [userCbEvents]

theorem setResources_coreFields (st : ResourceManager) (inputs : List ResourceInput) :
    (st.setResources inputs).fetchId = st.fetchId ∧
    (st.setResources inputs).isFetchingInitiated = st.isFetchingInitiated ∧
    (st.setResources inputs).fetchingResourcesCallbacks = st.fetchingResourcesCallbacks := by
  simp only [setResources, emitEv]
  have h1 := buildResourceList_core st.initCache inputs
  have h2 := indexFold_structEq (st.initCache.buildResourceList inputs).2
    ((st.initCache.buildResourceList inputs).1, ([] : List Nat))
  have h3 := attachFold_treeOpEq
    ((st.initCache.buildResourceList inputs).2.foldl indexStep
      ((st.initCache.buildResourceList inputs).1, ([] : List Nat))).2
    ((st.initCache.buildResourceList inputs).2.foldl indexStep
      ((st.initCache.buildResourceList inputs).1, ([] : List Nat))).1
  refine ⟨?_, ?_, ?_⟩
  · exact (coreEq_fetchId h3.2.2.2).trans
      ((coreEq_fetchId h2.2.2.2).trans (coreEq_fetchId h1))
  · exact (coreEq_initiated h3.2.2.2).trans
      ((coreEq_initiated h2.2.2.2).trans (coreEq_initiated h1))
  · exact (coreEq_callbacks h3.2.2.2).trans
      ((coreEq_callbacks h2.2.2.2).trans (coreEq_callbacks h1))

/-- A completion whose captured generation differs from the current counter is
discarded wholesale: only the loading counter pops; index, tree, flags, queue
are untouched and no callback fires. -/
theorem functionSourceComplete_stale (st : ResourceManager) (p : Pending)
    (inputs : List ResourceInput) (h : p.fetchId ≠ st.fetchId) :
    st.functionSourceComplete p inputs = st.popLoading := by
  simp only [functionSourceComplete, fetchCompletion]
  rw [if_neg]
  exact h

/-- A completion whose captured generation is still current, with exactly one
queued user callback: the cache is rebuilt from the delivered inputs, the
resolved flag set, the queue emptied, and the callback fired exactly once with
the rebuilt top-level list. -/
theorem functionSourceComplete_current (s : ResourceManager) (cb : Nat)
    (inputs : List ResourceInput) (hcbs : s.fetchingResourcesCallbacks = [.user cb]) :
    (s.functionSourceComplete ⟨s.fetchId, .func⟩ inputs).trace =
      s.trace ++ [Ev.popLoading] ++
        [(if s.topLevelResources.isSome then
            Ev.reset (s.functionSourceComplete ⟨s.fetchId, .func⟩ inputs).topLevelResources
          else Ev.set (s.functionSourceComplete ⟨s.fetchId, .func⟩ inputs).topLevelResources),
         Ev.resourcesSet (s.functionSourceComplete ⟨s.fetchId, .func⟩ inputs).topLevelResources,
         Ev.userCb cb (s.functionSourceComplete ⟨s.fetchId, .func⟩ inputs).topLevelResources] ∧
    (s.functionSourceComplete ⟨s.fetchId, .func⟩ inputs).isFetchingResolved = true ∧
    (s.functionSourceComplete ⟨s.fetchId, .func⟩ inputs).fetchingResourcesCallbacks = [] ∧
    (s.functionSourceComplete ⟨s.fetchId, .func⟩ inputs).fetchId = s.fetchId ∧
    (s.functionSourceComplete ⟨s.fetchId, .func⟩ inputs).topLevelResources =
      (s.popLoading.setResources inputs).topLevelResources := by
  simp only [functionSourceComplete, fetchCompletion]
  rw [if_pos (show s.fetchId = s.popLoading.fetchId from rfl)]
  rw [show (s.popLoading).fetchingResourcesCallbacks = [Callback.user cb] from hcbs]
  simp only [applyAllCallbacks, List.foldl_cons, List.foldl_nil, runCallback, emitEv]
  have htr := setResources_trace s.popLoading inputs
  have hcf := setResources_coreFields s.popLoading inputs
  refine ⟨?_, ?_, ?_, ?_, ?_⟩
  · rw [htr]
    simp [popLoading, emitEv]
  · trivial
  · trivial
  · exact hcf.1
  · trivial

/-- C2: stale-fetch suppression.  Starting generation `N+1` (while `N` is in
flight) makes any completion of `N` — whenever it arrives — a pure discard
(only the loading counter pops; no index/tree/flag mutation, no callbacks),
while the completion of the latest generation `N+1` fires exactly the callback
registered for it, exactly once, with that generation's rebuilt data. -/
theorem c2_stale_fetch_suppression (st : ResourceManager) (cb1 cb2 : Nat)
    (inputs1 inputs2 : List ResourceInput) :
    -- the two overlapping starts capture consecutive generations
    (st.fetchResources .func none none (.user cb1)).2 = some ⟨st.fetchId + 1, .func⟩ ∧
    ((st.fetchResources .func none none (.user cb1)).1.fetchResources .func none none
        (.user cb2)).2 = some ⟨st.fetchId + 2, .func⟩ ∧
    -- generic discard: completing any generation other than the current one
    (∀ (s : ResourceManager) (p : Pending) (inp : List ResourceInput),
      p.fetchId ≠ s.fetchId → s.functionSourceComplete p inp = s.popLoading) ∧
    -- completing the stale generation N+1-fetch-counter = N+2 ≠ N+1: pure discard
    (((st.fetchResources .func none none (.user cb1)).1.fetchResources .func none none
        (.user cb2)).1.functionSourceComplete ⟨st.fetchId + 1, .func⟩ inputs1 =
      ((st.fetchResources .func none none (.user cb1)).1.fetchResources .func none none
        (.user cb2)).1.popLoading) ∧
    -- completing the latest generation: exactly one callback event is appended,
    -- for cb2, carrying that completion's rebuilt top-level data
    (userCbEvents (((st.fetchResources .func none none (.user cb1)).1.fetchResources .func
        none none (.user cb2)).1.functionSourceComplete ⟨st.fetchId + 2, .func⟩
          inputs2).trace =
      userCbEvents st.trace ++
        [(cb2, (((st.fetchResources .func none none (.user cb1)).1.fetchResources .func
            none none (.user cb2)).1.functionSourceComplete ⟨st.fetchId + 2, .func⟩
              inputs2).topLevelResources)]) ∧
    (((st.fetchResources .func none none (.user cb1)).1.fetchResources .func none none
        (.user cb2)).1.functionSourceComplete ⟨st.fetchId + 2, .func⟩
          inputs2).isFetchingResolved = true ∧
    -- and a later completion of the stale generation is still a pure discard
    ((((st.fetchResources .func none none (.user cb1)).1.fetchResources .func none none
        (.user cb2)).1.functionSourceComplete ⟨st.fetchId + 2, .func⟩
          inputs2).functionSourceComplete ⟨st.fetchId + 1, .func⟩ inputs1 =
      (((st.fetchResources .func none none (.user cb1)).1.fetchResources .func none none
        (.user cb2)).1.functionSourceComplete ⟨st.fetchId + 2, .func⟩
          inputs2).popLoading) := by
  have hs2cbs : ((st.fetchResources .func none none (.user cb1)).1.fetchResources .func none
      none (.user cb2)).1.fetchingResourcesCallbacks = [.user cb2] := rfl
  have hs2fid : ((st.fetchResources .func none none (.user cb1)).1.fetchResources .func none
      none (.user cb2)).1.fetchId = st.fetchId + 2 := rfl
  have hcur := functionSourceComplete_current
    ((st.fetchResources .func none none (.user cb1)).1.fetchResources .func none none
      (.user cb2)).1 cb2 inputs2 hs2cbs
  rw [hs2fid] at hcur
  refine ⟨rfl, rfl, fun s p inp h => functionSourceComplete_stale s p inp h, ?_, ?_, ?_, ?_⟩
  · refine functionSourceComplete_stale _ _ _ ?_
    intro h
    simp only [hs2fid] at h
    simp at h
  · rw [hcur.1]
    have hs2tr : ((st.fetchResources .func none none (.user cb1)).1.fetchResources .func none
        none (.user cb2)).1.trace = st.trace ++ [Ev.pushLoading, Ev.pushLoading] := by
      simp [fetchResources, fetchResourceInputs, pushLoading, emitEv]
    rw [hs2tr]
    rw [userCbEvents_append, userCbEvents_append, userCbEvents_append]
    have h1 : userCbEvents [Ev.pushLoading, Ev.pushLoading] = [] := rfl
    have h2 : userCbEvents [Ev.popLoading] = [] := rfl
    rw [h1, h2]
    by_cases hsome : ((st.fetchResources .func none none (.user cb1)).1.fetchResources .func
        none none (.user cb2)).1.topLevelResources.isSome
    · rw [if_pos hsome]
      simp [userCbEvents]
    · rw [if_neg hsome]
      simp [userCbEvents]
  · exact hcur.2.1
  · refine functionSourceComplete_stale _ _ _ ?_
    intro h
    rw [hcur.2.2.2.1] at h
    simp at h

/-! ### Remote source failure handling (C5) -/

theorem fetchCompletion_current (s : ResourceManager) (cb : Nat)
    (inputs : List ResourceInput) (hcbs : s.fetchingResourcesCallbacks = [.user cb]) :
    (s.fetchCompletion s.fetchId inputs).trace =
      s.trace ++
        [(if s.topLevelResources.isSome then
            Ev.reset (s.fetchCompletion s.fetchId inputs).topLevelResources
          else Ev.set (s.fetchCompletion s.fetchId inputs).topLevelResources),
         Ev.resourcesSet (s.fetchCompletion s.fetchId inputs).topLevelResources,
         Ev.userCb cb (s.fetchCompletion s.fetchId inputs).topLevelResources] ∧
    (s.fetchCompletion s.fetchId inputs).isFetchingResolved = true ∧
    (s.fetchCompletion s.fetchId inputs).fetchingResourcesCallbacks = [] ∧
    (s.fetchCompletion s.fetchId inputs).fetchId = s.fetchId ∧
    (s.fetchCompletion s.fetchId inputs).topLevelResources =
      (s.setResources inputs).topLevelResources ∧
    (s.fetchCompletion s.fetchId inputs).resourcesById =
      (s.setResources inputs).resourcesById := by
  simp only [fetchCompletion, if_true]
  rw [hcbs]
  simp only [applyAllCallbacks, List.foldl_cons, List.foldl_nil, runCallback, emitEv]
  have htr := setResources_trace s inputs
  have hcf := setResources_coreFields s inputs
  refine ⟨?_, ?_, ?_, ?_, ?_, ?_⟩
  · rw [htr]
    simp
  · trivial
  · trivial
  · exact hcf.1
  · trivial
  · trivial

theorem setResources_nil (st : ResourceManager) :
    (st.setResources []).topLevelResources = some [] ∧
    (st.setResources []).resourcesById = [] :=
  ⟨rfl, rfl⟩

/-- C5 (counterexample): a remote response without a transport error, without a
transport-parsed body, whose raw text does not parse as JSON: `JSON.parse`
throws, the exception escapes (`some ()`), no error hook runs and no completion
happens — only the loading counter was popped. -/
theorem c5_unparsable_text_throws :
    ((construct.fetchResources (.object none "u" none (some 9)) none none (.user 1)).1.requestEnd
        ⟨1, .object none "u" none (some 9)⟩ false ⟨none, some (.error ())⟩).2 = some () ∧
    ((construct.fetchResources (.object none "u" none (some 9)) none none (.user 1)).1.requestEnd
        ⟨1, .object none "u" none (some 9)⟩ false ⟨none, some (.error ())⟩).1.trace =
      (construct.fetchResources (.object none "u" none
        (some 9)) none none (.user 1)).1.trace ++ [Ev.popLoading] :=
  ⟨rfl, rfl⟩

/-- C5 (amended): for a remote-descriptor source with an error hook, on a
transport failure — or a response carrying neither a parsed body nor any text —
the error hook is invoked with the error and the raw response, the fetch
completes with the empty resource list (empty index, empty top-level list), and
no exception escapes.  But a response whose only content is raw text that fails
to parse as JSON makes `JSON.parse` throw: the exception escapes to the caller,
with no hook invocation and no completion. -/
theorem c5_remote_failure_degradation (st : ResourceManager)
    (m : Option String) (u : String)
    (sc : Option (List ResourceInput → RemoteResponse → Option (List ResourceInput)))
    (hook cb : Nat) (res : RemoteResponse) (err : Bool)
    (hcbs : st.fetchingResourcesCallbacks = [.user cb])
    (hfail : err = true ∨ (err = false ∧ res.body = none ∧ res.text = none)) :
    (st.requestEnd ⟨st.fetchId, .object m u sc (some hook)⟩ err res).2 = none ∧
    (st.requestEnd ⟨st.fetchId, .object m u sc (some hook)⟩ err
        res).1.topLevelResources = some [] ∧
    (st.requestEnd ⟨st.fetchId, .object m u sc (some hook)⟩ err res).1.resourcesById = [] ∧
    (st.requestEnd ⟨st.fetchId, .object m u sc (some hook)⟩ err res).1.trace =
      st.trace ++
        [Ev.popLoading, Ev.sourceError hook err res,
         (if st.topLevelResources.isSome then Ev.reset (some []) else Ev.set (some [])),
         Ev.resourcesSet (some []), Ev.userCb cb (some [])] ∧
    (st.requestEnd ⟨st.fetchId, .object m u sc (some hook)⟩ err
        res).1.isFetchingResolved = true ∧
    (∀ (e : Unit) (res2 : RemoteResponse), res2.body = none →
      res2.text = some (.error e) →
      st.requestEnd ⟨st.fetchId, .object m u sc (some hook)⟩ false res2 =
        (st.popLoading, some e)) := by
  have hparsed :
      (if !err then
        match res.body with
        | some b => Except.ok (some b)
        | none =>
          match res.text with
          | some (.ok v) => Except.ok (some v)
          | some (.error e) => Except.error e
          | none => Except.ok (none : Option (List ResourceInput))
      else Except.ok none) = Except.ok (none : Option (List ResourceInput)) := by
    rcases hfail with h | ⟨h, hb, ht⟩
    · rw [h]; rfl
    · rw [h, hb, ht]; rfl
  have hmain : st.requestEnd ⟨st.fetchId, .object m u sc (some hook)⟩ err res =
      (((st.popLoading).emitEv (.sourceError hook err res)).fetchCompletion st.fetchId [],
        none) := by
    simp only [requestEnd]
    rw [hparsed]
  have hs : ((st.popLoading).emitEv (.sourceError hook err res)).fetchId = st.fetchId := rfl
  have hcur := fetchCompletion_current ((st.popLoading).emitEv (.sourceError hook err res)) cb []
    (by simp only [popLoading, emitEv]; exact hcbs)
  rw [hs] at hcur
  rw [hmain]
  have hnil := setResources_nil ((st.popLoading).emitEv (.sourceError hook err res))
  refine ⟨rfl, ?_, ?_, ?_, ?_, ?_⟩
  · exact hcur.2.2.2.2.1.trans hnil.1
  · exact hcur.2.2.2.2.2.trans hnil.2
  · rw [hcur.1]
    rw [hcur.2.2.2.2.1.trans hnil.1]
    simp [popLoading, emitEv]
  · exact hcur.2.1
  · intro e res2 hb ht
    simp only [requestEnd]
    rw [hb, ht]
    rfl

/-! ### Forest decoration machinery -/

theorem flat_node (i : Nat) (cs : List RTree) :
    (RTree.node i cs).flat = i :: flatL cs := by
  rw [RTree.flat]

theorem goodT_node {st : ResourceManager} {i : Nat} {cs : List RTree} {po : Option Nat} :
    goodT st (.node i cs) po ↔
      (i < st.nodes.length ∧
       (st.getNode i).parent = po ∧
       (st.getNode i).children = rootsL cs ∧
       goodL st cs i) := by
  rw [goodT]

theorem goodL_cons {st : ResourceManager} {t : RTree} {ts : List RTree} {pi : Nat} :
    goodL st (t :: ts) pi ↔ goodT st t (some pi) ∧ goodL st ts pi := by
  rw [goodL]

theorem goodL_nil {st : ResourceManager} {pi : Nat} : goodL st [] pi := by
  rw [goodL]
  trivial

theorem root_mem_flat (t : RTree) : t.root ∈ t.flat := by
  cases t with
  | node i cs => rw [flat_node]; exact List.mem_cons_self _ _

theorem mem_flatL_of_mem {t : RTree} {ts : List RTree} (ht : t ∈ ts) {j : Nat}
    (hj : j ∈ t.flat) : j ∈ flatL ts := by
  induction ts with
  | nil => cases ht
  | cons a as ih =>
    rw [flatL]
    rcases List.mem_cons.mp ht with rfl | h
    · exact List.mem_append_left _ hj
    · exact List.mem_append_right _ (ih h)

mutual

theorem goodT_mono (t : RTree) :
    ∀ (st st' : ResourceManager) (po : Option Nat),
      st.nodes.length ≤ st'.nodes.length →
      (∀ j, j ∈ t.flat → st'.getNode j = st.getNode j) →
      goodT st t po → goodT st' t po := by
  cases t with
  | node i cs =>
    intro st st' po hlen hstable hg
    rw [goodT_node] at hg ⊢
    obtain ⟨h1, h2, h3, h4⟩ := hg
    rw [flat_node] at hstable
    refine ⟨by omega, ?_, ?_, ?_⟩
    · rw [hstable i (List.mem_cons_self _ _)]; exact h2
    · rw [hstable i (List.mem_cons_self _ _)]; exact h3
    · exact goodL_mono cs st st' i hlen
        (fun j hj => hstable j (List.mem_cons_of_mem _ hj)) h4

theorem goodL_mono (ts : List RTree) :
    ∀ (st st' : ResourceManager) (pi : Nat),
      st.nodes.length ≤ st'.nodes.length →
      (∀ j, j ∈ flatL ts → st'.getNode j = st.getNode j) →
      goodL st ts pi → goodL st' ts pi := by
  cases ts with
  | nil => intro st st' pi _ _ _; exact goodL_nil
  | cons t ts =>
    intro st st' pi hlen hstable hg
    rw [goodL_cons] at hg ⊢
    rw [flatL] at hstable
    refine ⟨goodT_mono t st st' (some pi) hlen
      (fun j hj => hstable j (List.mem_append_left _ hj)) hg.1, ?_⟩
    exact goodL_mono ts st st' pi hlen
      (fun j hj => hstable j (List.mem_append_right _ hj)) hg.2

end

mutual

theorem buildResource_topLevel (st : ResourceManager) (input : ResourceInput) :
    (st.buildResource input).1.topLevelResources = st.topLevelResources := by
  cases input with
  | mk a b cs =>
    simp only [buildResource]
    rw [topLevel_setNode]
    exact (buildChildren_topLevel _ _ cs).trans rfl

theorem buildChildren_topLevel (st : ResourceManager) (parentIdx : Nat)
    (l : List ResourceInput) :
    (st.buildChildren parentIdx l).1.topLevelResources = st.topLevelResources := by
  cases l with
  | nil => rfl
  | cons c rest =>
    simp only [buildChildren]
    exact ((buildChildren_topLevel _ parentIdx rest).trans (topLevel_setNode _ _ _)).trans
      (buildResource_topLevel st c)

end

theorem mem_range'_iff {s n j : Nat} : j ∈ List.range' s n ↔ s ≤ j ∧ j < s + n := by
  rw [List.mem_range']
  constructor
  · rintro ⟨i, hi, rfl⟩; omega
  · rintro ⟨h1, h2⟩; exact ⟨j - s, by omega, by omega⟩

theorem range'_split (s n m : Nat) :
    List.range' s (n + m) = List.range' s n ++ List.range' (s + n) m := by
  have := List.range'_append s n m 1
  simpa [Nat.add_comm] using this.symm

theorem alloc_getNode (st : ResourceManager) (nd : ResourceNode) (g : Nat) :
    ({ st with nodes := st.nodes ++ [nd], resourceGuid := g } :
      ResourceManager).getNode st.nodes.length = nd := by
  simp only [getNode]
  exact getD_concat_self st.nodes nd

theorem alloc_len (st : ResourceManager) (nd : ResourceNode) (g : Nat) :
    ({ st with nodes := st.nodes ++ [nd], resourceGuid := g } :
      ResourceManager).nodes.length = st.nodes.length + 1 := by
  simp

mutual

theorem buildAlloc_tree (st : ResourceManager) (rid0 : String) (pid0 : Option String)
    (g : Nat) (cs : List ResourceInput) :
    ∃ t : RTree, t.root = st.nodes.length ∧
      t.flat = List.range' st.nodes.length
        ((((allocState st rid0 pid0 g).buildChildren st.nodes.length cs).1.setNode
            st.nodes.length
            { ((allocState st rid0 pid0 g).buildChildren st.nodes.length cs).1.getNode
                st.nodes.length with
              children :=
                ((allocState st rid0 pid0 g).buildChildren
                  st.nodes.length cs).2 }).nodes.length - st.nodes.length) ∧
      goodT (((allocState st rid0 pid0 g).buildChildren st.nodes.length cs).1.setNode
          st.nodes.length
          { ((allocState st rid0 pid0 g).buildChildren st.nodes.length cs).1.getNode
              st.nodes.length with
            children := ((allocState st rid0 pid0 g).buildChildren st.nodes.length cs).2 })
        t none := by
  obtain ⟨ts, hroots, hflat, hgood⟩ :=
    buildChildren_tree (allocState st rid0 pid0 g) st.nodes.length cs
  have hMlen : (allocState st rid0 pid0 g).nodes.length = st.nodes.length + 1 := by
    simp [allocState]
  have hPlen := buildChildren_len (allocState st rid0 pid0 g) st.nodes.length cs
  have hstab := buildChildren_stable (allocState st rid0 pid0 g) st.nodes.length cs
  have hMget : (allocState st rid0 pid0 g).getNode st.nodes.length =
      { rid := rid0, parentId := pid0, children := [], parent := none } :=
    alloc_getNode st _ _
  have hMget2 := hstab st.nodes.length (by omega)
  refine ⟨.node st.nodes.length ts, rfl, ?_, ?_⟩
  · rw [flat_node, hflat, hMlen, nodes_length_setNode]
    rw [show ((allocState st rid0 pid0 g).buildChildren st.nodes.length cs).1.nodes.length -
        st.nodes.length =
        (((allocState st rid0 pid0 g).buildChildren st.nodes.length cs).1.nodes.length -
          (st.nodes.length + 1)) + 1 from by omega]
    rw [List.range'_succ]
  · rw [goodT_node]
    refine ⟨?_, ?_, ?_, ?_⟩
    · rw [nodes_length_setNode]; omega
    · rw [getNode_setNode_self _ _ (by omega)]
      show (((allocState st rid0 pid0 g).buildChildren st.nodes.length cs).1.getNode
        st.nodes.length).parent = none
      rw [hMget2, hMget]
    · rw [getNode_setNode_self _ _ (by omega)]
      exact hroots.symm
    · refine goodL_mono ts _ _ _ (by rw [nodes_length_setNode]) ?_ hgood
      intro j hj
      rw [hflat, hMlen, mem_range'_iff] at hj
      exact getNode_setNode_ne _ _ (by omega)
termination_by sizeOf cs + 1

theorem buildResource_tree (st : ResourceManager) (input : ResourceInput) :
    ∃ t : RTree, t.root = (st.buildResource input).2 ∧
      t.flat = List.range' st.nodes.length
        ((st.buildResource input).1.nodes.length - st.nodes.length) ∧
      goodT (st.buildResource input).1 t none := by
  cases input with
  | mk a b cs =>
    cases a with
    | some aa =>
      simp only [buildResource]
      exact buildAlloc_tree st aa b st.resourceGuid cs
    | none =>
      simp only [buildResource]
      exact buildAlloc_tree st ("_fc" ++ toString st.resourceGuid) b
        (st.resourceGuid + 1) cs
termination_by sizeOf input

theorem buildChildren_tree (st : ResourceManager) (parentIdx : Nat)
    (l : List ResourceInput) :
    ∃ ts : List RTree, rootsL ts = (st.buildChildren parentIdx l).2 ∧
      flatL ts = List.range' st.nodes.length
        ((st.buildChildren parentIdx l).1.nodes.length - st.nodes.length) ∧
      goodL (st.buildChildren parentIdx l).1 ts parentIdx := by
  cases l with
  | nil =>
    refine ⟨[], rfl, ?_, goodL_nil⟩
    rw [flatL]
    simp [buildChildren]
  | cons c rest =>
    simp only [buildChildren]
    obtain ⟨t0, ht0root, ht0flat, ht0good⟩ := buildResource_tree st c
    have hidx := buildResource_idx st c
    have hlen1 := buildResource_len st c
    cases t0 with
    | node i0 cs0 =>
      have hi0 : i0 = st.nodes.length := by
        rw [show (RTree.node i0 cs0).root = i0 from rfl] at ht0root
        omega
      subst hi0
      rw [goodT_node] at ht0good
      obtain ⟨hg1, hg2, hg3, hg4⟩ := ht0good
      rw [flat_node] at ht0flat
      have hk0 : (st.buildResource c).1.nodes.length - st.nodes.length =
          ((st.buildResource c).1.nodes.length - (st.nodes.length + 1)) + 1 := by omega
      have hflatcs : flatL cs0 = List.range' (st.nodes.length + 1)
          ((st.buildResource c).1.nodes.length - (st.nodes.length + 1)) := by
        rw [hk0, List.range'_succ] at ht0flat
        injection ht0flat
      set st2 : ResourceManager := (st.buildResource c).1.setNode (st.buildResource c).2
        { (st.buildResource c).1.getNode (st.buildResource c).2 with
          parent := some parentIdx } with hst2
      have hst2len : st2.nodes.length = (st.buildResource c).1.nodes.length :=
        nodes_length_setNode _ _ _
      have hg2p : goodT st2 (.node st.nodes.length cs0) (some parentIdx) := by
        rw [goodT_node]
        refine ⟨by omega, ?_, ?_, ?_⟩
        · rw [hst2, hidx, getNode_setNode_self _ _ (by omega)]
        · rw [hst2, hidx, getNode_setNode_self _ _ (by omega)]
          exact hg3
        · refine goodL_mono cs0 _ _ _ (by omega) ?_ hg4
          intro j hj
          rw [hflatcs, mem_range'_iff] at hj
          rw [hst2, hidx]
          exact getNode_setNode_ne _ _ (by omega)
      obtain ⟨ts1, hts1roots, hts1flat, hts1good⟩ := buildChildren_tree st2 parentIdx rest
      have hQlen := buildChildren_len st2 parentIdx rest
      have hQstab := buildChildren_stable st2 parentIdx rest
      refine ⟨.node st.nodes.length cs0 :: ts1, ?_, ?_, ?_⟩
      · rw [rootsL, List.map_cons]
        rw [rootsL] at hts1roots
        rw [hts1roots, hidx]
        rfl
      · rw [flatL, flat_node, hts1flat, hst2len]
        have hsplit := range'_split st.nodes.length
          ((st.buildResource c).1.nodes.length - st.nodes.length)
          ((st2.buildChildren parentIdx rest).1.nodes.length -
            (st.buildResource c).1.nodes.length)
        rw [show st.nodes.length + ((st.buildResource c).1.nodes.length - st.nodes.length) =
          (st.buildResource c).1.nodes.length from by omega] at hsplit
        rw [show (st.buildResource c).1.nodes.length - st.nodes.length +
            ((st2.buildChildren parentIdx rest).1.nodes.length -
              (st.buildResource c).1.nodes.length) =
          (st2.buildChildren parentIdx rest).1.nodes.length - st.nodes.length
          from by omega] at hsplit
        rw [ht0flat, ← hsplit]
      · rw [goodL_cons]
        refine ⟨?_, hts1good⟩
        refine goodT_mono _ _ _ _ (by omega) ?_ hg2p
        intro j hj
        rw [flat_node] at hj
        rcases List.mem_cons.mp hj with rfl | hj2
        · exact hQstab _ (by omega)
        · rw [hflatcs, mem_range'_iff] at hj2
          exact hQstab _ (by omega)
termination_by sizeOf l

end

/-! ### Index insertion over a decorated subtree -/

theorem idxLookup_append (xs ys : List (String × Nat)) (k : String) :
    idxLookup (xs ++ ys) k =
      (match idxLookup xs k with
       | some v => some v
       | none => idxLookup ys k) := by
  induction xs with
  | nil => rfl
  | cons p ps ih =>
    rw [List.cons_append, idxLookup, idxLookup]
    by_cases h : p.1 = k
    · rw [if_pos h, if_pos h]
    · rw [if_neg h, if_neg h, ih]

theorem idxLookup_keys_none (entries : List (String × Nat)) (k : String)
    (h : ∀ p ∈ entries, p.1 ≠ k) : idxLookup entries k = none := by
  induction entries with
  | nil => rfl
  | cons p ps ih =>
    rw [idxLookup, if_neg (h p (List.mem_cons_self _ _))]
    exact ih fun q hq => h q (List.mem_cons_of_mem _ hq)

theorem flat_length_pos (t : RTree) : 0 < t.flat.length := by
  cases t with
  | node i cs => rw [flat_node]; simp

theorem flat_length_le_flatL {t : RTree} {ts : List RTree} (h : t ∈ ts) :
    t.flat.length ≤ (flatL ts).length := by
  induction ts with
  | nil => cases h
  | cons a as ih =>
    rw [flatL, List.length_append]
    rcases List.mem_cons.mp h with rfl | h2
    · omega
    · have := ih h2; omega

theorem rootsL_cons (t : RTree) (ts : List RTree) :
    rootsL (t :: ts) = t.root :: rootsL ts := by
  rw [rootsL, rootsL, List.map_cons]

theorem goodL_resById (st : ResourceManager) (rb : List (String × Nat)) (ts : List RTree)
    (pi : Nat) (h : goodL st ts pi) :
    goodL { st with resourcesById := rb } ts pi :=
  goodL_mono ts st _ pi (Nat.le_refl _) (fun _ _ => rfl) h

mutual

theorem addToIndex_tree (t : RTree) :
    ∀ (f : Nat) (st : ResourceManager) (po : Option Nat),
      goodT st t po →
      t.flat.length ≤ f →
      (∀ j ∈ t.flat, idxLookup st.resourcesById ((st.getNode j).rid) = none) →
      (t.flat.map (fun j => (st.getNode j).rid)).Nodup →
      addResourceToIndexCore f st t.root =
        ({ st with resourcesById :=
            st.resourcesById ++ t.flat.map (fun j => ((st.getNode j).rid, j)) }, true) := by
  cases t with
  | node i cs =>
    intro f st po hgood hf hfresh hnodup
    cases f with
    | zero =>
      have := flat_length_pos (RTree.node i cs)
      omega
    | succ f =>
      rw [goodT_node] at hgood
      obtain ⟨h1, h2, h3, h4⟩ := hgood
      rw [flat_node] at hf hfresh hnodup ⊢
      simp only [RTree.root, addResourceToIndexCore]
      rw [hfresh i (List.mem_cons_self _ _)]
      simp only [Option.isSome_none, Bool.false_eq_true, if_false]
      have hch : (({ st with resourcesById :=
          st.resourcesById ++ [((st.getNode i).rid, i)] } :
            ResourceManager).getNode i).children = rootsL cs := h3
      rw [hch]
      have hforest := addToIndex_forest cs f
        { st with resourcesById := st.resourcesById ++ [((st.getNode i).rid, i)] } i
        (goodL_resById _ _ _ _ h4)
        (fun t' ht' => by
          have hle := flat_length_le_flatL ht'
          simp only [List.length_cons] at hf
          omega)
        (fun j hj => by
          show idxLookup (st.resourcesById ++ [((st.getNode i).rid, i)])
            ((st.getNode j).rid) = none
          rw [idxLookup_append]
          rw [hfresh j (List.mem_cons_of_mem _ hj)]
          refine idxLookup_keys_none _ _ ?_
          intro p hp
          rw [List.mem_singleton] at hp
          subst hp
          simp only [List.map_cons, List.nodup_cons] at hnodup
          intro he
          have he2 : (st.getNode i).rid = (st.getNode j).rid := he
          exact hnodup.1 (by rw [he2]; exact List.mem_map_of_mem _ hj))
        (by
          simp only [List.map_cons, List.nodup_cons] at hnodup
          exact hnodup.2)
      rw [hforest]
      simp only [List.map_cons, List.cons_append, List.append_assoc, List.singleton_append]
      rfl

theorem addToIndex_forest (ts : List RTree) :
    ∀ (f : Nat) (st : ResourceManager) (pi : Nat),
      goodL st ts pi →
      (∀ t ∈ ts, t.flat.length ≤ f) →
      (∀ j ∈ flatL ts, idxLookup st.resourcesById ((st.getNode j).rid) = none) →
      ((flatL ts).map (fun j => (st.getNode j).rid)).Nodup →
      (rootsL ts).foldl (fun s c => (addResourceToIndexCore f s c).1) st =
        { st with resourcesById :=
            st.resourcesById ++ (flatL ts).map (fun j => ((st.getNode j).rid, j)) } := by
  cases ts with
  | nil =>
    intro f st pi _ _ _ _
    rw [rootsL, List.map_nil, List.foldl_nil, flatL, List.map_nil, List.append_nil]
  | cons t ts =>
    intro f st pi hgood hf hfresh hnodup
    rw [goodL_cons] at hgood
    rw [rootsL_cons, List.foldl_cons]
    rw [flatL] at hfresh hnodup ⊢
    have htree := addToIndex_tree t f st (some pi) hgood.1
      (hf t (List.mem_cons_self _ _))
      (fun j hj => hfresh j (List.mem_append_left _ hj))
      (by
        rw [List.map_append] at hnodup
        exact hnodup.of_append_left)
    have htree1 : (addResourceToIndexCore f st t.root).1 =
        { st with resourcesById :=
            st.resourcesById ++ t.flat.map (fun j => ((st.getNode j).rid, j)) } := by
      rw [htree]
    rw [htree1]
    have hforest := addToIndex_forest ts f
      { st with resourcesById :=
          st.resourcesById ++ t.flat.map (fun j => ((st.getNode j).rid, j)) } pi
      (goodL_resById _ _ _ _ hgood.2)
      (fun t' ht' => hf t' (List.mem_cons_of_mem _ ht'))
      (fun j hj => by
        show idxLookup (st.resourcesById ++ t.flat.map (fun j2 => ((st.getNode j2).rid, j2)))
          ((st.getNode j).rid) = none
        rw [idxLookup_append]
        rw [hfresh j (List.mem_append_right _ hj)]
        refine idxLookup_keys_none _ _ ?_
        intro p hp
        rw [List.mem_map] at hp
        obtain ⟨j2, hj2, rfl⟩ := hp
        rw [List.map_append] at hnodup
        intro he
        have he2 : (st.getNode j2).rid = (st.getNode j).rid := he
        exact (List.disjoint_of_nodup_append hnodup)
          (List.mem_map_of_mem _ hj2) (by rw [he2]; exact List.mem_map_of_mem _ hj))
      (by
        rw [List.map_append] at hnodup
        exact hnodup.of_append_right)
    rw [hforest]
    simp only [List.map_append, List.append_assoc]
    rfl

end

/-- C5 witness: a remote fetch whose transport fails outright. -/
theorem c5_witness :
    ((construct.fetchResources (.object none "u" none (some 9)) none none
        (.user 1)).1.fetchingResourcesCallbacks = [.user 1]) ∧
    (((construct.fetchResources (.object none "u" none (some 9)) none none
        (.user 1)).1.requestEnd
          ⟨(construct.fetchResources (.object none "u" none (some 9)) none none
            (.user 1)).1.fetchId, .object none "u" none (some 9)⟩ true ⟨none, none⟩).2 =
      none) :=
  ⟨rfl,
    (c5_remote_failure_degradation
      (construct.fetchResources (.object none "u" none (some 9)) none none (.user 1)).1
      none "u" none 9 1 ⟨none, none⟩ true rfl (Or.inl rfl)).1⟩

/-- `addResourceToTree` when the (nonempty) parent id does not resolve:
attach fails without mutation. -/
theorem addResourceToTree_notFound (st : ResourceManager) (r : Nat) (pid : String)
    (hp : (st.getNode r).parent = none) (hpid : (st.getNode r).parentId = some pid)
    (hne : pid ≠ "") (hmiss : idxLookup st.resourcesById pid = none) :
    st.addResourceToTree r = (st, false) := by
  have hm : (match (st.getNode r).parentId with | some s => s | none => "") = pid := by
    rw [hpid]
  simp only [addResourceToTree]
  split
  · next hSome => rw [hp] at hSome; simp at hSome
  · rw [hm, if_pos hne, hmiss]

/-- C10: `addResource` (after an initiated, resolved fetch) with a raw input
whose fresh id is no duplicate but whose nonempty `parentId` resolves neither
in the old index nor among the newly built subtree's ids: the resource (and its
subtree) is still stored in the index, the `add` lifecycle event fires and the
caller's callback is invoked with the resource — yet the tree attach failed,
the top-level list is unchanged, and the resource is unreachable from it. -/
theorem c10_indexed_but_unreachable (st : ResourceManager) (input : ResourceInput)
    (cb : Nat) (pid : String)
    (hInit : st.isFetchingInitiated = true) (hRes : st.isFetchingResolved = true)
    (hclosed : arenaClosed st)
    (hpid : input.parentId = some pid) (hne : pid ≠ "")
    (hmiss1 : idxLookup st.resourcesById pid = none)
    (hmiss2 : ∀ j, j < (st.buildResource input).1.nodes.length → st.nodes.length ≤ j →
      ((st.buildResource input).1.getNode j).rid ≠ pid)
    (hfresh : ∀ j, j < (st.buildResource input).1.nodes.length → st.nodes.length ≤ j →
      idxLookup st.resourcesById (((st.buildResource input).1.getNode j).rid) = none)
    (hnodup : ((List.range' st.nodes.length
        ((st.buildResource input).1.nodes.length - st.nodes.length)).map
          (fun j => ((st.buildResource input).1.getNode j).rid)).Nodup) :
    idxLookup (st.addResource input (some cb)).resourcesById
        (((st.buildResource input).1.getNode (st.buildResource input).2).rid) =
      some (st.buildResource input).2 ∧
    (st.addResource input (some cb)).trace =
      st.trace ++ [Ev.add (st.buildResource input).2 st.topLevelResources,
                   Ev.addCb cb (st.buildResource input).2] ∧
    (st.addResource input (some cb)).topLevelResources = st.topLevelResources ∧
    ¬ Reachable (st.addResource input (some cb)) (st.buildResource input).2 := by
  obtain ⟨t, htroot, htflat, htgood⟩ := buildResource_tree st input
  have hlen := buildResource_len st input
  have hresby := buildResource_resById st input
  have htopb := buildResource_topLevel st input
  have hcore := buildResource_core st input
  have hstable := buildResource_stable st input
  have hidx := buildResource_idx st input
  have hroot := buildResource_root st input
  have hflatlen : t.flat.length =
      (st.buildResource input).1.nodes.length - st.nodes.length := by
    rw [htflat]; exact List.length_range' _ _ _
  have hmem : ∀ j ∈ t.flat,
      st.nodes.length ≤ j ∧ j < (st.buildResource input).1.nodes.length := by
    intro j hj; rw [htflat, mem_range'_iff] at hj; omega
  have hins := addToIndex_tree t ((st.buildResource input).1.nodes.length + 1)
    (st.buildResource input).1 none htgood
    (by omega)
    (fun j hj => by
      have hb := hmem j hj
      rw [hresby]
      exact hfresh j hb.2 hb.1)
    (by rw [htflat]; exact hnodup)
  rw [htroot] at hins
  have hattach := addResourceToTree_notFound
    (indexedState (st.buildResource input).1 t)
    (st.buildResource input).2 pid
    hroot.2.1
    (by rw [show (indexedState (st.buildResource input).1 t).getNode
          (st.buildResource input).2 =
        (st.buildResource input).1.getNode (st.buildResource input).2 from rfl,
        hroot.2.2, hpid])
    hne
    (by
      show idxLookup ((st.buildResource input).1.resourcesById ++
        t.flat.map (fun j => (((st.buildResource input).1.getNode j).rid, j))) pid = none
      rw [idxLookup_append, hresby, hmiss1]
      refine idxLookup_keys_none _ _ ?_
      intro p hp
      rw [List.mem_map] at hp
      obtain ⟨j, hj, rfl⟩ := hp
      have hb := hmem j hj
      exact hmiss2 j hb.2 hb.1)
  have hbody : st.addResource input (some cb) =
      ((indexedState (st.buildResource input).1 t).emitEv
        (.add (st.buildResource input).2
          (st.buildResource input).1.topLevelResources)).emitEv
        (.addCb cb (st.buildResource input).2) := by
    simp only [addResource, hInit, if_true, whenFetchingResolved, hRes, runCallback,
      addResourceBody]
    rw [show addResourceToIndex (st.buildResource input).1 (st.buildResource input).2 =
      ((indexedState (st.buildResource input).1 t), true) from hins]
    simp only [if_true]
    rw [show (indexedState (st.buildResource input).1 t).addResourceToTree
        (st.buildResource input).2 =
      ((indexedState (st.buildResource input).1 t), false) from hattach]
    rfl
  obtain ⟨rest, hflatcons⟩ : ∃ rest, t.flat = (st.buildResource input).2 :: rest := by
    cases t with
    | node i cs =>
      refine ⟨flatL cs, ?_⟩
      rw [flat_node, show i = (st.buildResource input).2 from htroot]
  refine ⟨?_, ?_, ?_, ?_⟩
  · rw [hbody]
    show idxLookup ((st.buildResource input).1.resourcesById ++
      t.flat.map (fun j => (((st.buildResource input).1.getNode j).rid, j)))
      (((st.buildResource input).1.getNode (st.buildResource input).2).rid) =
      some (st.buildResource input).2
    rw [idxLookup_append, hresby]
    rw [hfresh (st.buildResource input).2 (by omega) (by omega)]
    rw [hflatcons, List.map_cons, idxLookup, if_pos rfl]
  · rw [hbody]
    show ((st.buildResource input).1.trace ++ [_]) ++ [_] = _
    rw [coreEq_trace hcore, htopb]
    simp
  · rw [hbody]
    show (st.buildResource input).1.topLevelResources = st.topLevelResources
    exact htopb
  · intro hreach
    have hbound : ∀ j, Reachable (st.addResource input (some cb)) j →
        j < st.nodes.length := by
      intro j hj
      induction hj with
      | top hmem2 =>
        next i0 =>
        have heq : (st.addResource input (some cb)).topLevelResources =
            st.topLevelResources := by
          rw [hbody]
          exact htopb
        rw [heq] at hmem2
        exact hclosed.1 i0 hmem2
      | child hj2 hmem2 ih =>
        next k0 i0 =>
        have hnodes : (st.addResource input (some cb)).getNode k0 = st.getNode k0 := by
          rw [hbody]
          show (st.buildResource input).1.getNode k0 = st.getNode k0
          exact hstable k0 ih
        rw [hnodes] at hmem2
        exact hclosed.2 k0 ih i0 hmem2
    have := hbound _ hreach
    omega

/-- C10 witness: after an (empty) resolved fetch, adding `x` with unresolvable
parent id `"nope"` indexes it nevertheless. -/
theorem c10_witness :
    ((construct.fetchResources (.list []) none none (.user 1)).1.isFetchingInitiated = true ∧
     (construct.fetchResources (.list []) none none (.user 1)).1.isFetchingResolved = true ∧
     (construct.fetchResources (.list []) none none (.user 1)).1.arenaClosed ∧
     (ResourceInput.mk (some "x") (some "nope") []).parentId = some "nope" ∧
     ("nope" : String) ≠ "" ∧
     idxLookup (construct.fetchResources (.list []) none none
       (.user 1)).1.resourcesById "nope" = none) ∧
    idxLookup ((construct.fetchResources (.list []) none none (.user 1)).1.addResource
        (.mk (some "x") (some "nope") []) (some 7)).resourcesById
      ((((construct.fetchResources (.list []) none none (.user 1)).1.buildResource
          (.mk (some "x") (some "nope") [])).1.getNode
        ((construct.fetchResources (.list []) none none (.user 1)).1.buildResource
          (.mk (some "x") (some "nope") [])).2).rid) =
      some ((construct.fetchResources (.list []) none none (.user 1)).1.buildResource
        (.mk (some "x") (some "nope") [])).2 :=
  ⟨⟨rfl, rfl, by decide, rfl, by decide, rfl⟩,
    (c10_indexed_but_unreachable
      (construct.fetchResources (.list []) none none (.user 1)).1
      (.mk (some "x") (some "nope") []) 7 "nope"
      rfl rfl (by decide) rfl (by decide) rfl (by decide) (by decide) (by decide)).1⟩

/-! ### Index removal over a decorated subtree (C6) -/

theorem idxLookup_eraseKey_ne (m : List (String × Nat)) {k k2 : String} (h : k2 ≠ k) :
    idxLookup (eraseKey m k) k2 = idxLookup m k2 := by
  induction m with
  | nil => rfl
  | cons p ps ih =>
    rw [eraseKey, idxLookup]
    by_cases hp : p.1 = k
    · rw [if_pos hp, ih, if_neg (by rw [hp]; exact fun he => h he.symm)]
    · rw [if_neg hp, idxLookup]
      by_cases hp2 : p.1 = k2
      · rw [if_pos hp2, if_pos hp2]
      · rw [if_neg hp2, if_neg hp2, ih]

theorem idxLookup_eraseKeys_ne (ks : List String) :
    ∀ (m : List (String × Nat)) (k2 : String), (∀ k ∈ ks, k2 ≠ k) →
      idxLookup (eraseKeys m ks) k2 = idxLookup m k2 := by
  induction ks with
  | nil => intro m k2 _; rfl
  | cons k ks ih =>
    intro m k2 h
    rw [eraseKeys, List.foldl_cons]
    rw [show List.foldl eraseKey (eraseKey m k) ks = eraseKeys (eraseKey m k) ks from rfl]
    rw [ih _ _ fun k3 hk3 => h k3 (List.mem_cons_of_mem _ hk3)]
    exact idxLookup_eraseKey_ne m (h k (List.mem_cons_self _ _))

theorem eraseKeys_append (m : List (String × Nat)) (a b : List String) :
    eraseKeys m (a ++ b) = eraseKeys (eraseKeys m a) b := by
  rw [eraseKeys, eraseKeys, eraseKeys, List.foldl_append]

theorem idxLookup_mem_keys {m : List (String × Nat)} {k : String} {v : Nat}
    (h : idxLookup m k = some v) : k ∈ m.map Prod.fst := by
  induction m with
  | nil => cases h
  | cons p ps ih =>
    rw [idxLookup] at h
    by_cases hp : p.1 = k
    · rw [List.map_cons, hp]; exact List.mem_cons_self _ _
    · rw [if_neg hp] at h
      exact List.mem_cons_of_mem _ (ih h)

mutual

theorem removeFromIndex_tree (t : RTree) :
    ∀ (f : Nat) (st : ResourceManager) (po : Option Nat),
      goodT st t po →
      t.flat.Nodup →
      t.flat.length ≤ f →
      (∀ j ∈ t.flat, idxLookup st.resourcesById ((st.getNode j).rid) = some j) →
      removeResourceFromIndexCore f st ((st.getNode t.root).rid) =
        ({ st with resourcesById :=
            eraseKeys st.resourcesById (t.flat.map (fun j => (st.getNode j).rid)) },
         some t.root) := by
  cases t with
  | node i cs =>
    intro f st po hgood hnodup hf hcomplete
    cases f with
    | zero =>
      have := flat_length_pos (RTree.node i cs)
      omega
    | succ f =>
      rw [goodT_node] at hgood
      obtain ⟨h1, h2, h3, h4⟩ := hgood
      rw [flat_node] at hnodup hf hcomplete ⊢
      rw [List.nodup_cons] at hnodup
      simp only [RTree.root, removeResourceFromIndexCore,
        hcomplete i (List.mem_cons_self _ _)]
      have hch : (({ st with
            resourcesById := eraseKey st.resourcesById ((st.getNode i).rid) } :
          ResourceManager).getNode i).children = rootsL cs := h3
      rw [hch]
      have hforest := removeFromIndex_forest cs f
        { st with resourcesById := eraseKey st.resourcesById ((st.getNode i).rid) } i
        (goodL_resById _ _ _ _ h4)
        hnodup.2
        (fun t' ht' => by
          have hle := flat_length_le_flatL ht'
          simp only [List.length_cons] at hf
          omega)
        (fun j hj => by
          show idxLookup (eraseKey st.resourcesById ((st.getNode i).rid))
            ((st.getNode j).rid) = some j
          rw [idxLookup_eraseKey_ne]
          · exact hcomplete j (List.mem_cons_of_mem _ hj)
          · intro he
            have h5 := hcomplete j (List.mem_cons_of_mem _ hj)
            have h6 := hcomplete i (List.mem_cons_self _ _)
            rw [he, h6] at h5
            cases h5
            exact hnodup.1 hj)
      rw [hforest]
      rw [List.map_cons]
      rw [show eraseKeys st.resourcesById
          ((st.getNode i).rid :: List.map (fun j => (st.getNode j).rid) (flatL cs)) =
        eraseKeys (eraseKey st.resourcesById ((st.getNode i).rid))
          (List.map (fun j => (st.getNode j).rid) (flatL cs)) from rfl]
      rfl

theorem removeFromIndex_forest (ts : List RTree) :
    ∀ (f : Nat) (st : ResourceManager) (pi : Nat),
      goodL st ts pi →
      (flatL ts).Nodup →
      (∀ t ∈ ts, t.flat.length ≤ f) →
      (∀ j ∈ flatL ts, idxLookup st.resourcesById ((st.getNode j).rid) = some j) →
      (rootsL ts).foldl
          (fun s c => (removeResourceFromIndexCore f s (s.getNode c).rid).1) st =
        { st with resourcesById :=
            eraseKeys st.resourcesById ((flatL ts).map (fun j => (st.getNode j).rid)) } := by
  cases ts with
  | nil =>
    intro f st pi _ _ _ _
    rw [rootsL, List.map_nil, List.foldl_nil, flatL, List.map_nil]
    rfl
  | cons t ts =>
    intro f st pi hgood hnodup hf hcomplete
    rw [goodL_cons] at hgood
    rw [rootsL_cons, List.foldl_cons]
    rw [flatL] at hnodup hcomplete ⊢
    have htree := removeFromIndex_tree t f st (some pi) hgood.1
      hnodup.of_append_left
      (hf t (List.mem_cons_self _ _))
      (fun j hj => hcomplete j (List.mem_append_left _ hj))
    have htree1 : (removeResourceFromIndexCore f st ((st.getNode t.root).rid)).1 =
        { st with
          resourcesById :=
            eraseKeys st.resourcesById (t.flat.map (fun j => (st.getNode j).rid)) } := by
      rw [htree]
    rw [htree1]
    have hdisj := List.disjoint_of_nodup_append hnodup
    have hforest := removeFromIndex_forest ts f
      { st with resourcesById :=
          eraseKeys st.resourcesById (t.flat.map (fun j => (st.getNode j).rid)) } pi
      (goodL_resById _ _ _ _ hgood.2)
      hnodup.of_append_right
      (fun t' ht' => hf t' (List.mem_cons_of_mem _ ht'))
      (fun j hj => by
        show idxLookup (eraseKeys st.resourcesById
          (t.flat.map (fun j2 => (st.getNode j2).rid))) ((st.getNode j).rid) = some j
        rw [idxLookup_eraseKeys_ne]
        · exact hcomplete j (List.mem_append_right _ hj)
        · intro k hk he
          rw [List.mem_map] at hk
          obtain ⟨j2, hj2, rfl⟩ := hk
          have h5 := hcomplete j (List.mem_append_right _ hj)
          have h6 := hcomplete j2 (List.mem_append_left _ hj2)
          rw [he, h6] at h5
          cases h5
          exact hdisj hj2 hj)
    rw [hforest]
    rw [List.map_append, eraseKeys_append]
    rfl

end

/-- C6: the index removal contract.  Removing an id absent from the index
returns null (a JS falsy, modelled `none`) and leaves the whole state — in
particular the index — unchanged.  Removing the id of an indexed resource
whose recorded-children structure forms a decorated subtree (as every resource
built and indexed by this engine does) deletes its entry and, recursively, the
entries of all previously indexed descendants by their recorded ids — exactly
the subtree's ids, in preorder — and returns the removed resource. -/
theorem c6_index_removal_contract (st : ResourceManager) (t : RTree) (po : Option Nat)
    (id : String)
    (hgood : goodT st t po) (hnodup : t.flat.Nodup)
    (hcomplete : ∀ j ∈ t.flat, idxLookup st.resourcesById ((st.getNode j).rid) = some j)
    (hmissing : idxLookup st.resourcesById id = none) :
    st.removeResourceFromIndex id = (st, none) ∧
    st.removeResourceFromIndex ((st.getNode t.root).rid) =
      ({ st with
         resourcesById := eraseKeys st.resourcesById
           (t.flat.map (fun j => (st.getNode j).rid)) },
       some t.root) := by
  constructor
  · simp only [removeResourceFromIndex, removeResourceFromIndexCore, hmissing]
  · have hlen : t.flat.length ≤ st.resourcesById.length := by
      have hinj : (t.flat.map (fun j => (st.getNode j).rid)).Nodup := by
        refine List.Nodup.map_on ?_ hnodup
        intro x hx y hy hxy
        have h5 := hcomplete x hx
        have h6 := hcomplete y hy
        rw [hxy, h6] at h5
        cases h5
        rfl
      have hsub : ∀ k ∈ t.flat.map (fun j => (st.getNode j).rid),
          k ∈ st.resourcesById.map Prod.fst := by
        intro k hk
        rw [List.mem_map] at hk
        obtain ⟨j, hj, rfl⟩ := hk
        exact idxLookup_mem_keys (hcomplete j hj)
      have hle := List.Subperm.length_le (List.subperm_of_subset hinj hsub)
      simpa using hle
    exact removeFromIndex_tree t (st.resourcesById.length + 1) st po hgood hnodup
      (by omega) hcomplete

/-- C6 witness: a resolved manager holding `a` (with nested child `b`) and `d`;
tree `a → b` occupies slots 0 and 1. -/
theorem c6_witness :
    (goodT (construct.fetchResources (.list [.mk (some "a") none [.mk (some "b") none []],
        .mk (some "d") none []]) none none (.user 1)).1
      (.node 0 [.node 1 []]) none ∧
     (RTree.node 0 [RTree.node 1 []]).flat.Nodup ∧
     (∀ j ∈ (RTree.node 0 [RTree.node 1 []]).flat,
       idxLookup (construct.fetchResources (.list [.mk (some "a") none
           [.mk (some "b") none []], .mk (some "d") none []]) none none
         (.user 1)).1.resourcesById
         (((construct.fetchResources (.list [.mk (some "a") none [.mk (some "b") none []],
             .mk (some "d") none []]) none none (.user 1)).1.getNode j).rid) = some j) ∧
     idxLookup (construct.fetchResources (.list [.mk (some "a") none
         [.mk (some "b") none []], .mk (some "d") none []]) none none
       (.user 1)).1.resourcesById "zz" = none) ∧
    (construct.fetchResources (.list [.mk (some "a") none [.mk (some "b") none []],
        .mk (some "d") none []]) none none (.user 1)).1.removeResourceFromIndex "zz" =
      ((construct.fetchResources (.list [.mk (some "a") none [.mk (some "b") none []],
        .mk (some "d") none []]) none none (.user 1)).1, none) := by
  have hgood : goodT (construct.fetchResources (.list [.mk (some "a") none
      [.mk (some "b") none []], .mk (some "d") none []]) none none (.user 1)).1
      (.node 0 [.node 1 []]) none := by
    rw [goodT_node]
    refine ⟨by decide, by decide, by decide, ?_⟩
    rw [goodL_cons]
    refine ⟨?_, goodL_nil⟩
    rw [goodT_node]
    exact ⟨by decide, by decide, by decide, goodL_nil⟩
  refine ⟨⟨hgood, by decide, by decide, rfl⟩, ?_⟩
  exact (c6_index_removal_contract _ (.node 0 [.node 1 []]) none "zz" hgood
    (by decide) (by decide) rfl).1

/-! ### Lockstep development (C1): basic facts about decorated forests -/

theorem flatL_append (a b : List RTree) : flatL (a ++ b) = flatL a ++ flatL b := by
  induction a with
  | nil => simp [flatL]
  | cons t ts ih => rw [List.cons_append, flatL, flatL, ih, List.append_assoc]

theorem rootsL_append (a b : List RTree) : rootsL (a ++ b) = rootsL a ++ rootsL b := by
  rw [rootsL, rootsL, rootsL, List.map_append]

theorem goodL_mem {st : ResourceManager} {ts : List RTree} {pi : Nat}
    (h : goodL st ts pi) {t : RTree} (ht : t ∈ ts) : goodT st t (some pi) := by
  induction ts with
  | nil => cases ht
  | cons a as ih =>
    rw [goodL_cons] at h
    rcases List.mem_cons.mp ht with rfl | h2
    · exact h.1
    · exact ih h.2 h2

mutual

theorem flat_lt_tree (t : RTree) :
    ∀ (st : ResourceManager) (po : Option Nat), goodT st t po →
      ∀ j ∈ t.flat, j < st.nodes.length := by
  cases t with
  | node i cs =>
    intro st po hg j hj
    rw [goodT_node] at hg
    rw [flat_node] at hj
    rcases List.mem_cons.mp hj with rfl | hj2
    · exact hg.1
    · exact flat_lt_list cs st (fun t0 ht0 => ⟨some i, goodL_mem hg.2.2.2 ht0⟩) j hj2

theorem flat_lt_list (ts : List RTree) :
    ∀ (st : ResourceManager), (∀ t ∈ ts, ∃ po, goodT st t po) →
      ∀ j ∈ flatL ts, j < st.nodes.length := by
  cases ts with
  | nil =>
    intro st _ j hj
    rw [flatL] at hj
    cases hj
  | cons t ts =>
    intro st hg j hj
    rw [flatL] at hj
    rcases List.mem_append.mp hj with h1 | h2
    · obtain ⟨po, hpo⟩ := hg t (List.mem_cons_self _ _)
      exact flat_lt_tree t st po hpo j h1
    · exact flat_lt_list ts st (fun t0 ht0 => hg t0 (List.mem_cons_of_mem _ ht0)) j h2

end

mutual

theorem flat_closed_tree (t : RTree) :
    ∀ (st : ResourceManager) (po : Option Nat), goodT st t po →
      ∀ j ∈ t.flat, ∀ c ∈ (st.getNode j).children, c ∈ t.flat := by
  cases t with
  | node i cs =>
    intro st po hg j hj c hc
    rw [goodT_node] at hg
    rw [flat_node] at hj ⊢
    rcases List.mem_cons.mp hj with rfl | hj2
    · rw [hg.2.2.1, rootsL, List.mem_map] at hc
      obtain ⟨t0, ht0, rfl⟩ := hc
      exact List.mem_cons_of_mem _ (mem_flatL_of_mem ht0 (root_mem_flat t0))
    · exact List.mem_cons_of_mem _
        (flat_closed_list cs st (fun t0 ht0 => ⟨some i, goodL_mem hg.2.2.2 ht0⟩) j hj2 c hc)

theorem flat_closed_list (ts : List RTree) :
    ∀ (st : ResourceManager), (∀ t ∈ ts, ∃ po, goodT st t po) →
      ∀ j ∈ flatL ts, ∀ c ∈ (st.getNode j).children, c ∈ flatL ts := by
  cases ts with
  | nil =>
    intro st _ j hj
    rw [flatL] at hj
    cases hj
  | cons t ts =>
    intro st hg j hj c hc
    rw [flatL] at hj ⊢
    rcases List.mem_append.mp hj with h1 | h2
    · obtain ⟨po, hpo⟩ := hg t (List.mem_cons_self _ _)
      exact List.mem_append_left _ (flat_closed_tree t st po hpo j h1 c hc)
    · exact List.mem_append_right _
        (flat_closed_list ts st (fun t0 ht0 => hg t0 (List.mem_cons_of_mem _ ht0)) j h2 c hc)

end

mutual

theorem reach_flat_tree (t : RTree) :
    ∀ (st : ResourceManager) (po : Option Nat), goodT st t po →
      Reachable st t.root → ∀ j ∈ t.flat, Reachable st j := by
  cases t with
  | node i cs =>
    intro st po hg hr j hj
    rw [goodT_node] at hg
    rw [flat_node] at hj
    rcases List.mem_cons.mp hj with rfl | hj2
    · exact hr
    · refine reach_flat_list cs st
        (fun t0 ht0 => ⟨some i, goodL_mem hg.2.2.2 ht0⟩) ?_ j hj2
      intro t0 ht0
      have hri : Reachable st i := hr
      exact Reachable.child hri (by rw [hg.2.2.1, rootsL]; exact List.mem_map_of_mem _ ht0)

theorem reach_flat_list (ts : List RTree) :
    ∀ (st : ResourceManager), (∀ t ∈ ts, ∃ po, goodT st t po) →
      (∀ t ∈ ts, Reachable st t.root) → ∀ j ∈ flatL ts, Reachable st j := by
  cases ts with
  | nil =>
    intro st _ _ j hj
    rw [flatL] at hj
    cases hj
  | cons t ts =>
    intro st hg hr j hj
    rw [flatL] at hj
    rcases List.mem_append.mp hj with h1 | h2
    · obtain ⟨po, hpo⟩ := hg t (List.mem_cons_self _ _)
      exact reach_flat_tree t st po hpo (hr t (List.mem_cons_self _ _)) j h1
    · exact reach_flat_list ts st (fun t0 ht0 => hg t0 (List.mem_cons_of_mem _ ht0))
        (fun t0 ht0 => hr t0 (List.mem_cons_of_mem _ ht0)) j h2

end

theorem idxLookup_some_mem {m : List (String × Nat)} {k : String} {v : Nat}
    (h : idxLookup m k = some v) : (k, v) ∈ m := by
  induction m with
  | nil => cases h
  | cons p ps ih =>
    rw [idxLookup] at h
    by_cases hp : p.1 = k
    · rw [if_pos hp] at h
      injection h with hv
      subst hv
      subst hp
      exact List.mem_cons_self _ _
    · rw [if_neg hp] at h
      exact List.mem_cons_of_mem _ (ih h)

theorem idxLookup_entries (l : List Nat) (f : Nat → String) :
    ∀ j ∈ l, (l.map f).Nodup →
      idxLookup (l.map (fun j2 => (f j2, j2))) (f j) = some j := by
  induction l with
  | nil => intro j hj _; cases hj
  | cons a as ih =>
    intro j hj hnd
    rw [List.map_cons, idxLookup]
    rw [List.map_cons, List.nodup_cons] at hnd
    rcases List.mem_cons.mp hj with rfl | hj2
    · rw [if_pos rfl]
    · have hne : ¬ ((f a, a).1 = f j) :=
        fun he => hnd.1 (by rw [show f a = f j from he]; exact List.mem_map_of_mem _ hj2)
      rw [if_neg hne]
      exact ih j hj2 hnd.2

theorem mem_eraseKey {m : List (String × Nat)} {k : String} {e : String × Nat} :
    e ∈ eraseKey m k ↔ e ∈ m ∧ e.1 ≠ k := by
  induction m with
  | nil => rw [eraseKey]; simp
  | cons p ps ih =>
    rw [eraseKey]
    by_cases hp : p.1 = k
    · rw [if_pos hp, ih]
      constructor
      · rintro ⟨h1, h2⟩
        exact ⟨List.mem_cons_of_mem _ h1, h2⟩
      · rintro ⟨h1, h2⟩
        rcases List.mem_cons.mp h1 with rfl | h3
        · exact absurd hp h2
        · exact ⟨h3, h2⟩
    · rw [if_neg hp]
      constructor
      · intro h
        rcases List.mem_cons.mp h with rfl | h3
        · exact ⟨List.mem_cons_self _ _, hp⟩
        · have h4 := ih.mp h3
          exact ⟨List.mem_cons_of_mem _ h4.1, h4.2⟩
      · rintro ⟨h1, h2⟩
        rcases List.mem_cons.mp h1 with rfl | h3
        · exact List.mem_cons_self _ _
        · exact List.mem_cons_of_mem _ (ih.mpr ⟨h3, h2⟩)

theorem mem_eraseKeys {ks : List String} :
    ∀ {m : List (String × Nat)} {e : String × Nat},
      e ∈ eraseKeys m ks ↔ e ∈ m ∧ e.1 ∉ ks := by
  induction ks with
  | nil =>
    intro m e
    rw [eraseKeys]
    simp
  | cons k ks ih =>
    intro m e
    rw [eraseKeys, List.foldl_cons,
      show List.foldl eraseKey (eraseKey m k) ks = eraseKeys (eraseKey m k) ks from rfl,
      ih, mem_eraseKey]
    constructor
    · rintro ⟨⟨h1, h2⟩, h3⟩
      refine ⟨h1, ?_⟩
      simp only [List.mem_cons, not_or]
      exact ⟨h2, h3⟩
    · rintro ⟨h1, h2⟩
      simp only [List.mem_cons, not_or] at h2
      exact ⟨⟨h1, h2.1⟩, h2.2⟩

theorem WF_lockstep (st : ResourceManager) (h : WF st) :
    ∀ i, i ∈ st.getFlatResources ↔ Reachable st i := by
  obtain ⟨hini, hres, F, htop, hgood, hnd, hent, hcomp⟩ := h
  have hroots : ∀ t ∈ F, Reachable st t.root := by
    intro t ht
    refine Reachable.top ?_
    rw [htop, Option.getD_some, rootsL]
    exact List.mem_map_of_mem _ ht
  have hflat_mem : ∀ i, Reachable st i → i ∈ flatL F := by
    intro i hr
    induction hr with
    | top hmem =>
      rw [htop, Option.getD_some, rootsL, List.mem_map] at hmem
      obtain ⟨t0, ht0, rfl⟩ := hmem
      exact mem_flatL_of_mem ht0 (root_mem_flat t0)
    | child hj hc ih =>
      exact flat_closed_list F st (fun t0 ht0 => ⟨none, hgood t0 ht0⟩) _ ih _ hc
  intro i
  constructor
  · intro hmem
    rw [getFlatResources, List.mem_map] at hmem
    obtain ⟨e, he, rfl⟩ := hmem
    exact reach_flat_list F st (fun t0 ht0 => ⟨none, hgood t0 ht0⟩) hroots e.2 (hent e he).1
  · intro hr
    have hf := hflat_mem i hr
    have hlook := hcomp i hf
    rw [getFlatResources, List.mem_map]
    exact ⟨((st.getNode i).rid, i), idxLookup_some_mem hlook, rfl⟩

/-- The `map` of `buildResource` over a whole input batch yields one fresh
decorated tree per input, jointly occupying exactly the appended arena
slots. -/
theorem buildResourceList_tree (st : ResourceManager) (l : List ResourceInput) :
    ∃ F : List RTree, rootsL F = (st.buildResourceList l).2 ∧
      flatL F = List.range' st.nodes.length
        ((st.buildResourceList l).1.nodes.length - st.nodes.length) ∧
      ∀ t ∈ F, goodT (st.buildResourceList l).1 t none := by
  induction l generalizing st with
  | nil =>
    refine ⟨[], rfl, ?_, ?_⟩
    · rw [flatL]
      simp [buildResourceList]
    · intro t ht
      cases ht
  | cons x xs ih =>
    simp only [buildResourceList]
    obtain ⟨t0, ht0root, ht0flat, ht0good⟩ := buildResource_tree st x
    obtain ⟨F1, hF1roots, hF1flat, hF1good⟩ := ih (st.buildResource x).1
    have hlen1 := buildResource_len st x
    have hlen2 := buildResourceList_len (st.buildResource x).1 xs
    have hstab := buildResourceList_stable (st.buildResource x).1 xs
    refine ⟨t0 :: F1, ?_, ?_, ?_⟩
    · rw [rootsL_cons, ht0root, hF1roots]
    · rw [flatL, ht0flat, hF1flat]
      have hsplit := range'_split st.nodes.length
        ((st.buildResource x).1.nodes.length - st.nodes.length)
        (((st.buildResource x).1.buildResourceList xs).1.nodes.length -
          (st.buildResource x).1.nodes.length)
      rw [show st.nodes.length +
          ((st.buildResource x).1.nodes.length - st.nodes.length) =
          (st.buildResource x).1.nodes.length from by omega] at hsplit
      rw [show (st.buildResource x).1.nodes.length - st.nodes.length +
          (((st.buildResource x).1.buildResourceList xs).1.nodes.length -
            (st.buildResource x).1.nodes.length) =
          ((st.buildResource x).1.buildResourceList xs).1.nodes.length -
            st.nodes.length from by omega] at hsplit
      rw [← hsplit]
    · intro t ht
      rcases List.mem_cons.mp ht with rfl | ht2
      · refine goodT_mono t _ _ none (by omega) ?_ ht0good
        intro j hj
        rw [ht0flat, mem_range'_iff] at hj
        exact hstab j (by omega)
      · exact hF1good t ht2

/-- The indexing loop of `setResources` over the roots of a decorated forest
with fresh, pairwise-distinct ids: every insertion succeeds, the index grows
by all forest entries in preorder, and every root is collected as valid. -/
theorem indexFold_forest (ts : List RTree) :
    ∀ (st : ResourceManager) (acc : List Nat),
      (∀ t ∈ ts, goodT st t none) →
      (∀ j ∈ flatL ts, idxLookup st.resourcesById ((st.getNode j).rid) = none) →
      ((flatL ts).map (fun j => (st.getNode j).rid)).Nodup →
      (rootsL ts).foldl indexStep (st, acc) =
        ({ st with resourcesById :=
            st.resourcesById ++ (flatL ts).map (fun j => ((st.getNode j).rid, j)) },
         acc ++ rootsL ts) := by
  induction ts with
  | nil =>
    intro st acc _ _ _
    rw [rootsL, List.map_nil, List.foldl_nil, flatL, List.map_nil,
      List.append_nil, List.append_nil]
  | cons t ts ih =>
    intro st acc hgood hfresh hnodup
    rw [rootsL_cons, List.foldl_cons]
    rw [flatL] at hfresh hnodup ⊢
    have hflatlt : ∀ j ∈ t.flat, j < st.nodes.length :=
      flat_lt_tree t st none (hgood t (List.mem_cons_self _ _))
    have hflatnd : t.flat.Nodup := by
      rw [List.map_append] at hnodup
      exact (hnodup.of_append_left).of_map
    have hflatlen : t.flat.length ≤ st.nodes.length := by
      have hsub := List.subperm_of_subset hflatnd
        (fun j hj => List.mem_range.mpr (hflatlt j hj))
      have := hsub.length_le
      simpa using this
    have htree := addToIndex_tree t (st.nodes.length + 1) st none
      (hgood t (List.mem_cons_self _ _))
      (by omega)
      (fun j hj => hfresh j (List.mem_append_left _ hj))
      (by
        rw [List.map_append] at hnodup
        exact hnodup.of_append_left)
    have hstep : indexStep (st, acc) t.root =
        ({ st with resourcesById :=
            st.resourcesById ++ t.flat.map (fun j => ((st.getNode j).rid, j)) },
         acc ++ [t.root]) := by
      rw [indexStep]
      show (if (addResourceToIndex st t.root).2 then
          ((addResourceToIndex st t.root).1, acc ++ [t.root])
        else ((addResourceToIndex st t.root).1, acc)) = _
      rw [show addResourceToIndex st t.root =
        addResourceToIndexCore (st.nodes.length + 1) st t.root from rfl, htree]
      rfl
    rw [hstep]
    have hrec := ih
      { st with resourcesById :=
          st.resourcesById ++ t.flat.map (fun j => ((st.getNode j).rid, j)) }
      (acc ++ [t.root])
      (fun t2 ht2 => goodT_mono t2 st _ none (Nat.le_refl _) (fun _ _ => rfl)
        (hgood t2 (List.mem_cons_of_mem _ ht2)))
      (fun j hj => by
        show idxLookup (st.resourcesById ++ t.flat.map (fun j2 => ((st.getNode j2).rid, j2)))
          ((st.getNode j).rid) = none
        rw [idxLookup_append]
        rw [hfresh j (List.mem_append_right _ hj)]
        refine idxLookup_keys_none _ _ ?_
        intro p hp
        rw [List.mem_map] at hp
        obtain ⟨j2, hj2, rfl⟩ := hp
        rw [List.map_append] at hnodup
        intro he
        have he2 : (st.getNode j2).rid = (st.getNode j).rid := he
        exact (List.disjoint_of_nodup_append hnodup)
          (List.mem_map_of_mem _ hj2) (by rw [he2]; exact List.mem_map_of_mem _ hj))
      (by
        rw [List.map_append] at hnodup
        exact hnodup.of_append_right)
    rw [hrec]
    simp only [List.map_append, List.append_assoc, List.singleton_append]
    rfl

/-- The attach loop of `setResources` over already-built roots whose
`parentId` is absent or empty: each root is appended to the top-level list,
in order; nothing else changes. -/
theorem attachFold_roots (rs : List Nat) :
    ∀ (st : ResourceManager) (l : List Nat),
      st.topLevelResources = some l →
      (∀ r ∈ rs, (st.getNode r).parent = none) →
      (∀ r ∈ rs, (st.getNode r).parentId = none ∨ (st.getNode r).parentId = some "") →
      rs.foldl attachStep st = { st with topLevelResources := some (l ++ rs) } := by
  induction rs with
  | nil =>
    intro st l htop _ _
    rw [List.foldl_nil, List.append_nil, ← htop]
  | cons r rs ih =>
    intro st l htop hpar hpid
    rw [List.foldl_cons]
    have hstep : attachStep st r = { st with topLevelResources := some (l ++ [r]) } := by
      rw [attachStep, addResourceToTree]
      rw [hpar r (List.mem_cons_self _ _)]
      simp only [Option.isSome_none, Bool.false_eq_true, if_false]
      rcases hpid r (List.mem_cons_self _ _) with h | h
      · rw [h]
        simp only [ne_eq, not_true_eq_false, if_false]
        rw [htop]
        rfl
      · rw [h]
        simp only [ne_eq, not_true_eq_false, if_false]
        rw [htop]
        rfl
    rw [hstep]
    have hrec := ih { st with topLevelResources := some (l ++ [r]) } (l ++ [r]) rfl
      (fun r2 h2 => hpar r2 (List.mem_cons_of_mem _ h2))
      (fun r2 h2 => hpid r2 (List.mem_cons_of_mem _ h2))
    rw [hrec, List.append_assoc, List.singleton_append]

theorem buildResourceList_topLevel (st : ResourceManager) (l : List ResourceInput) :
    (st.buildResourceList l).1.topLevelResources = st.topLevelResources := by
  induction l generalizing st with
  | nil => rfl
  | cons x xs ih =>
    simp only [buildResourceList]
    exact (ih _).trans (buildResource_topLevel st x)

theorem goodT_root_parent {st : ResourceManager} {t : RTree} {po : Option Nat}
    (h : goodT st t po) : (st.getNode t.root).parent = po := by
  cases t with
  | node i cs =>
    rw [goodT_node] at h
    exact h.2.1

theorem goodT_root_lt {st : ResourceManager} {t : RTree} {po : Option Nat}
    (h : goodT st t po) : t.root < st.nodes.length := by
  cases t with
  | node i cs =>
    rw [goodT_node] at h
    exact h.1

theorem getNode_eq_of_nodes {a b : ResourceManager} (h : a.nodes = b.nodes) (j : Nat) :
    a.getNode j = b.getNode j := by
  rw [getNode, getNode, h]

/-- `setResources` under a well-shaped batch: the built forest is indexed in
full (preorder entries) and its roots become the new top-level list. -/
theorem setResources_explicit (st : ResourceManager) (inputs : List ResourceInput)
    (F : List RTree)
    (hroots : rootsL F = (st.initCache.buildResourceList inputs).2)
    (hgood : ∀ t ∈ F, goodT (st.initCache.buildResourceList inputs).1 t none)
    (hnodup : ((flatL F).map
      (fun j => ((st.initCache.buildResourceList inputs).1.getNode j).rid)).Nodup)
    (hpid : ∀ r ∈ rootsL F,
      ((st.initCache.buildResourceList inputs).1.getNode r).parentId = none ∨
      ((st.initCache.buildResourceList inputs).1.getNode r).parentId = some "") :
    (st.setResources inputs).nodes = (st.initCache.buildResourceList inputs).1.nodes ∧
    (st.setResources inputs).resourcesById = (flatL F).map
      (fun j => (((st.initCache.buildResourceList inputs).1.getNode j).rid, j)) ∧
    (st.setResources inputs).topLevelResources = some (rootsL F) := by
  have hres0 : (st.initCache.buildResourceList inputs).1.resourcesById = [] :=
    buildResourceList_resById _ inputs
  have hIdx := indexFold_forest F (st.initCache.buildResourceList inputs).1 []
    hgood (fun j hj => by rw [hres0]; rfl) hnodup
  have hIdx1 : (List.foldl indexStep ((st.initCache.buildResourceList inputs).1, [])
      (st.initCache.buildResourceList inputs).2).1 =
      { (st.initCache.buildResourceList inputs).1 with
        resourcesById := (flatL F).map
          (fun j => (((st.initCache.buildResourceList inputs).1.getNode j).rid, j)) } := by
    rw [← hroots, hIdx, hres0]
    simp
  have hIdxsnd : (List.foldl indexStep ((st.initCache.buildResourceList inputs).1, [])
      (st.initCache.buildResourceList inputs).2).2 = rootsL F := by
    rw [← hroots, hIdx]
    simp
  have htopI : ({ (st.initCache.buildResourceList inputs).1 with
      resourcesById := (flatL F).map
        (fun j => (((st.initCache.buildResourceList inputs).1.getNode j).rid, j)) } :
        ResourceManager).topLevelResources = some [] := by
    show (st.initCache.buildResourceList inputs).1.topLevelResources = some []
    exact (buildResourceList_topLevel _ inputs).trans rfl
  have hAtt := attachFold_roots (rootsL F)
    { (st.initCache.buildResourceList inputs).1 with
      resourcesById := (flatL F).map
        (fun j => (((st.initCache.buildResourceList inputs).1.getNode j).rid, j)) }
    [] htopI
    (fun r hr => by
      rw [rootsL, List.mem_map] at hr
      obtain ⟨t0, ht0, rfl⟩ := hr
      show ((st.initCache.buildResourceList inputs).1.getNode t0.root).parent = none
      exact goodT_root_parent (hgood t0 ht0))
    (fun r hr => hpid r hr)
  simp only [setResources, emitEv]
  rw [hIdx1, hIdxsnd, hAtt]
  refine ⟨rfl, rfl, ?_⟩
  show some (([] : List Nat) ++ rootsL F) = some (rootsL F)
  rw [List.nil_append]

/-- A well-shaped `setResources` batch re-establishes the representation
invariant, whatever the previous cache contents. -/
theorem WF_setRes (st : ResourceManager) (inputs : List ResourceInput)
    (hwf : WF st) (hv : opValid st (.setRes inputs) = true) :
    WF (st.setResources inputs) := by
  obtain ⟨F, hroots, hflat, hgood⟩ := buildResourceList_tree st.initCache inputs
  simp only [opValid, Bool.and_eq_true] at hv
  obtain ⟨hnd, hall⟩ := hv
  have hndp : (builtRids (st.initCache.buildResourceList inputs).1 st.nodes.length).Nodup :=
    of_decide_eq_true hnd
  have hkey : (flatL F).map
      (fun j => ((st.initCache.buildResourceList inputs).1.getNode j).rid) =
      builtRids (st.initCache.buildResourceList inputs).1 st.nodes.length := by
    rw [hflat]
    rfl
  have hnodup : ((flatL F).map
      (fun j => ((st.initCache.buildResourceList inputs).1.getNode j).rid)).Nodup := by
    rw [hkey]
    exact hndp
  have hpid : ∀ r ∈ rootsL F,
      ((st.initCache.buildResourceList inputs).1.getNode r).parentId = none ∨
      ((st.initCache.buildResourceList inputs).1.getNode r).parentId = some "" := by
    intro r hr
    rw [hroots] at hr
    rw [List.all_eq_true] at hall
    have h3 := hall r hr
    cases hpid0 : ((st.initCache.buildResourceList inputs).1.getNode r).parentId with
    | none => exact Or.inl rfl
    | some s =>
      rw [hpid0] at h3
      right
      rw [show s = "" from eq_of_beq h3]
  obtain ⟨hN, hR, hT⟩ := setResources_explicit st inputs F hroots hgood hnodup hpid
  have hcore := setResources_coreFields st inputs
  refine ⟨?_, ?_, F, hT, ?_, ?_, ?_, ?_⟩
  · rw [hcore.2.1]
    exact hwf.1
  · rw [setResources_resolved]
    exact hwf.2.1
  · intro t ht
    refine goodT_mono t (st.initCache.buildResourceList inputs).1 _ none ?_ ?_ (hgood t ht)
    · rw [hN]
    · intro j hj
      exact getNode_eq_of_nodes hN j
  · rw [hflat]
    exact List.nodup_range' _ _
  · intro e he
    rw [hR, List.mem_map] at he
    obtain ⟨j, hj, rfl⟩ := he
    refine ⟨hj, ?_⟩
    show ((st.setResources inputs).getNode j).rid = _
    rw [getNode_eq_of_nodes hN j]
  · intro j hj
    rw [hR, getNode_eq_of_nodes hN j]
    exact idxLookup_entries (flatL F) _ j hj hnodup

theorem goodL_append {st : ResourceManager} {ts1 ts2 : List RTree} {pi : Nat}
    (h1 : goodL st ts1 pi) (h2 : goodL st ts2 pi) : goodL st (ts1 ++ ts2) pi := by
  induction ts1 with
  | nil => exact h2
  | cons t ts ih =>
    rw [goodL_cons] at h1
    rw [List.cons_append, goodL_cons]
    exact ⟨h1.1, ih h1.2⟩

/-- Re-pointing a decorated subtree's root `parent` field decorates the same
subtree under the new parent. -/
theorem goodT_set_parent {st : ResourceManager} {t : RTree} {po : Option Nat}
    (h : goodT st t po) (hnd : t.flat.Nodup) (q : Option Nat) :
    goodT (st.setNode t.root { st.getNode t.root with parent := q }) t q := by
  cases t with
  | node i cs =>
    simp only [RTree.root]
    rw [goodT_node] at h
    obtain ⟨h1, h2, h3, h4⟩ := h
    rw [flat_node, List.nodup_cons] at hnd
    rw [goodT_node]
    refine ⟨?_, ?_, ?_, ?_⟩
    · rw [nodes_length_setNode]
      exact h1
    · rw [getNode_setNode_self _ _ h1]
    · rw [getNode_setNode_self _ _ h1]
      exact h3
    · refine goodL_mono cs st _ i (by rw [nodes_length_setNode]) ?_ h4
      intro j hj
      exact getNode_setNode_ne _ _ (fun he => hnd.1 (he ▸ hj))

mutual

/-- Grafting a fresh decorated tree `tn` under the node `par` of a decorated
tree `t` (its `children` extended by `tn.root`, everything else framed)
yields a decorated tree with the same root whose node set is `t`'s plus
`tn`'s. -/
theorem graft_tree (t : RTree) :
    ∀ (st st2 : ResourceManager) (par : Nat) (tn : RTree) (po : Option Nat),
      goodT st t po →
      par ∈ t.flat →
      t.flat.Nodup →
      (∀ j ∈ t.flat, j ∉ tn.flat) →
      st.nodes.length ≤ st2.nodes.length →
      (∀ j ∈ t.flat, j ≠ par → st2.getNode j = st.getNode j) →
      st2.getNode par =
        { st.getNode par with children := (st.getNode par).children ++ [tn.root] } →
      goodT st2 tn (some par) →
      ∃ t' : RTree, t'.root = t.root ∧ goodT st2 t' po ∧
        t'.flat.Perm (t.flat ++ tn.flat) := by
  cases t with
  | node i cs =>
    intro st st2 par tn po hgood hpar hnd hdisj hlen hframe hparnode htn
    rw [goodT_node] at hgood
    obtain ⟨h1, h2, h3, h4⟩ := hgood
    rw [flat_node] at hpar hnd hdisj
    rw [List.nodup_cons] at hnd
    rcases List.mem_cons.mp hpar with rfl | hpar2
    · refine ⟨.node par (cs ++ [tn]), rfl, ?_, ?_⟩
      · rw [goodT_node]
        refine ⟨by omega, ?_, ?_, ?_⟩
        · rw [hparnode]
          exact h2
        · rw [hparnode]
          show (st.getNode par).children ++ [tn.root] = rootsL (cs ++ [tn])
          rw [h3, rootsL_append]
          rfl
        · refine goodL_append ?_ ?_
          · refine goodL_mono cs st st2 par hlen ?_ h4
            intro j hj
            exact hframe j (List.mem_cons_of_mem _ hj) (fun he => hnd.1 (he ▸ hj))
          · rw [goodL]
            exact ⟨htn, goodL_nil⟩
      · rw [flat_node, flatL_append, flatL, flatL, List.append_nil, flat_node]
        rw [List.cons_append]
    · obtain ⟨cs', hroots, hgoodL, hperm⟩ := graft_list cs st st2 par tn i h4 hpar2
        hnd.2 (fun j hj => hdisj j (List.mem_cons_of_mem _ hj)) hlen
        (fun j hj hne => hframe j (List.mem_cons_of_mem _ hj) hne)
        hparnode htn
      refine ⟨.node i cs', rfl, ?_, ?_⟩
      · rw [goodT_node]
        have hieq : st2.getNode i = st.getNode i :=
          hframe i (List.mem_cons_self _ _) (fun he => hnd.1 (he ▸ hpar2))
        refine ⟨by omega, ?_, ?_, hgoodL⟩
        · rw [hieq]
          exact h2
        · rw [hieq, h3, hroots]
      · rw [flat_node, flat_node, List.cons_append]
        exact hperm.cons i

theorem graft_list (ts : List RTree) :
    ∀ (st st2 : ResourceManager) (par : Nat) (tn : RTree) (pi : Nat),
      goodL st ts pi →
      par ∈ flatL ts →
      (flatL ts).Nodup →
      (∀ j ∈ flatL ts, j ∉ tn.flat) →
      st.nodes.length ≤ st2.nodes.length →
      (∀ j ∈ flatL ts, j ≠ par → st2.getNode j = st.getNode j) →
      st2.getNode par =
        { st.getNode par with children := (st.getNode par).children ++ [tn.root] } →
      goodT st2 tn (some par) →
      ∃ ts' : List RTree, rootsL ts' = rootsL ts ∧ goodL st2 ts' pi ∧
        (flatL ts').Perm (flatL ts ++ tn.flat) := by
  cases ts with
  | nil =>
    intro st st2 par tn pi _ hpar _ _ _ _ _ _
    rw [flatL] at hpar
    cases hpar
  | cons t ts =>
    intro st st2 par tn pi hgood hpar hnd hdisj hlen hframe hparnode htn
    rw [goodL_cons] at hgood
    rw [flatL] at hpar hnd hdisj ⊢
    have hdisj2 := List.disjoint_of_nodup_append hnd
    rcases List.mem_append.mp hpar with hp1 | hp2
    · obtain ⟨t', hroot, hgoodT, hperm⟩ := graft_tree t st st2 par tn (some pi) hgood.1
        hp1 hnd.of_append_left (fun j hj => hdisj j (List.mem_append_left _ hj)) hlen
        (fun j hj hne => hframe j (List.mem_append_left _ hj) hne) hparnode htn
      refine ⟨t' :: ts, ?_, ?_, ?_⟩
      · rw [rootsL_cons, rootsL_cons, hroot]
      · rw [goodL_cons]
        refine ⟨hgoodT, ?_⟩
        refine goodL_mono ts st st2 pi hlen ?_ hgood.2
        intro j hj
        exact hframe j (List.mem_append_right _ hj)
          (fun he => (hdisj2 (he ▸ hp1) hj : False).elim)
      · rw [flatL]
        have h5 : List.Perm ((t.flat ++ tn.flat) ++ flatL ts)
            (t.flat ++ (flatL ts ++ tn.flat)) := by
          rw [List.append_assoc]
          exact (List.perm_append_comm).append_left _
        have h6 := (hperm.append_right (flatL ts)).trans h5
        simpa [List.append_assoc] using h6
    · obtain ⟨ts', hroots, hgoodL, hperm⟩ := graft_list ts st st2 par tn pi hgood.2
        hp2 hnd.of_append_right (fun j hj => hdisj j (List.mem_append_right _ hj)) hlen
        (fun j hj hne => hframe j (List.mem_append_right _ hj) hne) hparnode htn
      refine ⟨t :: ts', ?_, ?_, ?_⟩
      · rw [rootsL_cons, rootsL_cons, hroots]
      · rw [goodL_cons]
        refine ⟨?_, hgoodL⟩
        refine goodT_mono t st st2 (some pi) hlen ?_ hgood.1
        intro j hj
        exact hframe j (List.mem_append_left _ hj)
          (fun he => (hdisj2 hj (he ▸ hp2) : False).elim)
      · rw [flatL]
        simpa [List.append_assoc] using hperm.append_left t.flat

end

theorem flat_nodup_of_mem {ts : List RTree} (h : (flatL ts).Nodup) {t : RTree}
    (ht : t ∈ ts) : t.flat.Nodup := by
  induction ts with
  | nil => cases ht
  | cons a as ih =>
    rw [flatL] at h
    rcases List.mem_cons.mp ht with rfl | h2
    · exact h.of_append_left
    · exact ih h.of_append_right h2

theorem mem_flatL_split {ts : List RTree} {j : Nat} (h : j ∈ flatL ts) :
    ∃ t ∈ ts, j ∈ t.flat := by
  induction ts with
  | nil =>
    rw [flatL] at h
    cases h
  | cons a as ih =>
    rw [flatL] at h
    rcases List.mem_append.mp h with h1 | h2
    · exact ⟨a, List.mem_cons_self _ _, h1⟩
    · obtain ⟨t, ht, hj⟩ := ih h2
      exact ⟨t, List.mem_cons_of_mem _ ht, hj⟩

/-- Assembling the invariant after an incremental add: the index gained
exactly the new subtree's entries, the forest gained exactly the new
subtree's nodes (anywhere), ids are framed, and the new ids were fresh. -/
theorem WF_assemble (st b1 stf : ResourceManager) (F Fp : List RTree) (tn : RTree)
    (hini : stf.isFetchingInitiated = true) (hres : stf.isFetchingResolved = true)
    (htopf : stf.topLevelResources = some (rootsL Fp))
    (hgoodp : ∀ t ∈ Fp, goodT stf t none)
    (hperm : (flatL Fp).Perm (flatL F ++ tn.flat))
    (hndF : (flatL F).Nodup) (htnnd : tn.flat.Nodup)
    (hdisj : ∀ j ∈ flatL F, j ∉ tn.flat)
    (hidx : stf.resourcesById =
      st.resourcesById ++ tn.flat.map (fun j => ((b1.getNode j).rid, j)))
    (hent : ∀ e ∈ st.resourcesById, e.2 ∈ flatL F ∧ (st.getNode e.2).rid = e.1)
    (hcomp : ∀ j ∈ flatL F, idxLookup st.resourcesById ((st.getNode j).rid) = some j)
    (hridold : ∀ j ∈ flatL F, (stf.getNode j).rid = (st.getNode j).rid)
    (hridnew : ∀ j ∈ tn.flat, (stf.getNode j).rid = (b1.getNode j).rid)
    (hfreshidx : ∀ j ∈ tn.flat, idxLookup st.resourcesById ((b1.getNode j).rid) = none)
    (hnodup : (tn.flat.map (fun j => (b1.getNode j).rid)).Nodup) :
    WF stf := by
  refine ⟨hini, hres, Fp, htopf, hgoodp, ?_, ?_, ?_⟩
  · exact (List.Perm.nodup_iff hperm).mpr
      (List.Nodup.append hndF htnnd (fun a ha hb => hdisj a ha hb))
  · intro e he
    rw [hidx] at he
    rcases List.mem_append.mp he with h1 | h2
    · have h3 := hent e h1
      refine ⟨(hperm.mem_iff).mpr (List.mem_append_left _ h3.1), ?_⟩
      rw [hridold e.2 h3.1]
      exact h3.2
    · rw [List.mem_map] at h2
      obtain ⟨j, hj, rfl⟩ := h2
      exact ⟨(hperm.mem_iff).mpr (List.mem_append_right _ hj), hridnew j hj⟩
  · intro j hj
    rw [hidx]
    have hj2 := (hperm.mem_iff).mp hj
    rcases List.mem_append.mp hj2 with h1 | h2
    · rw [hridold j h1, idxLookup_append, hcomp j h1]
    · rw [hridnew j h2, idxLookup_append, hfreshidx j h2]
      exact idxLookup_entries tn.flat _ j h2 hnodup

theorem nodes_emitEv (st : ResourceManager) (e : Ev) : (st.emitEv e).nodes = st.nodes := rfl

theorem getNode_emitEv (st : ResourceManager) (e : Ev) (j : Nat) :
    (st.emitEv e).getNode j = st.getNode j := rfl

/-- Attaching a parentless resource whose `parentId` is absent or empty pushes
it onto the top-level list. -/
theorem addResourceToTree_top (st : ResourceManager) (r : Nat)
    (hp : (st.getNode r).parent = none)
    (hpid : (st.getNode r).parentId = none ∨ (st.getNode r).parentId = some "") :
    st.addResourceToTree r =
      ({ st with topLevelResources := st.topLevelResources.map (fun t => t ++ [r]) },
       true) := by
  have hm : (match (st.getNode r).parentId with | some s => s | none => "") = "" := by
    rcases hpid with h | h
    · rw [h]
    · rw [h]
  simp only [addResourceToTree]
  split
  · next hSome => rw [hp] at hSome; simp at hSome
  · rw [hm]
    simp only [ne_eq, not_true_eq_false, if_false]

/-- Attaching a parentless resource whose nonempty `parentId` resolves in the
index sets the back-reference and appends it to the parent's children. -/
theorem addResourceToTree_found (st : ResourceManager) (r : Nat) (pid : String) (par : Nat)
    (hp : (st.getNode r).parent = none) (hpid : (st.getNode r).parentId = some pid)
    (hne : pid ≠ "") (hfound : idxLookup st.resourcesById pid = some par) :
    st.addResourceToTree r =
      ((st.setNode r { st.getNode r with parent := some par }).setNode par
        { (st.setNode r { st.getNode r with parent := some par }).getNode par with
          children :=
            ((st.setNode r { st.getNode r with parent := some par }).getNode par).children
              ++ [r] },
       true) := by
  have hm : (match (st.getNode r).parentId with | some s => s | none => "") = pid := by
    rw [hpid]
  simp only [addResourceToTree]
  split
  · next hSome => rw [hp] at hSome; simp at hSome
  · rw [hm, if_pos hne, hfound]

/-- A well-formed incremental `addResource` preserves the representation
invariant: fresh pairwise-distinct ids, and a `parentId` that is absent,
empty, or resolvable in the index. -/
theorem WF_addRes (st : ResourceManager) (input : ResourceInput)
    (hwf : WF st) (hv : opValid st (.addRes input) = true) :
    WF (st.addResource input none) := by
  obtain ⟨hini, hres, F, htop, hgoodF, hndF, hent, hcomp⟩ := hwf
  obtain ⟨tn, htnroot, htnflat, htngood⟩ := buildResource_tree st input
  simp only [opValid, Bool.and_eq_true] at hv
  obtain ⟨⟨hnd, hfreshB⟩, hpidB⟩ := hv
  have hlen1 := buildResource_len st input
  have hidxr := buildResource_idx st input
  have hrid0 := buildResource_resById st input
  have hkey : tn.flat.map (fun j => ((st.buildResource input).1.getNode j).rid) =
      builtRids (st.buildResource input).1 st.nodes.length := by
    rw [htnflat]
    rfl
  have ridsNodup : (tn.flat.map (fun j => ((st.buildResource input).1.getNode j).rid)).Nodup := by
    rw [hkey]
    exact of_decide_eq_true hnd
  have tnNodup : tn.flat.Nodup := by
    rw [htnflat]
    exact List.nodup_range' _ _
  have htnbounds : ∀ j ∈ tn.flat,
      st.nodes.length ≤ j ∧ j < (st.buildResource input).1.nodes.length := by
    intro j hj
    rw [htnflat, mem_range'_iff] at hj
    omega
  have hFbound : ∀ j ∈ flatL F, j < st.nodes.length :=
    flat_lt_list F st (fun t ht => ⟨none, hgoodF t ht⟩)
  have hdisjF : ∀ j ∈ flatL F, j ∉ tn.flat := by
    intro j hj hj2
    have h5 := hFbound j hj
    have h6 := (htnbounds j hj2).1
    omega
  have hfreshS : ∀ j ∈ tn.flat,
      idxLookup st.resourcesById (((st.buildResource input).1.getNode j).rid) = none := by
    intro j hj
    rw [List.all_eq_true] at hfreshB
    have h2 := hfreshB (((st.buildResource input).1.getNode j).rid)
      (by rw [← hkey]; exact List.mem_map_of_mem _ hj)
    exact Option.isNone_iff_eq_none.mp h2
  have hflatlen : tn.flat.length ≤ (st.buildResource input).1.nodes.length + 1 := by
    rw [htnflat, List.length_range']
    omega
  have hIdxEq : addResourceToIndex (st.buildResource input).1 (st.buildResource input).2 = (({ (st.buildResource input).1 with resourcesById := (st.buildResource input).1.resourcesById ++ tn.flat.map (fun j => (((st.buildResource input).1.getNode j).rid, j)) } : ResourceManager), true) := by
    rw [← htnroot]
    exact addToIndex_tree tn ((st.buildResource input).1.nodes.length + 1) (st.buildResource input).1 none htngood hflatlen
      (fun j hj => by rw [hrid0]; exact hfreshS j hj) ridsNodup
  have happ : st.addResource input none = st.addResourceBody input none := by
    rw [addResource, if_pos hini, whenFetchingResolved, if_pos hres]
    rfl
  have hparnone : ((st.buildResource input).1.getNode (st.buildResource input).2).parent = none := by
    rw [← htnroot]
    exact goodT_root_parent htngood
  have htopb1 : (st.buildResource input).1.topLevelResources = some (rootsL F) := by
    rw [buildResource_topLevel]
    exact htop
  have hrlt : (st.buildResource input).2 < (st.buildResource input).1.nodes.length := by
    rw [hidxr]
    omega
  have hsplit3 : (((st.buildResource input).1.getNode (st.buildResource input).2).parentId = none ∨
      ((st.buildResource input).1.getNode (st.buildResource input).2).parentId = some "") ∨
      (∃ s par, ((st.buildResource input).1.getNode (st.buildResource input).2).parentId = some s ∧ s ≠ "" ∧
        idxLookup st.resourcesById s = some par) := by
    cases hpid0 : ((st.buildResource input).1.getNode (st.buildResource input).2).parentId with
    | none => exact Or.inl (Or.inl rfl)
    | some s =>
      rw [hpid0] at hpidB
      have hor : (s == "" || (idxLookup st.resourcesById s).isSome) = true := hpidB
      by_cases hs : s = ""
      · subst hs
        exact Or.inl (Or.inr rfl)
      · have hsome : (idxLookup st.resourcesById s).isSome = true := by
          rw [Bool.or_eq_true] at hor
          rcases hor with h | h
          · exact absurd (eq_of_beq h) hs
          · exact h
        obtain ⟨par, hparEq⟩ := Option.isSome_iff_exists.mp hsome
        exact Or.inr ⟨s, par, rfl, hs, hparEq⟩
  rcases hsplit3 with hA | ⟨s, par, hpidS, hsne, hparEq⟩
  · -- top-level attach: parentId absent or empty
    have hEQA : st.addResource input none =
        ({ ({ (st.buildResource input).1 with resourcesById := (st.buildResource input).1.resourcesById ++ tn.flat.map (fun j => (((st.buildResource input).1.getNode j).rid, j)) } : ResourceManager) with topLevelResources := ({ (st.buildResource input).1 with resourcesById := (st.buildResource input).1.resourcesById ++ tn.flat.map (fun j => (((st.buildResource input).1.getNode j).rid, j)) } : ResourceManager).topLevelResources.map (fun t => t ++ [(st.buildResource input).2]) } : ResourceManager).emitEv (Ev.add (st.buildResource input).2 ({ ({ (st.buildResource input).1 with resourcesById := (st.buildResource input).1.resourcesById ++ tn.flat.map (fun j => (((st.buildResource input).1.getNode j).rid, j)) } : ResourceManager) with topLevelResources := ({ (st.buildResource input).1 with resourcesById := (st.buildResource input).1.resourcesById ++ tn.flat.map (fun j => (((st.buildResource input).1.getNode j).rid, j)) } : ResourceManager).topLevelResources.map (fun t => t ++ [(st.buildResource input).2]) } : ResourceManager).topLevelResources) := by
      rw [happ]
      simp only [addResourceBody]
      rw [hIdxEq]
      rw [addResourceToTree_top]
      · rfl
      · exact hparnone
      · exact hA
    refine WF_assemble st (st.buildResource input).1 _ F (F ++ [tn]) tn ?_ ?_ ?_ ?_ ?_ hndF tnNodup hdisjF
      ?_ hent hcomp ?_ ?_ hfreshS ridsNodup
    · rw [hEQA]
      show (st.buildResource input).1.isFetchingInitiated = true
      rw [coreEq_initiated (buildResource_core st input)]
      exact hini
    · rw [hEQA]
      show (st.buildResource input).1.isFetchingResolved = true
      rw [coreEq_resolved (buildResource_core st input)]
      exact hres
    · rw [hEQA]
      show (st.buildResource input).1.topLevelResources.map (fun t => t ++ [(st.buildResource input).2]) =
        some (rootsL (F ++ [tn]))
      rw [htopb1, rootsL_append, show rootsL [tn] = [tn.root] from rfl, htnroot]
      rfl
    · intro t ht
      rw [hEQA]
      rcases List.mem_append.mp ht with h1 | h2
      · refine goodT_mono t st _ none ?_ ?_ (hgoodF t h1)
        · exact Nat.le_of_lt hlen1
        · intro j hj
          show (st.buildResource input).1.getNode j = st.getNode j
          exact buildResource_stable st input j (hFbound j (mem_flatL_of_mem h1 hj))
      · rw [List.mem_singleton] at h2
        subst h2
        refine goodT_mono t (st.buildResource input).1 _ none (Nat.le_refl _) (fun j hj => rfl) htngood
    · rw [flatL_append, flatL, flatL, List.append_nil]
    · rw [hEQA]
      show (st.buildResource input).1.resourcesById ++ tn.flat.map (fun j => (((st.buildResource input).1.getNode j).rid, j)) = st.resourcesById ++ tn.flat.map (fun j => (((st.buildResource input).1.getNode j).rid, j))
      rw [hrid0]
    · intro j hj
      rw [hEQA]
      show ((st.buildResource input).1.getNode j).rid = (st.getNode j).rid
      rw [buildResource_stable st input j (hFbound j hj)]
    · intro j hj
      rw [hEQA]
      rfl
  · -- graft attach: parentId resolves to an indexed node
    have hparmem := hent (s, par) (idxLookup_some_mem hparEq)
    have hparF : par ∈ flatL F := hparmem.1
    have hparlt : par < st.nodes.length := hFbound par hparF
    have hparltb1 : par < (st.buildResource input).1.nodes.length := by omega
    have hrne_par : (st.buildResource input).2 ≠ par := by
      rw [hidxr]
      omega
    obtain ⟨tm, htmF, htmpar⟩ := mem_flatL_split hparF
    obtain ⟨l1, l2, hFsplit⟩ := List.append_of_mem htmF
    have hndsplit : (flatL l1 ++ (tm.flat ++ flatL l2)).Nodup := by
      have h0 := hndF
      rw [hFsplit, flatL_append, flatL] at h0
      exact h0
    have hd1 := List.disjoint_of_nodup_append hndsplit
    have hd2 := List.disjoint_of_nodup_append hndsplit.of_append_right
    have hEQB : st.addResource input none =
        ((({ (st.buildResource input).1 with resourcesById := (st.buildResource input).1.resourcesById ++ tn.flat.map (fun j => (((st.buildResource input).1.getNode j).rid, j)) } : ResourceManager).setNode (st.buildResource input).2 { ({ (st.buildResource input).1 with resourcesById := (st.buildResource input).1.resourcesById ++ tn.flat.map (fun j => (((st.buildResource input).1.getNode j).rid, j)) } : ResourceManager).getNode (st.buildResource input).2 with parent := some par }).setNode par { (({ (st.buildResource input).1 with resourcesById := (st.buildResource input).1.resourcesById ++ tn.flat.map (fun j => (((st.buildResource input).1.getNode j).rid, j)) } : ResourceManager).setNode (st.buildResource input).2 { ({ (st.buildResource input).1 with resourcesById := (st.buildResource input).1.resourcesById ++ tn.flat.map (fun j => (((st.buildResource input).1.getNode j).rid, j)) } : ResourceManager).getNode (st.buildResource input).2 with parent := some par }).getNode par with children := ((({ (st.buildResource input).1 with resourcesById := (st.buildResource input).1.resourcesById ++ tn.flat.map (fun j => (((st.buildResource input).1.getNode j).rid, j)) } : ResourceManager).setNode (st.buildResource input).2 { ({ (st.buildResource input).1 with resourcesById := (st.buildResource input).1.resourcesById ++ tn.flat.map (fun j => (((st.buildResource input).1.getNode j).rid, j)) } : ResourceManager).getNode (st.buildResource input).2 with parent := some par }).getNode par).children ++ [(st.buildResource input).2] }).emitEv (Ev.add (st.buildResource input).2 ((({ (st.buildResource input).1 with resourcesById := (st.buildResource input).1.resourcesById ++ tn.flat.map (fun j => (((st.buildResource input).1.getNode j).rid, j)) } : ResourceManager).setNode (st.buildResource input).2 { ({ (st.buildResource input).1 with resourcesById := (st.buildResource input).1.resourcesById ++ tn.flat.map (fun j => (((st.buildResource input).1.getNode j).rid, j)) } : ResourceManager).getNode (st.buildResource input).2 with parent := some par }).setNode par { (({ (st.buildResource input).1 with resourcesById := (st.buildResource input).1.resourcesById ++ tn.flat.map (fun j => (((st.buildResource input).1.getNode j).rid, j)) } : ResourceManager).setNode (st.buildResource input).2 { ({ (st.buildResource input).1 with resourcesById := (st.buildResource input).1.resourcesById ++ tn.flat.map (fun j => (((st.buildResource input).1.getNode j).rid, j)) } : ResourceManager).getNode (st.buildResource input).2 with parent := some par }).getNode par with children := ((({ (st.buildResource input).1 with resourcesById := (st.buildResource input).1.resourcesById ++ tn.flat.map (fun j => (((st.buildResource input).1.getNode j).rid, j)) } : ResourceManager).setNode (st.buildResource input).2 { ({ (st.buildResource input).1 with resourcesById := (st.buildResource input).1.resourcesById ++ tn.flat.map (fun j => (((st.buildResource input).1.getNode j).rid, j)) } : ResourceManager).getNode (st.buildResource input).2 with parent := some par }).getNode par).children ++ [(st.buildResource input).2] }).topLevelResources) := by
      rw [happ]
      simp only [addResourceBody]
      rw [hIdxEq]
      rw [addResourceToTree_found _ _ s par]
      · rfl
      · exact hparnone
      · exact hpidS
      · exact hsne
      · show idxLookup ((st.buildResource input).1.resourcesById ++ tn.flat.map (fun j => (((st.buildResource input).1.getNode j).rid, j))) s = some par
        rw [hrid0, idxLookup_append, hparEq]
    have hSAr : (({ (st.buildResource input).1 with resourcesById := (st.buildResource input).1.resourcesById ++ tn.flat.map (fun j => (((st.buildResource input).1.getNode j).rid, j)) } : ResourceManager).setNode (st.buildResource input).2 { ({ (st.buildResource input).1 with resourcesById := (st.buildResource input).1.resourcesById ++ tn.flat.map (fun j => (((st.buildResource input).1.getNode j).rid, j)) } : ResourceManager).getNode (st.buildResource input).2 with parent := some par }).getNode (st.buildResource input).2 = { ({ (st.buildResource input).1 with resourcesById := (st.buildResource input).1.resourcesById ++ tn.flat.map (fun j => (((st.buildResource input).1.getNode j).rid, j)) } : ResourceManager).getNode (st.buildResource input).2 with parent := some par } :=
      getNode_setNode_self _ _ hrlt
    have hST2Bpar : ((({ (st.buildResource input).1 with resourcesById := (st.buildResource input).1.resourcesById ++ tn.flat.map (fun j => (((st.buildResource input).1.getNode j).rid, j)) } : ResourceManager).setNode (st.buildResource input).2 { ({ (st.buildResource input).1 with resourcesById := (st.buildResource input).1.resourcesById ++ tn.flat.map (fun j => (((st.buildResource input).1.getNode j).rid, j)) } : ResourceManager).getNode (st.buildResource input).2 with parent := some par }).setNode par { (({ (st.buildResource input).1 with resourcesById := (st.buildResource input).1.resourcesById ++ tn.flat.map (fun j => (((st.buildResource input).1.getNode j).rid, j)) } : ResourceManager).setNode (st.buildResource input).2 { ({ (st.buildResource input).1 with resourcesById := (st.buildResource input).1.resourcesById ++ tn.flat.map (fun j => (((st.buildResource input).1.getNode j).rid, j)) } : ResourceManager).getNode (st.buildResource input).2 with parent := some par }).getNode par with children := ((({ (st.buildResource input).1 with resourcesById := (st.buildResource input).1.resourcesById ++ tn.flat.map (fun j => (((st.buildResource input).1.getNode j).rid, j)) } : ResourceManager).setNode (st.buildResource input).2 { ({ (st.buildResource input).1 with resourcesById := (st.buildResource input).1.resourcesById ++ tn.flat.map (fun j => (((st.buildResource input).1.getNode j).rid, j)) } : ResourceManager).getNode (st.buildResource input).2 with parent := some par }).getNode par).children ++ [(st.buildResource input).2] }).getNode par =
        { (st.buildResource input).1.getNode par with children := ((st.buildResource input).1.getNode par).children ++ [tn.root] } := by
      have hparSA : par < (({ (st.buildResource input).1 with resourcesById := (st.buildResource input).1.resourcesById ++ tn.flat.map (fun j => (((st.buildResource input).1.getNode j).rid, j)) } : ResourceManager).setNode (st.buildResource input).2 { ({ (st.buildResource input).1 with resourcesById := (st.buildResource input).1.resourcesById ++ tn.flat.map (fun j => (((st.buildResource input).1.getNode j).rid, j)) } : ResourceManager).getNode (st.buildResource input).2 with parent := some par }).nodes.length := by
        rw [nodes_length_setNode]
        exact hparltb1
      rw [getNode_setNode_self _ _ hparSA]
      rw [getNode_setNode_ne _ _ hrne_par, htnroot]
      rfl
    have hgoodb1F : ∀ t ∈ F, goodT (st.buildResource input).1 t none := fun t ht =>
      goodT_mono t st _ none (Nat.le_of_lt hlen1)
        (fun j hj => buildResource_stable st input j (hFbound j (mem_flatL_of_mem ht hj)))
        (hgoodF t ht)
    have hgoodtm : goodT (st.buildResource input).1 tm none := hgoodb1F tm htmF
    have htmnodup : tm.flat.Nodup := flat_nodup_of_mem hndF htmF
    have htmdisj : ∀ j ∈ tm.flat, j ∉ tn.flat := fun j hj =>
      hdisjF j (mem_flatL_of_mem htmF hj)
    have htmbound : ∀ j ∈ tm.flat, j < st.nodes.length := fun j hj =>
      hFbound j (mem_flatL_of_mem htmF hj)
    have hST2Blen : ((({ (st.buildResource input).1 with resourcesById := (st.buildResource input).1.resourcesById ++ tn.flat.map (fun j => (((st.buildResource input).1.getNode j).rid, j)) } : ResourceManager).setNode (st.buildResource input).2 { ({ (st.buildResource input).1 with resourcesById := (st.buildResource input).1.resourcesById ++ tn.flat.map (fun j => (((st.buildResource input).1.getNode j).rid, j)) } : ResourceManager).getNode (st.buildResource input).2 with parent := some par }).setNode par { (({ (st.buildResource input).1 with resourcesById := (st.buildResource input).1.resourcesById ++ tn.flat.map (fun j => (((st.buildResource input).1.getNode j).rid, j)) } : ResourceManager).setNode (st.buildResource input).2 { ({ (st.buildResource input).1 with resourcesById := (st.buildResource input).1.resourcesById ++ tn.flat.map (fun j => (((st.buildResource input).1.getNode j).rid, j)) } : ResourceManager).getNode (st.buildResource input).2 with parent := some par }).getNode par with children := ((({ (st.buildResource input).1 with resourcesById := (st.buildResource input).1.resourcesById ++ tn.flat.map (fun j => (((st.buildResource input).1.getNode j).rid, j)) } : ResourceManager).setNode (st.buildResource input).2 { ({ (st.buildResource input).1 with resourcesById := (st.buildResource input).1.resourcesById ++ tn.flat.map (fun j => (((st.buildResource input).1.getNode j).rid, j)) } : ResourceManager).getNode (st.buildResource input).2 with parent := some par }).getNode par).children ++ [(st.buildResource input).2] }).nodes.length = (st.buildResource input).1.nodes.length := by
      rw [nodes_length_setNode, nodes_length_setNode]
    have hframeB : ∀ j ∈ tm.flat, j ≠ par → ((({ (st.buildResource input).1 with resourcesById := (st.buildResource input).1.resourcesById ++ tn.flat.map (fun j => (((st.buildResource input).1.getNode j).rid, j)) } : ResourceManager).setNode (st.buildResource input).2 { ({ (st.buildResource input).1 with resourcesById := (st.buildResource input).1.resourcesById ++ tn.flat.map (fun j => (((st.buildResource input).1.getNode j).rid, j)) } : ResourceManager).getNode (st.buildResource input).2 with parent := some par }).setNode par { (({ (st.buildResource input).1 with resourcesById := (st.buildResource input).1.resourcesById ++ tn.flat.map (fun j => (((st.buildResource input).1.getNode j).rid, j)) } : ResourceManager).setNode (st.buildResource input).2 { ({ (st.buildResource input).1 with resourcesById := (st.buildResource input).1.resourcesById ++ tn.flat.map (fun j => (((st.buildResource input).1.getNode j).rid, j)) } : ResourceManager).getNode (st.buildResource input).2 with parent := some par }).getNode par with children := ((({ (st.buildResource input).1 with resourcesById := (st.buildResource input).1.resourcesById ++ tn.flat.map (fun j => (((st.buildResource input).1.getNode j).rid, j)) } : ResourceManager).setNode (st.buildResource input).2 { ({ (st.buildResource input).1 with resourcesById := (st.buildResource input).1.resourcesById ++ tn.flat.map (fun j => (((st.buildResource input).1.getNode j).rid, j)) } : ResourceManager).getNode (st.buildResource input).2 with parent := some par }).getNode par).children ++ [(st.buildResource input).2] }).getNode j = (st.buildResource input).1.getNode j := by
      intro j hj hne
      have hjlt := htmbound j hj
      have hjner : j ≠ (st.buildResource input).2 := by
        rw [hidxr]
        omega
      rw [getNode_setNode_ne _ _ (Ne.symm hne), getNode_setNode_ne _ _ (Ne.symm hjner)]
      rfl
    have hgood_tn_ST2B : goodT ((({ (st.buildResource input).1 with resourcesById := (st.buildResource input).1.resourcesById ++ tn.flat.map (fun j => (((st.buildResource input).1.getNode j).rid, j)) } : ResourceManager).setNode (st.buildResource input).2 { ({ (st.buildResource input).1 with resourcesById := (st.buildResource input).1.resourcesById ++ tn.flat.map (fun j => (((st.buildResource input).1.getNode j).rid, j)) } : ResourceManager).getNode (st.buildResource input).2 with parent := some par }).setNode par { (({ (st.buildResource input).1 with resourcesById := (st.buildResource input).1.resourcesById ++ tn.flat.map (fun j => (((st.buildResource input).1.getNode j).rid, j)) } : ResourceManager).setNode (st.buildResource input).2 { ({ (st.buildResource input).1 with resourcesById := (st.buildResource input).1.resourcesById ++ tn.flat.map (fun j => (((st.buildResource input).1.getNode j).rid, j)) } : ResourceManager).getNode (st.buildResource input).2 with parent := some par }).getNode par with children := ((({ (st.buildResource input).1 with resourcesById := (st.buildResource input).1.resourcesById ++ tn.flat.map (fun j => (((st.buildResource input).1.getNode j).rid, j)) } : ResourceManager).setNode (st.buildResource input).2 { ({ (st.buildResource input).1 with resourcesById := (st.buildResource input).1.resourcesById ++ tn.flat.map (fun j => (((st.buildResource input).1.getNode j).rid, j)) } : ResourceManager).getNode (st.buildResource input).2 with parent := some par }).getNode par).children ++ [(st.buildResource input).2] }) tn (some par) := by
      refine goodT_mono tn _ _ (some par) ?_ ?_ (goodT_set_parent htngood tnNodup (some par))
      · exact Nat.le_of_eq (by rw [nodes_length_setNode, hST2Blen])
      · intro j hj
        have hjpar : j ≠ par := by
          have h6 := (htnbounds j hj).1
          omega
        by_cases hjr : j = tn.root
        · subst hjr
          rw [htnroot] at hj ⊢
          rw [getNode_setNode_ne _ _ (Ne.symm hrne_par), hSAr,
            getNode_setNode_self _ _ hrlt]
          rfl
        · have hjr2 : j ≠ (st.buildResource input).2 := by
            rw [← htnroot]
            exact hjr
          rw [getNode_setNode_ne _ _ (Ne.symm hjpar), getNode_setNode_ne _ _ (Ne.symm hjr2),
            getNode_setNode_ne _ _ (Ne.symm hjr)]
          rfl
    obtain ⟨tm2, htm2root, htm2good, htm2perm⟩ := graft_tree tm (st.buildResource input).1 ((({ (st.buildResource input).1 with resourcesById := (st.buildResource input).1.resourcesById ++ tn.flat.map (fun j => (((st.buildResource input).1.getNode j).rid, j)) } : ResourceManager).setNode (st.buildResource input).2 { ({ (st.buildResource input).1 with resourcesById := (st.buildResource input).1.resourcesById ++ tn.flat.map (fun j => (((st.buildResource input).1.getNode j).rid, j)) } : ResourceManager).getNode (st.buildResource input).2 with parent := some par }).setNode par { (({ (st.buildResource input).1 with resourcesById := (st.buildResource input).1.resourcesById ++ tn.flat.map (fun j => (((st.buildResource input).1.getNode j).rid, j)) } : ResourceManager).setNode (st.buildResource input).2 { ({ (st.buildResource input).1 with resourcesById := (st.buildResource input).1.resourcesById ++ tn.flat.map (fun j => (((st.buildResource input).1.getNode j).rid, j)) } : ResourceManager).getNode (st.buildResource input).2 with parent := some par }).getNode par with children := ((({ (st.buildResource input).1 with resourcesById := (st.buildResource input).1.resourcesById ++ tn.flat.map (fun j => (((st.buildResource input).1.getNode j).rid, j)) } : ResourceManager).setNode (st.buildResource input).2 { ({ (st.buildResource input).1 with resourcesById := (st.buildResource input).1.resourcesById ++ tn.flat.map (fun j => (((st.buildResource input).1.getNode j).rid, j)) } : ResourceManager).getNode (st.buildResource input).2 with parent := some par }).getNode par).children ++ [(st.buildResource input).2] }) par tn none
      hgoodtm htmpar htmnodup htmdisj (Nat.le_of_eq hST2Blen.symm) hframeB hST2Bpar
      hgood_tn_ST2B
    have hrteq : rootsL (l1 ++ tm2 :: l2) = rootsL F := by
      rw [hFsplit, rootsL_append, rootsL_append, rootsL_cons, rootsL_cons, htm2root]
    refine WF_assemble st (st.buildResource input).1 _ F (l1 ++ tm2 :: l2) tn ?_ ?_ ?_ ?_ ?_ hndF tnNodup hdisjF
      ?_ hent hcomp ?_ ?_ hfreshS ridsNodup
    · rw [hEQB]
      show (st.buildResource input).1.isFetchingInitiated = true
      rw [coreEq_initiated (buildResource_core st input)]
      exact hini
    · rw [hEQB]
      show (st.buildResource input).1.isFetchingResolved = true
      rw [coreEq_resolved (buildResource_core st input)]
      exact hres
    · rw [hEQB]
      show (st.buildResource input).1.topLevelResources = some (rootsL (l1 ++ tm2 :: l2))
      rw [htopb1, hrteq]
    · intro t ht
      rw [hEQB]
      rcases List.mem_append.mp ht with h1 | h2
      · have htF : t ∈ F := by
          rw [hFsplit]
          exact List.mem_append_left _ h1
        refine goodT_mono t st _ none ?_ ?_ (hgoodF t htF)
        · rw [nodes_emitEv, nodes_length_setNode, nodes_length_setNode]
          exact Nat.le_of_lt hlen1
        · intro j hj
          have hjF : j ∈ flatL F := mem_flatL_of_mem htF hj
          have hjlt := hFbound j hjF
          have hjner : j ≠ (st.buildResource input).2 := by
            rw [hidxr]
            omega
          have hjpar : j ≠ par := fun he =>
            hd1 (mem_flatL_of_mem h1 hj) (he ▸ List.mem_append_left _ htmpar)
          rw [getNode_emitEv, getNode_setNode_ne _ _ (Ne.symm hjpar),
            getNode_setNode_ne _ _ (Ne.symm hjner)]
          exact buildResource_stable st input j hjlt
      · rcases List.mem_cons.mp h2 with h3 | h3
        · subst h3
          refine goodT_mono t ((({ (st.buildResource input).1 with resourcesById := (st.buildResource input).1.resourcesById ++ tn.flat.map (fun j => (((st.buildResource input).1.getNode j).rid, j)) } : ResourceManager).setNode (st.buildResource input).2 { ({ (st.buildResource input).1 with resourcesById := (st.buildResource input).1.resourcesById ++ tn.flat.map (fun j => (((st.buildResource input).1.getNode j).rid, j)) } : ResourceManager).getNode (st.buildResource input).2 with parent := some par }).setNode par { (({ (st.buildResource input).1 with resourcesById := (st.buildResource input).1.resourcesById ++ tn.flat.map (fun j => (((st.buildResource input).1.getNode j).rid, j)) } : ResourceManager).setNode (st.buildResource input).2 { ({ (st.buildResource input).1 with resourcesById := (st.buildResource input).1.resourcesById ++ tn.flat.map (fun j => (((st.buildResource input).1.getNode j).rid, j)) } : ResourceManager).getNode (st.buildResource input).2 with parent := some par }).getNode par with children := ((({ (st.buildResource input).1 with resourcesById := (st.buildResource input).1.resourcesById ++ tn.flat.map (fun j => (((st.buildResource input).1.getNode j).rid, j)) } : ResourceManager).setNode (st.buildResource input).2 { ({ (st.buildResource input).1 with resourcesById := (st.buildResource input).1.resourcesById ++ tn.flat.map (fun j => (((st.buildResource input).1.getNode j).rid, j)) } : ResourceManager).getNode (st.buildResource input).2 with parent := some par }).getNode par).children ++ [(st.buildResource input).2] }) _ none (Nat.le_refl _) (fun j hj => rfl) htm2good
        · have htF : t ∈ F := by
            rw [hFsplit]
            exact List.mem_append_right _ (List.mem_cons_of_mem _ h3)
          refine goodT_mono t st _ none ?_ ?_ (hgoodF t htF)
          · rw [nodes_emitEv, nodes_length_setNode, nodes_length_setNode]
            exact Nat.le_of_lt hlen1
          · intro j hj
            have hjF : j ∈ flatL F := mem_flatL_of_mem htF hj
            have hjlt := hFbound j hjF
            have hjner : j ≠ (st.buildResource input).2 := by
              rw [hidxr]
              omega
            have hjpar : j ≠ par := fun he =>
              hd2 htmpar (he ▸ mem_flatL_of_mem h3 hj)
            rw [getNode_emitEv, getNode_setNode_ne _ _ (Ne.symm hjpar),
              getNode_setNode_ne _ _ (Ne.symm hjner)]
            exact buildResource_stable st input j hjlt
    · have hp1 : (flatL l1 ++ (tm2.flat ++ flatL l2)).Perm
          (flatL l1 ++ ((tm.flat ++ tn.flat) ++ flatL l2)) :=
        (htm2perm.append_right (flatL l2)).append_left (flatL l1)
      have hp2 : ((tm.flat ++ tn.flat) ++ flatL l2).Perm
          ((tm.flat ++ flatL l2) ++ tn.flat) := by
        rw [List.append_assoc, List.append_assoc]
        exact (List.perm_append_comm).append_left _
      have hp3 := hp1.trans (hp2.append_left (flatL l1))
      have hgoal1 : flatL (l1 ++ tm2 :: l2) = flatL l1 ++ (tm2.flat ++ flatL l2) := by
        rw [flatL_append, flatL]
      have hgoal2 : flatL (l1 ++ tm :: l2) = flatL l1 ++ (tm.flat ++ flatL l2) := by
        rw [flatL_append, flatL]
      rw [hgoal1, hFsplit, hgoal2]
      simpa [List.append_assoc] using hp3
    · rw [hEQB]
      show (st.buildResource input).1.resourcesById ++ tn.flat.map (fun j => (((st.buildResource input).1.getNode j).rid, j)) = st.resourcesById ++ tn.flat.map (fun j => (((st.buildResource input).1.getNode j).rid, j))
      rw [hrid0]
    · intro j hj
      rw [hEQB]
      by_cases hjpar : j = par
      · subst hjpar
        rw [getNode_emitEv, hST2Bpar]
        show ((st.buildResource input).1.getNode j).rid = (st.getNode j).rid
        rw [buildResource_stable st input j hparlt]
      · have hjner : j ≠ (st.buildResource input).2 := by
          have h5 := hFbound j hj
          rw [hidxr]
          omega
        rw [getNode_emitEv, getNode_setNode_ne _ _ (Ne.symm hjpar),
          getNode_setNode_ne _ _ (Ne.symm hjner)]
        show ((st.buildResource input).1.getNode j).rid = (st.getNode j).rid
        rw [buildResource_stable st input j (hFbound j hj)]
    · intro j hj
      rw [hEQB]
      have hjpar : j ≠ par := by
        have h6 := (htnbounds j hj).1
        omega
      by_cases hjr : j = (st.buildResource input).2
      · subst hjr
        rw [getNode_emitEv, getNode_setNode_ne _ _ (Ne.symm hrne_par), hSAr]
        rfl
      · rw [getNode_emitEv, getNode_setNode_ne _ _ (Ne.symm hjpar),
          getNode_setNode_ne _ _ (fun he => hjr he.symm)]
        rfl

theorem goodL_of_forall {st : ResourceManager} {ts : List RTree} {pi : Nat}
    (h : ∀ t ∈ ts, goodT st t (some pi)) : goodL st ts pi := by
  induction ts with
  | nil => exact goodL_nil
  | cons t ts ih =>
    rw [goodL_cons]
    exact ⟨h t (List.mem_cons_self _ _), ih (fun t2 h2 => h t2 (List.mem_cons_of_mem _ h2))⟩

mutual

/-- A decorated subtree is determined by its root: the arena's `children`
fields reconstruct it uniquely. -/
theorem goodT_unique (t1 : RTree) :
    ∀ (st : ResourceManager) (t2 : RTree) (po1 po2 : Option Nat),
      goodT st t1 po1 → goodT st t2 po2 → t1.root = t2.root → t1 = t2 := by
  cases t1 with
  | node i cs1 =>
    intro st t2 po1 po2 h1 h2 hroot
    cases t2 with
    | node i2 cs2 =>
      have hieq : i = i2 := hroot
      subst hieq
      rw [goodT_node] at h1 h2
      have hcs := goodL_unique cs1 st cs2 i i h1.2.2.2 h2.2.2.2
        (by rw [← h1.2.2.1]; exact h2.2.2.1)
      rw [hcs]

theorem goodL_unique (cs1 : List RTree) :
    ∀ (st : ResourceManager) (cs2 : List RTree) (p1 p2 : Nat),
      goodL st cs1 p1 → goodL st cs2 p2 → rootsL cs1 = rootsL cs2 → cs1 = cs2 := by
  cases cs1 with
  | nil =>
    intro st cs2 p1 p2 _ _ hroots
    cases cs2 with
    | nil => rfl
    | cons b bs =>
      rw [rootsL, rootsL] at hroots
      cases hroots
  | cons a as =>
    intro st cs2 p1 p2 h1 h2 hroots
    cases cs2 with
    | nil =>
      rw [rootsL, rootsL] at hroots
      cases hroots
    | cons b bs =>
      rw [rootsL_cons, rootsL_cons] at hroots
      injection hroots with hr hrs
      rw [goodL_cons] at h1 h2
      have hab := goodT_unique a st b (some p1) (some p2) h1.1 h2.1 hr
      have habs := goodL_unique as st bs p1 p2 h1.2 h2.2 hrs
      rw [hab, habs]

end

mutual

/-- Every member of a decorated tree roots a decorated subtree. -/
theorem subtreeAt_tree (t : RTree) :
    ∀ (st : ResourceManager) (po : Option Nat) (r : Nat),
      goodT st t po → r ∈ t.flat →
      ∃ (tr : RTree) (po2 : Option Nat), tr.root = r ∧ goodT st tr po2 ∧
        tr.flat.Sublist t.flat := by
  cases t with
  | node i cs =>
    intro st po r hg hr
    rw [flat_node] at hr
    rcases List.mem_cons.mp hr with rfl | hr2
    · exact ⟨.node r cs, po, rfl, hg, List.Sublist.refl _⟩
    · rw [goodT_node] at hg
      obtain ⟨tr, po2, h1, h2, h3⟩ := subtreeAt_list cs st i r hg.2.2.2 hr2
      exact ⟨tr, po2, h1, h2, by rw [flat_node]; exact h3.cons _⟩

theorem subtreeAt_list (ts : List RTree) :
    ∀ (st : ResourceManager) (pi : Nat) (r : Nat),
      goodL st ts pi → r ∈ flatL ts →
      ∃ (tr : RTree) (po2 : Option Nat), tr.root = r ∧ goodT st tr po2 ∧
        tr.flat.Sublist (flatL ts) := by
  cases ts with
  | nil =>
    intro st pi r _ hr
    rw [flatL] at hr
    cases hr
  | cons t ts =>
    intro st pi r hg hr
    rw [goodL_cons] at hg
    rw [flatL] at hr ⊢
    rcases List.mem_append.mp hr with h1 | h2
    · obtain ⟨tr, po2, ha, hb, hc⟩ := subtreeAt_tree t st (some pi) r hg.1 h1
      exact ⟨tr, po2, ha, hb, hc.trans (List.sublist_append_left _ _)⟩
    · obtain ⟨tr, po2, ha, hb, hc⟩ := subtreeAt_list ts st pi r hg.2 h2
      exact ⟨tr, po2, ha, hb, hc.trans (List.sublist_append_right _ _)⟩

end

theorem foldl_children_ge : ∀ (l : List ResourceNode) (z : Nat),
    z + l.length ≤ l.foldl (fun a n => a + n.children.length + 1) z := by
  intro l
  induction l with
  | nil => intro z; simp
  | cons n ns ih =>
    intro z
    rw [List.foldl_cons, List.length_cons]
    have h2 := ih (z + n.children.length + 1)
    omega

mutual

/-- The depth-first search of `removeResourceFromTree` over a decorated
forest that does not contain the target is a pure miss: no mutation, result
`false`.  (List level: the scan of the remaining siblings `ts` from position
`k`.) -/
theorem remMiss_list (ts : List RTree) :
    ∀ (fuel : Nat) (st : ResourceManager) (r : Nat) (o : Option Nat) (k : Nat),
      (st.ownerList o).drop k = rootsL ts →
      (∀ t ∈ ts, goodT st t o) →
      r ∉ flatL ts →
      (flatL ts).length + 1 ≤ fuel →
      removeResourceFromTreeCore fuel st r o k = (st, false) := by
  cases ts with
  | nil =>
    intro fuel st r o k hdrop _ _ hfuel
    cases fuel with
    | zero => omega
    | succ f =>
      rw [removeResourceFromTreeCore]
      rw [if_neg]
      intro hk
      have h5 : ((st.ownerList o).drop k).length = (st.ownerList o).length - k :=
        List.length_drop k _
      rw [hdrop, rootsL] at h5
      simp at h5
      omega
  | cons t ts =>
    intro fuel st r o k hdrop hgood hr hfuel
    rw [flatL] at hr hfuel
    have hflen := flat_length_pos t
    cases fuel with
    | zero =>
      rw [List.length_append] at hfuel
      omega
    | succ f =>
      have hk : k < (st.ownerList o).length := by
        by_contra hk2
        rw [List.drop_eq_nil_of_le (by omega)] at hdrop
        cases hdrop
      have hget : (st.ownerList o)[k]? = some t.root := by
        have h5 : ((st.ownerList o).drop k)[0]? = some t.root := by
          rw [hdrop, rootsL_cons]
          simp
        rw [List.getElem?_drop] at h5
        simpa using h5
      have hgetD : (st.ownerList o).getD k 0 = t.root := by
        rw [List.getD_eq_getElem?_getD, hget]
        rfl
      have hdrop2 : (st.ownerList o).drop (k + 1) = rootsL ts := by
        have h5 := List.drop_drop 1 k (st.ownerList o)
        rw [hdrop, rootsL_cons] at h5
        rw [← h5]
        simp
      have hrner : t.root ≠ r := by
        intro he
        exact hr (List.mem_append_left _ (he ▸ root_mem_flat t))
      rw [removeResourceFromTreeCore, if_pos hk, hgetD, if_neg hrner]
      have hmisst := remMiss_tree t f st r o (hgood t (List.mem_cons_self _ _))
        (fun hc => hr (List.mem_append_left _ hc))
        (by rw [List.length_append] at hfuel; omega)
      rw [hmisst]
      exact remMiss_list ts f st r o (k + 1) hdrop2
        (fun t2 h2 => hgood t2 (List.mem_cons_of_mem _ h2))
        (fun hc => hr (List.mem_append_right _ hc))
        (by rw [List.length_append] at hfuel; omega)

/-- Tree level: descending into the children of a decorated tree that does
not contain the target. -/
theorem remMiss_tree (t : RTree) :
    ∀ (fuel : Nat) (st : ResourceManager) (r : Nat) (po : Option Nat),
      goodT st t po →
      r ∉ t.flat →
      t.flat.length ≤ fuel →
      removeResourceFromTreeCore fuel st r (some t.root) 0 = (st, false) := by
  cases t with
  | node i cs =>
    intro fuel st r po hg hr hfuel
    rw [goodT_node] at hg
    rw [flat_node] at hr hfuel
    refine remMiss_list cs fuel st r (some i) 0 ?_ ?_ ?_ ?_
    · show ((st.getNode i).children).drop 0 = rootsL cs
      rw [List.drop_zero, hg.2.2.1]
    · exact fun t2 h2 => goodL_mem hg.2.2.2 h2
    · exact fun hc => hr (List.mem_cons_of_mem _ hc)
    · simp only [List.length_cons] at hfuel
      omega

end

mutual

/-- Tree level of the hit case: the target lies strictly below the root of a
decorated tree; the search detaches exactly the target's subtree, clearing its
`parent` back-reference and splicing its entry out of its owner's `children`,
and touches nothing outside the tree. -/
theorem remHit_tree (t : RTree) :
    ∀ (fuel : Nat) (st : ResourceManager) (r : Nat) (po : Option Nat),
      goodT st t po →
      t.flat.Nodup →
      r ∈ t.flat →
      r ≠ t.root →
      t.flat.length ≤ fuel →
      ∃ (st2 : ResourceManager) (t2 : RTree) (tr : RTree) (por : Option Nat),
        removeResourceFromTreeCore fuel st r (some t.root) 0 = (st2, true) ∧
        treeOpEq st2 st ∧
        st2.topLevelResources = st.topLevelResources ∧
        t2.root = t.root ∧
        goodT st2 t2 po ∧
        t.flat.Perm (t2.flat ++ tr.flat) ∧
        tr.root = r ∧
        goodT st tr por ∧
        (∀ j, j ∉ t.flat → st2.getNode j = st.getNode j) ∧
        (∀ j, j ≠ r → (st2.getNode j).parent = (st.getNode j).parent) ∧
        (∀ j, (st2.getNode j).rid = (st.getNode j).rid) := by
  cases t with
  | node i cs =>
    intro fuel st r po hg hnd hr hrne hfuel
    rw [goodT_node] at hg
    obtain ⟨h1, h2, h3, h4⟩ := hg
    rw [flat_node] at hnd hr hfuel
    rw [List.nodup_cons] at hnd
    have hrcs : r ∈ flatL cs := by
      rcases List.mem_cons.mp hr with h | h
      · exact absurd h hrne
      · exact h
    obtain ⟨st2, ts2, tr, por, hres, hteq, hsome, htopne, hown, hgood2, hperm, hroot,
        hgoodtr, hframe, hpar, hrid⟩ :=
      remHit_list cs fuel st r (some i) 0
        (by show ((st.getNode i).children).drop 0 = rootsL cs
            rw [List.drop_zero, h3])
        (fun t2 h2x => goodL_mem h4 h2x)
        hnd.2
        hrcs
        (by simp only [List.length_cons] at hfuel; omega)
        (fun p hp => by
          injection hp with hp2
          subst hp2
          exact ⟨hnd.1, h1⟩)
        (fun h => nomatch h)
    refine ⟨st2, .node i ts2, tr, por, hres, hteq, htopne (by simp), rfl, ?_, ?_,
      hroot, hgoodtr, ?_, hpar, hrid⟩
    · rw [goodT_node]
      refine ⟨?_, ?_, ?_, goodL_of_forall hgood2⟩
      · rw [treeOpEq_len hteq]
        exact h1
      · rw [hpar i (fun he => hrne he.symm)]
        exact h2
      · have h5 : (st2.getNode i).children = ([] : List Nat) ++ rootsL ts2 := hown
        rw [h5, List.nil_append]
    · rw [flat_node, flat_node, List.cons_append]
      exact hperm.cons i
    · intro j hj
      rw [flat_node] at hj
      refine hframe j (fun hc => hj (List.mem_cons_of_mem _ hc)) ?_
      intro p hp
      injection hp with hp2
      subst hp2
      exact fun he => hj (by rw [he]; exact List.mem_cons_self _ _)

/-- List level of the hit case: the target lies in one of the sibling
subtrees from position `k` on. -/
theorem remHit_list (ts : List RTree) :
    ∀ (fuel : Nat) (st : ResourceManager) (r : Nat) (o : Option Nat) (k : Nat),
      (st.ownerList o).drop k = rootsL ts →
      (∀ t ∈ ts, goodT st t o) →
      (flatL ts).Nodup →
      r ∈ flatL ts →
      (flatL ts).length + 1 ≤ fuel →
      (∀ p, o = some p → p ∉ flatL ts ∧ p < st.nodes.length) →
      (o = none → st.topLevelResources.isSome = true) →
      ∃ (st2 : ResourceManager) (ts2 : List RTree) (tr : RTree) (por : Option Nat),
        removeResourceFromTreeCore fuel st r o k = (st2, true) ∧
        treeOpEq st2 st ∧
        st2.topLevelResources.isSome = st.topLevelResources.isSome ∧
        (o ≠ none → st2.topLevelResources = st.topLevelResources) ∧
        st2.ownerList o = (st.ownerList o).take k ++ rootsL ts2 ∧
        (∀ t ∈ ts2, goodT st2 t o) ∧
        (flatL ts).Perm (flatL ts2 ++ tr.flat) ∧
        tr.root = r ∧
        goodT st tr por ∧
        (∀ j, j ∉ flatL ts → (∀ p, o = some p → j ≠ p) → st2.getNode j = st.getNode j) ∧
        (∀ j, j ≠ r → (st2.getNode j).parent = (st.getNode j).parent) ∧
        (∀ j, (st2.getNode j).rid = (st.getNode j).rid) := by
  cases ts with
  | nil =>
    intro fuel st r o k _ _ _ hmem _ _ _
    rw [flatL] at hmem
    cases hmem
  | cons t ts =>
    intro fuel st r o k hdrop hgood hnd hmem hfuel hP hTop
    rw [flatL] at hnd hmem hfuel
    have hflen := flat_length_pos t
    cases fuel with
    | zero =>
      rw [List.length_append] at hfuel
      omega
    | succ f =>
      have hk : k < (st.ownerList o).length := by
        by_contra hk2
        rw [List.drop_eq_nil_of_le (by omega)] at hdrop
        cases hdrop
      have hget : (st.ownerList o)[k]? = some t.root := by
        have h5 : ((st.ownerList o).drop k)[0]? = some t.root := by
          rw [hdrop, rootsL_cons]
          simp
        rw [List.getElem?_drop] at h5
        simpa using h5
      have hgetD : (st.ownerList o).getD k 0 = t.root := by
        rw [List.getD_eq_getElem?_getD, hget]
        rfl
      have hdrop2 : (st.ownerList o).drop (k + 1) = rootsL ts := by
        have h5 := List.drop_drop 1 k (st.ownerList o)
        rw [hdrop, rootsL_cons] at h5
        rw [← h5]
        simp
      have hdisjts := List.disjoint_of_nodup_append hnd
      by_cases hcase1 : r = t.root
      · subst hcase1
        refine ⟨(st.setNode t.root { st.getNode t.root with parent := none }).writeOwner o
            ((st.ownerList o).eraseIdx k), ts, t, o, ?_, ?_, ?_, ?_, ?_, ?_, ?_, rfl,
          hgood t (List.mem_cons_self _ _), ?_, ?_, ?_⟩
        · rw [removeResourceFromTreeCore, if_pos hk, hgetD, if_pos rfl]
        · exact treeOpEq_trans (writeOwner_treeOpEq _ o _)
            ⟨resourcesById_setNode _ _ _, rfl, nodes_length_setNode _ _ _, coreEq_setNode _ _ _⟩
        · cases o with
          | none =>
            simp only [writeOwner]
            rw [topLevel_setNode]
            cases st.topLevelResources <;> rfl
          | some p => rfl
        · cases o with
          | none => intro h; exact absurd rfl h
          | some p => intro _; rfl
        · cases o with
          | none =>
            obtain ⟨L, hL⟩ := Option.isSome_iff_exists.mp (hTop rfl)
            have hD : L.drop (k + 1) = rootsL ts := by
              have h6 := hdrop2
              simp only [ownerList] at h6
              rw [hL] at h6
              simpa using h6
            simp only [ownerList, writeOwner]
            rw [topLevel_setNode, hL]
            simp only [Option.map_some', Option.getD_some]
            rw [List.eraseIdx_eq_take_drop_succ, hD]
          | some p =>
            have hplen : p < (st.setNode t.root
                { st.getNode t.root with parent := none }).nodes.length := by
              rw [nodes_length_setNode]
              exact (hP p rfl).2
            show (((st.setNode t.root { st.getNode t.root with parent := none }).setNode p
              { (st.setNode t.root { st.getNode t.root with parent := none }).getNode p with
                children := ((st.ownerList (some p)).eraseIdx k) }).getNode p).children =
              (st.ownerList (some p)).take k ++ rootsL ts
            rw [getNode_setNode_self _ _ hplen]
            show (st.ownerList (some p)).eraseIdx k =
              (st.ownerList (some p)).take k ++ rootsL ts
            rw [List.eraseIdx_eq_take_drop_succ, hdrop2]
        · intro t2 ht2
          refine goodT_mono t2 st _ o ?_ ?_ (hgood t2 (List.mem_cons_of_mem _ ht2))
          · exact Nat.le_of_eq (treeOpEq_len
              (treeOpEq_trans (writeOwner_treeOpEq _ o _)
                ⟨resourcesById_setNode _ _ _, rfl, nodes_length_setNode _ _ _,
                  coreEq_setNode _ _ _⟩)).symm
          · intro j hj
            have hjts : j ∈ flatL ts := mem_flatL_of_mem ht2 hj
            have hjner : j ≠ t.root := fun he => hdisjts (he ▸ root_mem_flat t) hjts
            cases o with
            | none =>
              simp only [writeOwner]
              show ((st.setNode t.root { st.getNode t.root with parent := none }).getNode j) =
                st.getNode j
              rw [getNode_setNode_ne _ _ (Ne.symm hjner)]
            | some p =>
              have hjp : j ≠ p := fun he =>
                (hP p rfl).1 (by rw [← he, flatL]; exact List.mem_append_right _ hjts)
              simp only [writeOwner]
              rw [getNode_setNode_ne _ _ (Ne.symm hjp), getNode_setNode_ne _ _ (Ne.symm hjner)]
        · rw [flatL]
          exact List.perm_append_comm
        · intro j hj hpj
          rw [flatL] at hj
          have hjner : j ≠ t.root := fun he =>
            hj (List.mem_append_left _ (he ▸ root_mem_flat t))
          cases o with
          | none =>
            simp only [writeOwner]
            show ((st.setNode t.root { st.getNode t.root with parent := none }).getNode j) =
              st.getNode j
            rw [getNode_setNode_ne _ _ (Ne.symm hjner)]
          | some p =>
            simp only [writeOwner]
            rw [getNode_setNode_ne _ _ (Ne.symm (hpj p rfl)),
              getNode_setNode_ne _ _ (Ne.symm hjner)]
        · intro j hjr
          cases o with
          | none =>
            simp only [writeOwner]
            show (((st.setNode t.root { st.getNode t.root with parent := none }).getNode j)).parent =
              (st.getNode j).parent
            rw [getNode_setNode_ne _ _ (Ne.symm hjr)]
          | some p =>
            have hpne : p ≠ t.root := fun he =>
              (hP p rfl).1 (by rw [he, flatL]; exact List.mem_append_left _ (root_mem_flat t))
            have hplen : p < (st.setNode t.root
                { st.getNode t.root with parent := none }).nodes.length := by
              rw [nodes_length_setNode]
              exact (hP p rfl).2
            simp only [writeOwner]
            by_cases hjp : j = p
            · subst hjp
              rw [getNode_setNode_self _ _ hplen]
              show ((st.setNode t.root
                { st.getNode t.root with parent := none }).getNode j).parent =
                (st.getNode j).parent
              rw [getNode_setNode_ne _ _ (Ne.symm hpne)]
            · rw [getNode_setNode_ne _ _ (Ne.symm hjp), getNode_setNode_ne _ _ (Ne.symm hjr)]
        · intro j
          have hrootlt : t.root < st.nodes.length :=
            goodT_root_lt (hgood t (List.mem_cons_self _ _))
          cases o with
          | none =>
            simp only [writeOwner]
            show (((st.setNode t.root { st.getNode t.root with parent := none }).getNode j)).rid =
              (st.getNode j).rid
            by_cases hjr : j = t.root
            · subst hjr
              rw [getNode_setNode_self _ _ hrootlt]
            · rw [getNode_setNode_ne _ _ (Ne.symm hjr)]
          | some p =>
            have hpne : p ≠ t.root := fun he =>
              (hP p rfl).1 (by rw [he, flatL]; exact List.mem_append_left _ (root_mem_flat t))
            have hplen : p < (st.setNode t.root
                { st.getNode t.root with parent := none }).nodes.length := by
              rw [nodes_length_setNode]
              exact (hP p rfl).2
            simp only [writeOwner]
            by_cases hjp : j = p
            · subst hjp
              rw [getNode_setNode_self _ _ hplen]
              show ((st.setNode t.root
                { st.getNode t.root with parent := none }).getNode j).rid =
                (st.getNode j).rid
              rw [getNode_setNode_ne _ _ (Ne.symm hpne)]
            · by_cases hjr : j = t.root
              · subst hjr
                rw [getNode_setNode_ne _ _ (Ne.symm hjp), getNode_setNode_self _ _ hrootlt]
              · rw [getNode_setNode_ne _ _ (Ne.symm hjp), getNode_setNode_ne _ _ (Ne.symm hjr)]
      · have hroot_ne : t.root ≠ r := fun he => hcase1 he.symm
        by_cases hcase2 : r ∈ t.flat
        · obtain ⟨st2, t2, tr, por, hresT, hteqT, htopT, hrootT, hgoodT2, hpermT, hrootTr,
              hgoodTr, hframeT, hparT, hridT⟩ :=
            remHit_tree t f st r o (hgood t (List.mem_cons_self _ _)) hnd.of_append_left
              hcase2 hcase1 (by rw [List.length_append] at hfuel; omega)
          have hquick : (st.ownerList o).take k ++ rootsL (t2 :: ts) = st.ownerList o := by
            rw [rootsL_cons, hrootT]
            conv_rhs => rw [← List.take_append_drop k (st.ownerList o)]
            rw [hdrop, rootsL_cons]
          refine ⟨st2, t2 :: ts, tr, por, ?_, hteqT, by rw [htopT], fun _ => htopT, ?_, ?_,
            ?_, hrootTr, hgoodTr, ?_, hparT, hridT⟩
          · rw [removeResourceFromTreeCore, if_pos hk, hgetD, if_neg hroot_ne, hresT]
          · rw [hquick]
            cases o with
            | none =>
              show st2.topLevelResources.getD [] = st.topLevelResources.getD []
              rw [htopT]
            | some p =>
              show (st2.getNode p).children = (st.getNode p).children
              rw [hframeT p (fun hc => (hP p rfl).1
                (by rw [flatL]; exact List.mem_append_left _ hc))]
          · intro t3 ht3
            rcases List.mem_cons.mp ht3 with rfl | h3
            · exact hgoodT2
            · refine goodT_mono t3 st _ o ?_ ?_ (hgood t3 (List.mem_cons_of_mem _ h3))
              · exact Nat.le_of_eq (treeOpEq_len hteqT).symm
              · intro j hj
                exact hframeT j (fun hc => hdisjts hc (mem_flatL_of_mem h3 hj))
          · rw [flatL, flatL]
            have hp1 := hpermT.append_right (flatL ts)
            have hp2 : ((t2.flat ++ tr.flat) ++ flatL ts).Perm
                ((t2.flat ++ flatL ts) ++ tr.flat) := by
              rw [List.append_assoc, List.append_assoc]
              exact (List.perm_append_comm).append_left _
            exact hp1.trans hp2
          · intro j hj _
            rw [flatL] at hj
            exact hframeT j (fun hc => hj (List.mem_append_left _ hc))
        · have hrts : r ∈ flatL ts := by
            rcases List.mem_append.mp hmem with h | h
            · exact absurd h hcase2
            · exact h
          have hmisst := remMiss_tree t f st r o (hgood t (List.mem_cons_self _ _)) hcase2
            (by rw [List.length_append] at hfuel; omega)
          obtain ⟨st2, ts2, tr, por, hresI, hteqI, hsomeI, htopneI, hownI, hgoodI, hpermI,
              hrootI, hgoodtrI, hframeI, hparI, hridI⟩ :=
            remHit_list ts f st r o (k + 1) hdrop2
              (fun t2 h2x => hgood t2 (List.mem_cons_of_mem _ h2x))
              hnd.of_append_right
              hrts
              (by rw [List.length_append] at hfuel; omega)
              (fun p hp => ⟨fun hc => (hP p hp).1
                (by rw [flatL]; exact List.mem_append_right _ hc), (hP p hp).2⟩)
              hTop
          have htake : (st.ownerList o).take (k + 1) =
              (st.ownerList o).take k ++ [t.root] := by
            rw [List.take_succ, hget]
            rfl
          refine ⟨st2, t :: ts2, tr, por, ?_, hteqI, hsomeI, htopneI, ?_, ?_, ?_,
            hrootI, hgoodtrI, ?_, hparI, hridI⟩
          · rw [removeResourceFromTreeCore, if_pos hk, hgetD, if_neg hroot_ne, hmisst]
            show removeResourceFromTreeCore f st r o (k + 1) = (st2, true)
            exact hresI
          · rw [hownI, htake, rootsL_cons, List.append_assoc, List.singleton_append]
          · intro t3 ht3
            rcases List.mem_cons.mp ht3 with rfl | h3
            · refine goodT_mono t3 st _ o ?_ ?_ (hgood t3 (List.mem_cons_self _ _))
              · exact Nat.le_of_eq (treeOpEq_len hteqI).symm
              · intro j hj
                refine hframeI j (fun hc => hdisjts hj hc) ?_
                intro p hp he
                exact (hP p hp).1 (by rw [← he, flatL]; exact List.mem_append_left _ hj)
            · exact hgoodI t3 h3
          · rw [flatL, flatL]
            simpa [List.append_assoc] using hpermI.append_left t.flat
          · intro j hj hpj
            rw [flatL] at hj
            exact hframeI j (fun hc => hj (List.mem_append_right _ hc)) hpj

end

/-- `removeResource` (on a resolved store) preserves the representation
invariant: a missing id is a strict no-op, and a present id removes exactly
its recorded subtree from both the index and the tree. -/
theorem WF_removeRes (st : ResourceManager) (id : String) (hwf : WF st) :
    WF (st.removeResource (.inl id)) := by
  obtain ⟨hini, hres, F, htop, hgoodF, hndF, hent, hcomp⟩ := hwf
  have happ : st.removeResource (.inl id) = st.removeResourceBody id := by
    simp only [removeResource]
    rw [if_pos hini, whenFetchingResolved, if_pos hres]
    rfl
  cases hlook : idxLookup st.resourcesById id with
  | none =>
    have hbody : st.removeResourceBody id = st := by
      simp only [removeResourceBody, removeResourceFromIndex,
        removeResourceFromIndexCore, hlook]
    rw [happ, hbody]
    exact ⟨hini, hres, F, htop, hgoodF, hndF, hent, hcomp⟩
  | some r =>
    have hrmem := hent (id, r) (idxLookup_some_mem hlook)
    have hrF : r ∈ flatL F := hrmem.1
    have hridr : (st.getNode r).rid = id := hrmem.2
    obtain ⟨tm, htmF, htmr⟩ := mem_flatL_split hrF
    obtain ⟨tr, po2, htrroot, htrgood, htrsub⟩ :=
      subtreeAt_tree tm st none r (hgoodF tm htmF) htmr
    have htrflatF : ∀ j ∈ tr.flat, j ∈ flatL F := fun j hj =>
      mem_flatL_of_mem htmF (htrsub.subset hj)
    have htrnd : tr.flat.Nodup := (flat_nodup_of_mem hndF htmF).sublist htrsub
    have hFbound : ∀ j ∈ flatL F, j < st.nodes.length :=
      flat_lt_list F st (fun t ht => ⟨none, hgoodF t ht⟩)
    have hfuelI : tr.flat.length ≤ st.resourcesById.length := by
      have hinj : (tr.flat.map (fun j => (st.getNode j).rid)).Nodup := by
        refine List.Nodup.map_on ?_ htrnd
        intro x hx y hy hxy
        have h5 := hcomp x (htrflatF x hx)
        have h6 := hcomp y (htrflatF y hy)
        rw [hxy, h6] at h5
        cases h5
        rfl
      have hsub : ∀ k ∈ tr.flat.map (fun j => (st.getNode j).rid),
          k ∈ st.resourcesById.map Prod.fst := by
        intro k hk
        rw [List.mem_map] at hk
        obtain ⟨j, hj, rfl⟩ := hk
        exact idxLookup_mem_keys (hcomp j (htrflatF j hj))
      have hle := List.Subperm.length_le (List.subperm_of_subset hinj hsub)
      simpa using hle
    have hIdxRem : st.removeResourceFromIndex id =
        ({ st with resourcesById :=
            eraseKeys st.resourcesById (tr.flat.map (fun j => (st.getNode j).rid)) },
          some tr.root) := by
      rw [← hridr, ← htrroot]
      exact removeFromIndex_tree tr (st.resourcesById.length + 1) st po2 htrgood htrnd
        (by omega) (fun j hj => hcomp j (htrflatF j hj))
    have hgoodA : ∀ t ∈ F, goodT ({ st with resourcesById := eraseKeys st.resourcesById (tr.flat.map (fun j => (st.getNode j).rid)) } : ResourceManager) t none :=
      fun t ht => goodT_mono t st _ none (Nat.le_refl _) (fun _ _ => rfl) (hgoodF t ht)
    have hfuelT : (flatL F).length + 1 ≤ ({ st with resourcesById := eraseKeys st.resourcesById (tr.flat.map (fun j => (st.getNode j).rid)) } : ResourceManager).treeFuel := by
      have h5 := foldl_children_ge st.nodes 0
      have hflatFlen : (flatL F).length ≤ st.nodes.length := by
        have hsub := List.subperm_of_subset hndF
          (fun j hj => List.mem_range.mpr (hFbound j hj))
        have h6 := hsub.length_le
        simpa using h6
      show (flatL F).length + 1 ≤ (st.topLevelResources.getD []).length +
        st.nodes.foldl (fun a n => a + n.children.length + 1) 0 + 2
      omega
    obtain ⟨st2, ts2, tr2, por2, hresT, hteqT, hsomeT, _, hownT, hgoodT, hpermT, hroot2,
        hgoodtr2, hframeT, hparT, hridT⟩ :=
      remHit_list F _ ({ st with resourcesById := eraseKeys st.resourcesById (tr.flat.map (fun j => (st.getNode j).rid)) }) r none 0
        (by show (st.topLevelResources.getD []).drop 0 = rootsL F
            rw [htop, List.drop_zero]
            rfl)
        hgoodA hndF hrF hfuelT
        (fun p hp => nomatch hp)
        (fun _ => by show st.topLevelResources.isSome = true; rw [htop]; rfl)
    have htreq : tr2 = tr := by
      refine goodT_unique tr2 _ tr por2 po2 hgoodtr2 ?_ (by rw [hroot2, htrroot])
      exact goodT_mono tr st _ po2 (Nat.le_refl _) (fun _ _ => rfl) htrgood
    rw [htreq] at hpermT
    have hwrap : ({ st with resourcesById := eraseKeys st.resourcesById (tr.flat.map (fun j => (st.getNode j).rid)) } : ResourceManager).removeResourceFromTree r = (st2, true) := hresT
    have hbody : st.removeResourceBody id = st2.emitEv (.remove r st2.topLevelResources) := by
      simp only [removeResourceBody]
      rw [hIdxRem, htrroot]
      show (({ st with resourcesById := eraseKeys st.resourcesById (tr.flat.map (fun j => (st.getNode j).rid)) } : ResourceManager).removeResourceFromTree r).1.emitEv
        (.remove r (({ st with resourcesById := eraseKeys st.resourcesById (tr.flat.map (fun j => (st.getNode j).rid)) } : ResourceManager).removeResourceFromTree r).1.topLevelResources) =
        st2.emitEv (.remove r st2.topLevelResources)
      rw [hwrap]
    rw [happ, hbody]
    have hndNew : (flatL ts2 ++ tr.flat).Nodup := (hpermT.nodup_iff).mp hndF
    have hdisjNew := List.disjoint_of_nodup_append hndNew
    refine ⟨?_, ?_, ts2, ?_, ?_, hndNew.of_append_left, ?_, ?_⟩
    · show st2.isFetchingInitiated = true
      rw [coreEq_initiated hteqT.2.2.2]
      exact hini
    · show st2.isFetchingResolved = true
      rw [coreEq_resolved hteqT.2.2.2]
      exact hres
    · show st2.topLevelResources = some (rootsL ts2)
      have h7 := hownT
      rw [List.take_zero, List.nil_append] at h7
      have h8 : st2.topLevelResources.getD [] = rootsL ts2 := h7
      have h9 : st2.topLevelResources.isSome = true := by
        rw [hsomeT]
        show st.topLevelResources.isSome = true
        rw [htop]
        rfl
      cases h10 : st2.topLevelResources with
      | none => rw [h10] at h9; cases h9
      | some L =>
        rw [h10] at h8
        rw [show (some L).getD [] = L from rfl] at h8
        rw [h8]
    · intro t ht
      exact goodT_mono t st2 _ none (Nat.le_refl _) (fun _ _ => rfl) (hgoodT t ht)
    · intro e he
      have h5 : e ∈ st2.resourcesById := he
      rw [treeOpEq_resById hteqT] at h5
      have h6 : e ∈ eraseKeys st.resourcesById
          (tr.flat.map (fun j => (st.getNode j).rid)) := h5
      rw [mem_eraseKeys] at h6
      obtain ⟨hem, hknotin⟩ := h6
      have hentE := hent e hem
      refine ⟨?_, ?_⟩
      · have h7 := (hpermT.mem_iff).mp hentE.1
        rcases List.mem_append.mp h7 with h8 | h8
        · exact h8
        · exact absurd (by rw [← hentE.2]; exact List.mem_map_of_mem _ h8) hknotin
      · show (st2.getNode e.2).rid = e.1
        rw [hridT e.2]
        exact hentE.2
    · intro j hj
      have hjF : j ∈ flatL F := (hpermT.mem_iff).mpr (List.mem_append_left _ hj)
      have hjnotr : j ∉ tr.flat := fun hc => hdisjNew hj hc
      have hside : ∀ kk ∈ tr.flat.map (fun j2 => (st.getNode j2).rid),
          (st.getNode j).rid ≠ kk := by
        intro kk hkk he
        rw [List.mem_map] at hkk
        obtain ⟨j2, hj2, rfl⟩ := hkk
        have h5 := hcomp j hjF
        have h6 := hcomp j2 (htrflatF j2 hj2)
        rw [he, h6] at h5
        cases h5
        exact hjnotr hj2
      show idxLookup st2.resourcesById ((st2.getNode j).rid) = some j
      rw [treeOpEq_resById hteqT, hridT j]
      show idxLookup (eraseKeys st.resourcesById
        (tr.flat.map (fun j2 => (st.getNode j2).rid))) ((st.getNode j).rid) = some j
      rw [idxLookup_eraseKeys_ne _ _ _ hside]
      exact hcomp j hjF

/-- C1 (counterexample): the lockstep claim fails as stated.  One
`setResources` batch whose single input carries an unresolvable `parentId`
(`"zzz"`) leaves the resource in the flat index while the top-level list is
empty, so it is indexed but unreachable. -/
theorem c1_lockstep_broken :
    0 ∈ (construct.fetchResources (.list [.mk (some "a") (some "zzz") []]) none none
      (.user 1)).1.getFlatResources ∧
    ¬ Reachable (construct.fetchResources (.list [.mk (some "a") (some "zzz") []]) none none
      (.user 1)).1 0 := by
  constructor
  · decide
  · have htop : (construct.fetchResources (.list [.mk (some "a") (some "zzz") []]) none none
        (.user 1)).1.topLevelResources = some [] := rfl
    have hall : ∀ i, ¬ Reachable (construct.fetchResources
        (.list [.mk (some "a") (some "zzz") []]) none none (.user 1)).1 i := by
      intro i h
      induction h with
      | top hmem =>
        rw [htop] at hmem
        simp at hmem
      | child _ _ ih => exact ih
    exact hall 0

/-- C1 (amended): index/tree lockstep holds for every operation sequence whose
steps are well-shaped — reload batches with pairwise-distinct ids whose
hierarchy is expressed by nesting (top-level `parentId`s absent or empty), and
incremental adds with fresh, pairwise-distinct ids whose `parentId` is absent,
empty, or resolves in the index (removals are unrestricted).  Starting from
any state satisfying the representation invariant `WF`, the invariant is
maintained, and every resource in `getFlatResources` is reachable from the
top-level list through `children` links and vice versa. -/
theorem c1_lockstep_sequences (st : ResourceManager) (ops : List Op)
    (hwf : WF st) (hv : opsValid st ops = true) :
    WF (applyOps st ops) ∧
    ∀ i, i ∈ (applyOps st ops).getFlatResources ↔ Reachable (applyOps st ops) i := by
  induction ops generalizing st with
  | nil => exact ⟨hwf, WF_lockstep st hwf⟩
  | cons op ops ih =>
    simp only [opsValid, Bool.and_eq_true] at hv
    obtain ⟨h1, h2⟩ := hv
    have hwf2 : WF (applyOp st op) := by
      cases op with
      | setRes inputs => exact WF_setRes st inputs hwf h1
      | addRes input => exact WF_addRes st input hwf h1
      | removeRes id => exact WF_removeRes st id hwf
    rw [applyOps]
    exact ih (applyOp st op) hwf2 h2

/-- C1 witness: from a freshly resolved empty fetch, a reload installing
`a` (with nested child `b`) and `d` is followed by an incremental add of `c`
under `a` and the removal of `b`; the sequence is well-shaped and lockstep
holds afterwards. -/
theorem c1_witness :
    WF (construct.fetchResources (.list []) none none (.user 1)).1 ∧
    opsValid (construct.fetchResources (.list []) none none (.user 1)).1
      [Op.setRes [.mk (some "a") none [.mk (some "b") none []], .mk (some "d") none []],
       Op.addRes (.mk (some "c") (some "a") []),
       Op.removeRes "b"] = true ∧
    (WF (applyOps (construct.fetchResources (.list []) none none (.user 1)).1
      [Op.setRes [.mk (some "a") none [.mk (some "b") none []], .mk (some "d") none []],
       Op.addRes (.mk (some "c") (some "a") []),
       Op.removeRes "b"]) ∧
     ∀ i, i ∈ (applyOps (construct.fetchResources (.list []) none none (.user 1)).1
      [Op.setRes [.mk (some "a") none [.mk (some "b") none []], .mk (some "d") none []],
       Op.addRes (.mk (some "c") (some "a") []),
       Op.removeRes "b"]).getFlatResources ↔
      Reachable (applyOps (construct.fetchResources (.list []) none none (.user 1)).1
        [Op.setRes [.mk (some "a") none [.mk (some "b") none []], .mk (some "d") none []],
         Op.addRes (.mk (some "c") (some "a") []),
         Op.removeRes "b"]) i) := by
  have hwf : WF (construct.fetchResources (.list []) none none (.user 1)).1 := by
    refine ⟨rfl, rfl, [], rfl, ?_, by decide, ?_, ?_⟩
    · intro t ht
      cases ht
    · intro e he
      cases he
    · intro j hj
      cases hj
  refine ⟨hwf, by decide, ?_⟩
  exact c1_lockstep_sequences _ _ hwf (by decide)
